import Mathlib

/-!
# Population and event-lifecycle manager of MABE (apps/MABE/core/MABE.h)

A shallow embedding of `mabe::MABEBase`: the two organism buffers, the occupancy
counter, and the Add / Remove / Inject / Birth / Swap / Resize / Clear protocols,
together with a chronological log of everything the manager does that the outside
can see (signal triggers, policy queries, clones and deletions of organisms).
-/

namespace mabe

/-! ## Data model -/

/-- Identity of a heap-allocated organism (the pointee of an `emp::Ptr<OrganismBase>`). -/
abbrev Org := Nat

/-- The type `org_ptr_t = emp::Ptr<OrganismBase>`; `none` is `nullptr`. -/
abbrev org_ptr_t := Option Org

/-- The type `pop_t = emp::vector<org_ptr_t>`. -/
abbrev pop_t := List org_ptr_t

/-- Stand-in for the `double` entries of `fit_cache`; the manager only stores them,
and `0` plays the part of `0.0` (uncached). -/
abbrev fitness_t := Int

/-- Width of `size_t`. -/
def SIZE_MOD : Nat := 2 ^ 64

/-- Population selector: `active` is `pops[0]`, `next` is `pops[1]`. -/
inductive PopSel
  | active
  | next
  deriving DecidableEq, Repr

/-- Modelled from the spec: `World_structure.h` (class `WorldPosition`) is not among the
sources.  A position is a population selector together with an index, or the invalid
sentinel that a default-constructed position is. -/
inductive WorldPosition
  | invalid
  | mk (index : Nat) (pop : PopSel)
  deriving DecidableEq, Repr

/-- Ways in which a call can trap. -/
inductive Fault
  | assert_failed       -- an `emp_assert` of MABE.h does not hold
  | bad_address         -- a buffer is indexed through the invalid sentinel or out of range
  | null_deref          -- `*ptr` or `ptr->` on a null handle
  | bad_function_call   -- an empty `std::function` policy is called
  deriving DecidableEq, Repr

/-- Modelled from the spec: `WorldPosition::IsValid` ("query validity"). -/
def WorldPosition.IsValid : WorldPosition → Bool
  | .invalid => false
  | .mk _ _ => true

/-- Modelled from the spec: `WorldPosition::IsActive` ("query whether it targets the
active buffer"). -/
def WorldPosition.IsActive : WorldPosition → Bool
  | .mk _ .active => true
  | _ => false

/-- Modelled from the spec: the implicit conversion `size_t -> WorldPosition` that MABE.h
relies on in `RemoveOrgAt(i)` (Resize, "remove orgs past new size" of `pops[0]`) and in
`fun_find_birth_pos(new_org, parent_pos)`: an index into the active buffer. -/
def WorldPosition.ofIndex (i : Nat) : WorldPosition := .mk i .active

/-- The data members of `MABEBase` that the lifecycle protocols read or write. -/
structure MABEBase where
  /-- How many times has Update() been called? -/
  update : Nat
  /-- The buffer `pops[0]`. -/
  active_pop : pop_t
  /-- The buffer `pops[1]`. -/
  next_pop : pop_t
  /-- How many organisms are actually in the population (a `size_t`). -/
  num_orgs : Nat
  /-- Empty when not caching. -/
  fit_cache : List fitness_t
  cache_on : Bool
  /-- Sizes of the population dimensions. -/
  pop_sizes : List Nat
  deriving DecidableEq, Repr

/-- Everything the manager does that an outside party can observe: the signals of
MABE.h (with the arguments of `Trigger`), the policy queries, and the two operations on
organisms themselves, `Clone` and `Delete`. -/
inductive Event
  | before_repro (parent_pos : Nat)
  | offspring_ready (org : Org) (parent_pos : Nat)
  | inject_ready (org : Org)
  | before_placement (org : Org) (index : Nat)
  | on_placement (index : Nat)
  | on_update (update : Nat)
  | on_death (index : Nat)
  | on_swap (pos1 pos2 : WorldPosition)
  | MABE_destruct
  | find_inject_pos (org : Org)
  | find_birth_pos (org : Org) (parent_pos : WorldPosition)
  | Clone (parent child : Org)
  | Delete (org : Org)
  deriving DecidableEq, Repr

/-- One log entry: the event, and the data members as they are at that moment (what a
subscriber or policy that looks at the manager sees). -/
structure Entry where
  ev : Event
  seen : MABEBase
  deriving DecidableEq, Repr

/-- A manager in execution: its data members, the log so far (oldest first), and the
next unused organism identity of the heap. -/
structure Sys where
  mabe : MABEBase
  log : List Entry
  heap : Nat
  deriving DecidableEq, Repr

/-- The externally supplied decision functions (`std::function` members); `none` is an
empty `std::function`.  A policy may look at the manager it was set up for. -/
structure PolicySet where
  fun_find_inject_pos : Option (Sys → org_ptr_t → WorldPosition)
  fun_find_birth_pos : Option (Sys → org_ptr_t → WorldPosition → WorldPosition)

/-- State after `MABEBase(name)`: both buffers empty, `num_orgs(0)`, `update(0)`,
`fit_cache()`, `cache_on(false)`, `pop_sizes(1,0)`. -/
def MABEBase.init : MABEBase :=
  { update := 0, active_pop := [], next_pop := [], num_orgs := 0,
    fit_cache := [], cache_on := false, pop_sizes := [0] }

/-- A freshly constructed manager with an empty log. -/
def Sys.init : Sys := { mabe := MABEBase.init, log := [], heap := 0 }

/-! ## Buffers and logging -/

/-- The buffer `pops[pop_id]`. -/
def Sys.pops (w : Sys) : PopSel → pop_t
  | .active => w.mabe.active_pop
  | .next => w.mabe.next_pop

/-- Assignment to the buffer `pops[pop_id]`. -/
def Sys.setPop (w : Sys) (pop : PopSel) (v : pop_t) : Sys :=
  match pop with
  | .active => { w with mabe := { w.mabe with active_pop := v } }
  | .next => { w with mabe := { w.mabe with next_pop := v } }

/-- The chronological list of events, without the snapshots. -/
def Sys.events (w : Sys) : List Event := w.log.map Entry.ev

/-- Append an event to the log, with the data members as they are now. -/
def Sys.record (w : Sys) (e : Event) : Sys :=
  { w with log := w.log ++ [{ ev := e, seen := w.mabe }] }

/-- The call `sig.Trigger(args)`: every subscriber runs now, on the current state. -/
def Trigger (e : Event) (w : Sys) : Sys := w.record e

/-- The call `ptr.Delete()` on a non-null handle. -/
def Delete (org : Org) (w : Sys) : Sys := w.record (.Delete org)

/-- The call `parent->Clone()`: a new organism with an identity of its own. -/
def Clone (parent : Org) (w : Sys) : Org × Sys :=
  (w.heap, { w.record (.Clone parent w.heap) with heap := w.heap + 1 })

/-- The call `std::vector::resize(n, fill)`. -/
def vec_resize {α : Type} (v : List α) (n : Nat) (fill : α) : List α :=
  v.take n ++ List.replicate (n - v.length) fill

/-- Modelled from the spec: `WorldVector::MakeValid` (World_structure.h is not among the
sources) "grows the addressed buffer, if needed, so pos is indexable"; growth fills the
new slots empty. -/
def MakeValid (id : Nat) (pop : PopSel) (w : Sys) : Sys :=
  if id < (w.pops pop).length then w
  else w.setPop pop (vec_resize (w.pops pop) (id + 1) none)

/-- The increment `++num_orgs` on a `size_t`. -/
def incr (n : Nat) : Nat := (n + 1) % SIZE_MOD

/-- The decrement `--num_orgs` on a `size_t`. -/
def decr (n : Nat) : Nat := (n + (SIZE_MOD - 1)) % SIZE_MOD

/-- Number of non-empty slots of a buffer. -/
def occupied (v : pop_t) : Nat := v.countP Option.isSome

/-! ## Lifecycle protocols -/

/-- The function `MABEBase::RemoveOrgAt` (MABE.h 514-533). -/
def RemoveOrgAt (pos : WorldPosition) (w : Sys) : Except Fault Sys :=
  match pos with
  | .invalid => .error .bad_address            -- the sentinel has no index and no buffer
  | .mk id pop =>
    let cur_pop := w.pops pop
    match cur_pop[id]? with
    | none => .ok w                             -- id >= cur_pop.size(): nothing to remove
    | some none => .ok w                        -- !cur_pop[id]: nothing to remove
    | some (some org) =>
      -- if active, signal that org is about to die
      let w1 := if pos.IsActive then Trigger (.on_death id) w else w
      -- delete the organism and reset the pointer to null
      let w2 := Delete org w1
      let w3 := w2.setPop pop ((w2.pops pop).set id none)
      -- track one fewer organisms in the population
      if pos.IsActive then
        .ok { w3 with mabe := { w3.mabe with num_orgs := decr w3.mabe.num_orgs } }
      else .ok w3

/-- The function `MABEBase::AddOrgAt` (MABE.h 483-512). -/
def AddOrgAt (new_org : org_ptr_t) (pos : WorldPosition) (p_pos : WorldPosition)
    (w : Sys) : Except Fault Sys :=
  match new_org with
  | none => .error .assert_failed               -- emp_assert(new_org)
  | some org =>
    match pos with
    | .invalid => .error .assert_failed         -- emp_assert(pos.IsValid())
    | .mk id pop =>
      -- if going into the active population, trigger signal before doing so
      let w1 := if pos.IsActive then Trigger (.before_placement org id) w else w
      -- clear out any old organism at this position
      match RemoveOrgAt pos w1 with
      | .error e => .error e
      | .ok w2 =>
        let w3 := MakeValid id pop w2            -- make sure we have room
        let w4 := w3.setPop pop ((w3.pops pop).set id (some org))   -- put org into place
        -- track org count
        let w5 := if pos.IsActive then
            { w4 with mabe := { w4.mabe with num_orgs := incr w4.mabe.num_orgs } }
          else w4
        -- if in the active population, trigger associated signal
        .ok (if pos.IsActive then Trigger (.on_placement id) w5 else w5)

/-- The function `MABEBase::DoDeath` (MABE.h 362). -/
def DoDeath (pos : WorldPosition) (w : Sys) : Except Fault Sys := RemoveOrgAt pos w

/-- One pass through the loop body of `MABEBase::Inject` (MABE.h 537-541). -/
def InjectStep (ps : PolicySet) (new_org : org_ptr_t) (w : Sys) : Except Fault Sys :=
  match new_org with
  | none => .error .null_deref                  -- *new_org
  | some org =>
    let w1 := Trigger (.inject_ready org) w
    match ps.fun_find_inject_pos with
    | none => .error .bad_function_call
    | some f =>
      let pos := f w1 new_org
      let w2 := w1.record (.find_inject_pos org)
      if pos.IsValid then AddOrgAt new_org pos .invalid w2   -- placement position is valid
      else .ok (Delete org w2)                                -- otherwise delete the organism

/-- The function `MABEBase::Inject` (MABE.h 535-543): the body runs `copy_count` times,
each time on the same handle `new_org`. -/
def Inject (ps : PolicySet) (new_org : org_ptr_t) : Nat → Sys → Except Fault Sys
  | 0, w => .ok w
  | n + 1, w =>
    match InjectStep ps new_org w with
    | .error e => .error e
    | .ok w1 => Inject ps new_org n w1

/-- The function `MABEBase::InjectAt` (MABE.h 545-549). -/
def InjectAt (new_org : org_ptr_t) (pos : WorldPosition) (w : Sys) : Except Fault Sys :=
  if pos.IsValid then
    match new_org with
    | none => .error .null_deref                -- *new_org
    | some org => AddOrgAt new_org pos .invalid (Trigger (.inject_ready org) w)
  else .error .assert_failed                    -- emp_assert(pos.IsValid())

/-- One pass through the loop body of `MABEBase::DoBirth` (MABE.h 560-565); gives the new
value of the local `pos` and the new state. -/
def DoBirthStep (ps : PolicySet) (parent_ptr : org_ptr_t) (parent_pos : Nat) (w : Sys) :
    Except Fault (WorldPosition × Sys) :=
  match parent_ptr with
  | none => .error .null_deref                  -- parent_ptr->Clone()
  | some parent =>
    let (new_org, w1) := Clone parent w          -- offspring is initially clone of parent
    let w2 := Trigger (.offspring_ready new_org parent_pos) w1
    match ps.fun_find_birth_pos with
    | none => .error .bad_function_call
    | some f =>
      let pos := f w2 (some new_org) (WorldPosition.ofIndex parent_pos)
      let w3 := w2.record (.find_birth_pos new_org (WorldPosition.ofIndex parent_pos))
      if pos.IsValid then
        match AddOrgAt (some new_org) pos (WorldPosition.ofIndex parent_pos) w3 with
        | .error e => .error e
        | .ok w4 => .ok (pos, w4)
      else .ok (pos, Delete new_org w3)

/-- The loop of `MABEBase::DoBirth` (MABE.h 559-566), with the number of passes still to
run and the current value of the local `pos`. -/
def DoBirthLoop (ps : PolicySet) (parent_ptr : org_ptr_t) (parent_pos : Nat) :
    Nat → WorldPosition → Sys → Except Fault (WorldPosition × Sys)
  | 0, pos, w => .ok (pos, w)
  | n + 1, _, w =>
    match DoBirthStep ps parent_ptr parent_pos w with
    | .error e => .error e
    | .ok (pos, w1) => DoBirthLoop ps parent_ptr parent_pos n pos w1

/-- The function `MABEBase::DoBirth` (MABE.h 556-568): returns the local `pos`. -/
def DoBirth (ps : PolicySet) (parent_ptr : org_ptr_t) (parent_pos : Nat) (copy_count : Nat)
    (w : Sys) : Except Fault (WorldPosition × Sys) :=
  DoBirthLoop ps parent_ptr parent_pos copy_count .invalid
    (Trigger (.before_repro parent_pos) w)

/-- The function `MABEBase::Swap` (MABE.h 317-320); `pops(pos)` needs an in-bounds slot. -/
def Swap (pos1 pos2 : WorldPosition) (w : Sys) : Except Fault Sys :=
  match pos1, pos2 with
  | .mk i1 p1, .mk i2 p2 =>
    match (w.pops p1)[i1]?, (w.pops p2)[i2]? with
    | some a, some b =>
      let w1 := w.setPop p1 ((w.pops p1).set i1 b)
      let w2 := w1.setPop p2 ((w1.pops p2).set i2 a)
      .ok (Trigger (.on_swap pos1 pos2) w2)
    | _, _ => .error .bad_address
  | _, _ => .error .bad_address

/-- The loop `for (i = start; i < pops[pop].size(); i++) RemoveOrgAt(WorldPosition(i,pop))`
with `n` passes left (`RemoveOrgAt` never changes the length of a buffer, so `n` is
`size - start` on entry). -/
def RemoveOrgsFrom (pop : PopSel) : Nat → Nat → Sys → Except Fault Sys
  | _, 0, w => .ok w
  | i, n + 1, w =>
    match RemoveOrgAt (.mk i pop) w with
    | .error e => .error e
    | .ok w1 => RemoveOrgsFrom pop (i + 1) n w1

/-- The function `MABEBase::Resize(size_t)` (MABE.h 324-327). -/
def Resize (new_size : Nat) (w : Sys) : Except Fault Sys :=
  match RemoveOrgsFrom .active new_size (w.mabe.active_pop.length - new_size) w with
  | .error e => .error e
  | .ok w1 => .ok (w1.setPop .active (vec_resize w1.mabe.active_pop new_size none))

/-- One pass of the outer loop of `MABEBase::Clear` (MABE.h 308-309). -/
def ClearPop (pop : PopSel) (w : Sys) : Except Fault Sys :=
  match RemoveOrgsFrom pop 0 (w.pops pop).length w with
  | .error e => .error e
  | .ok w1 => .ok (w1.setPop pop (vec_resize (w1.pops pop) 0 none))

/-- The function `MABEBase::Clear` (MABE.h 306-311). -/
def Clear (w : Sys) : Except Fault Sys :=
  match ClearPop .active w with
  | .error e => .error e
  | .ok w1 => ClearPop .next w1

/-- The function `MABEBase::Reset` (MABE.h 314). -/
def Reset (w : Sys) : Except Fault Sys :=
  match Clear w with
  | .error e => .error e
  | .ok w1 => .ok { w1 with mabe := { w1.mabe with update := 0 } }

/-- The function `MABEBase::IsOccupied` (MABE.h 245): `pops.IsValid(pos) && pops(pos)`,
where `WorldVector::IsValid` (World_structure.h, not among the sources) is the test that
the index lies inside the addressed buffer. -/
def IsOccupied (pos : WorldPosition) (w : Sys) : Except Fault Bool :=
  match pos with
  | .invalid => .error .bad_address
  | .mk id pop =>
    match (w.pops pop)[id]? with
    | none => .ok false
    | some slot => .ok slot.isSome

/-! ## Vocabulary for stating properties -/

/-- The buffer after `MakeValid` for index `id`: unchanged when `id` is indexable, else
grown to `id + 1` slots with the new ones empty. -/
def grown (v : pop_t) (id : Nat) : pop_t :=
  if id < v.length then v else vec_resize v (id + 1) none

/-- Slot `id` of the buffer exists and holds an organism. -/
def occupiedAt (v : pop_t) (id : Nat) : Bool :=
  match v[id]? with
  | some (some _) => true
  | _ => false

/-- What the removal protocol logs for a slot with the given content (`none`: no such
slot): `on_death` when the buffer is the active one, then the `Delete`. -/
def deathEvents (pop : PopSel) (id : Nat) (slot : Option org_ptr_t) : List Event :=
  match slot with
  | some (some o) => (if pop = .active then [Event.on_death id] else []) ++ [Event.Delete o]
  | _ => []

/-- The events logged between an earlier state `w` and a later state `w1`. -/
def emitted (w w1 : Sys) : List Event := w1.events.drop w.events.length

/-- The event is the trigger of one of the signals of MABE.h. -/
def Event.isSignal : Event → Bool
  | .before_repro _ => true
  | .offspring_ready _ _ => true
  | .inject_ready _ => true
  | .before_placement _ _ => true
  | .on_placement _ => true
  | .on_update _ => true
  | .on_death _ => true
  | .on_swap _ _ => true
  | .MABE_destruct => true
  | _ => false

/-- The event is a trigger of `on_death`. -/
def Event.isOnDeath : Event → Bool
  | .on_death _ => true
  | _ => false

/-- The event belongs to the placement phase of one offspring: what `AddOrgAt` logs, or
the `Delete` of an offspring that found no place. -/
def Event.isPlacementPhase : Event → Bool
  | .before_placement _ _ => true
  | .on_death _ => true
  | .on_placement _ => true
  | .Delete _ => true
  | _ => false

/-- The event is a trigger of `before_repro`. -/
def Event.isBeforeRepro : Event → Bool
  | .before_repro _ => true
  | _ => false

/-- The event is a trigger of `offspring_ready`. -/
def Event.isOffspringReady : Event → Bool
  | .offspring_ready _ _ => true
  | _ => false

/-- The event is a `Clone`. -/
def Event.isClone : Event → Bool
  | .Clone _ _ => true
  | _ => false

/-- The events of `k` passes of the birth loop, one block per pass: the clone of the
parent, `offspring_ready` for that clone with the parent index, the birth-position query
for that clone with the parent index, and then only placement-phase events until the next
block starts. -/
def BirthBlocks (parent : Org) (parent_pos : Nat) : Nat → List Event → Prop
  | 0, evs => evs = []
  | k + 1, evs => ∃ child tail rest,
      evs = Event.Clone parent child :: Event.offspring_ready child parent_pos ::
        Event.find_birth_pos child (WorldPosition.ofIndex parent_pos) :: (tail ++ rest) ∧
      (∀ e ∈ tail, e.isPlacementPhase = true) ∧ BirthBlocks parent parent_pos k rest

/-- The indices of the empty slots of a buffer, in ascending order. -/
def emptySlots (v : pop_t) : List Nat :=
  (List.range v.length).filter (fun i => v[i]? == some none)

/-- The indices carried by the `on_placement` triggers of a list of events, in order. -/
def placements (evs : List Event) : List Nat :=
  evs.filterMap (fun e => match e with
    | .on_placement i => some i
    | _ => none)

/-- A birth-position policy that returns the lowest-index empty active slot (and the
invalid position when the active buffer has no empty slot). -/
def lowestEmptyBirthPos (w : Sys) (_new_org : org_ptr_t) (_parent_pos : WorldPosition) :
    WorldPosition :=
  match (emptySlots w.mabe.active_pop).head? with
  | some i => .mk i .active
  | none => .invalid

/-- An inject-position policy that always returns the invalid position. -/
def rejectInjectPos (_w : Sys) (_new_org : org_ptr_t) : WorldPosition := .invalid

/-- The two policies above, configured. -/
def exPolicies : PolicySet :=
  { fun_find_inject_pos := some rejectInjectPos, fun_find_birth_pos := some lowestEmptyBirthPos }

/-! ## Example states -/

/-- A manager with an active buffer of size 5 in which only index 2 is occupied (by
organism 7). -/
def exFive : Sys :=
  { mabe := { update := 0, active_pop := [none, none, some 7, none, none], next_pop := [],
              num_orgs := 1, fit_cache := [], cache_on := false, pop_sizes := [0] },
    log := [], heap := 8 }


/-- A manager whose active buffer is the single slot 0, holding organism 7. -/
def exOneOrg : Sys :=
  { mabe := { update := 0, active_pop := [some 7], next_pop := [], num_orgs := 1,
              fit_cache := [], cache_on := false, pop_sizes := [0] },
    log := [], heap := 8 }

/-- A manager with an active buffer of size 2: organism 7 at index 0, index 1 empty. -/
def exTwo : Sys :=
  { mabe := { update := 0, active_pop := [some 7, none], next_pop := [],
              num_orgs := 1, fit_cache := [], cache_on := false, pop_sizes := [0] },
    log := [], heap := 8 }

/-! ## Operation sequences -/

/-- A call of one of the public mutating operations. -/
inductive Op
  | AddOrgAt (new_org : org_ptr_t) (pos : WorldPosition)
  | RemoveOrgAt (pos : WorldPosition)
  | DoDeath (pos : WorldPosition)
  | Inject (new_org : org_ptr_t) (copy_count : Nat)
  | InjectAt (new_org : org_ptr_t) (pos : WorldPosition)
  | DoBirth (parent_ptr : org_ptr_t) (parent_pos : Nat) (copy_count : Nat)
  | Swap (pos1 pos2 : WorldPosition)
  | Resize (new_size : Nat)
  | Clear
  | Reset

/-- Run one call. -/
def Op.apply (ps : PolicySet) : Op → Sys → Except Fault Sys
  | .AddOrgAt new_org pos, w => mabe.AddOrgAt new_org pos .invalid w
  | .RemoveOrgAt pos, w => mabe.RemoveOrgAt pos w
  | .DoDeath pos, w => mabe.DoDeath pos w
  | .Inject new_org copy_count, w => mabe.Inject ps new_org copy_count w
  | .InjectAt new_org pos, w => mabe.InjectAt new_org pos w
  | .DoBirth parent_ptr parent_pos copy_count, w =>
    match mabe.DoBirth ps parent_ptr parent_pos copy_count w with
    | .error e => .error e
    | .ok (_, w1) => .ok w1
  | .Swap pos1 pos2, w => mabe.Swap pos1 pos2 w
  | .Resize new_size, w => mabe.Resize new_size w
  | .Clear, w => mabe.Clear w
  | .Reset, w => mabe.Reset w

/-- Run a sequence of calls, oldest first; a trap ends the run. -/
def runOps (ps : PolicySet) : List Op → Sys → Except Fault Sys
  | [], w => .ok w
  | op :: rest, w =>
    match op.apply ps w with
    | .error e => .error e
    | .ok w1 => runOps ps rest w1

/-- The position is valid and its index lies inside the addressed buffer. -/
def inBounds (pos : WorldPosition) (w : Sys) : Bool :=
  match pos with
  | .invalid => false
  | .mk id pop => decide (id < (w.pops pop).length)

/-! ## Sizes, structured resizing and random selection -/

/-- The function `MABEBase::GetSize` (MABE.h 170). -/
def GetSize (w : Sys) : Nat := w.mabe.active_pop.length

/-- The function `MABEBase::GetNumOrgs` (MABE.h 173). -/
def GetNumOrgs (w : Sys) : Nat := w.mabe.num_orgs

/-- The function `MABEBase::GetWidth` (MABE.h 179): `pop_sizes[0]`. -/
def GetWidth (w : Sys) : Except Fault Nat :=
  match w.mabe.pop_sizes[0]? with
  | some x => .ok x
  | none => .error .bad_address

/-- The function `MABEBase::GetHeight` (MABE.h 182): `pop_sizes[1]`. -/
def GetHeight (w : Sys) : Except Fault Nat :=
  match w.mabe.pop_sizes[1]? with
  | some x => .ok x
  | none => .error .bad_address

/-- Multiplication of two `size_t` values. -/
def mul_size (a b : Nat) : Nat := (a * b) % SIZE_MOD

/-- The function `MABEBase::Resize(size_t, size_t)` (MABE.h 330-334). -/
def Resize_wh (new_width new_height : Nat) (w : Sys) : Except Fault Sys :=
  match Resize (mul_size new_width new_height) w with
  | .error e => .error e
  | .ok w1 =>
    let sizes := vec_resize w1.mabe.pop_sizes 2 0            -- pop_sizes.resize(2)
    let sizes := (sizes.set 0 new_width).set 1 new_height    -- pop_sizes[0], pop_sizes[1]
    .ok { w1 with mabe := { w1.mabe with pop_sizes := sizes } }

/-- Modelled from the spec: `emp::Product` (not among the sources), the "product of
dimensions", computed in `size_t`. -/
def Product (dims : List Nat) : Nat := dims.foldl mul_size 1

/-- The function `MABEBase::Resize(const emp::vector<size_t> &)` (MABE.h 337-340), for
any function in the place of `emp::Product`. -/
def Resize_dims (product : List Nat → Nat) (dims : List Nat) (w : Sys) : Except Fault Sys :=
  match Resize (product dims) w with
  | .error e => .error e
  | .ok w1 => .ok { w1 with mabe := { w1.mabe with pop_sizes := dims } }

/-- The loop `while (active_pop[pos] == nullptr) pos = random.GetUInt(0, size)` of
`GetRandomOrgID` (MABE.h 369), with the current `pos` and the draws still to come from
`random`; `none` when these run out while the loop is still going. -/
def GetRandomOrgIDLoop (active_pop : pop_t) : Nat → List Nat → Except Fault (Option Nat)
  | pos, [] =>
    match active_pop[pos]? with
    | none => .error .bad_address               -- active_pop[pos] out of range
    | some (some _) => .ok (some pos)           -- return pos
    | some none => .ok none                     -- next draw wanted, none left
  | pos, d :: rest =>
    match active_pop[pos]? with
    | none => .error .bad_address               -- active_pop[pos] out of range
    | some (some _) => .ok (some pos)           -- return pos
    | some none => GetRandomOrgIDLoop active_pop d rest   -- pos = random.GetUInt(0, size)

/-- The function `MABEBase::GetRandomOrgID` (MABE.h 366-371), for the sequence of values
that the calls `random.GetUInt(0, active_pop.size())` return. -/
def GetRandomOrgID (draws : List Nat) (w : Sys) : Except Fault (Option Nat) :=
  if w.mabe.num_orgs = 0 then .error .assert_failed   -- emp_assert(num_orgs > 0)
  else
    match draws with
    | [] => .ok none
    | d :: rest => GetRandomOrgIDLoop w.mabe.active_pop d rest

/-! ## More vocabulary -/

/-- The content of the slot a position addresses; `none` when there is no such slot. -/
def Sys.slotAt (w : Sys) (pop : PopSel) (i : Nat) : Option org_ptr_t := (w.pops pop)[i]?

/-- The organisms held by a buffer, in slot order. -/
def occupants (v : pop_t) : List Org := v.filterMap id

/-- The indices of the occupied slots of a buffer, in ascending order. -/
def occupiedSlots (v : pop_t) : List Nat :=
  (List.range v.length).filter (fun i => occupiedAt v i)

/-- The indices carried by the `on_death` triggers of a list of events, in order. -/
def onDeaths (evs : List Event) : List Nat :=
  evs.filterMap (fun e => match e with
    | .on_death i => some i
    | _ => none)

/-- The organisms released by a list of events, in order. -/
def deletes (evs : List Event) : List Org :=
  evs.filterMap (fun e => match e with
    | .Delete o => some o
    | _ => none)

/-- What the removal protocol logs when it runs over the slots `slots`, which sit at the
indices `i`, `i + 1`, ... of buffer `pop`. -/
def removalEvents (pop : PopSel) : Nat → pop_t → List Event
  | _, [] => []
  | i, slot :: rest => deathEvents pop i (some slot) ++ removalEvents pop (i + 1) rest

/-- The decrement `--num_orgs`, `k` times. -/
def decrBy (k n : Nat) : Nat := Nat.iterate decr k n

/-- The organisms held by the two buffers together. -/
def Sys.allOccupants (w : Sys) : List Org :=
  occupants w.mabe.active_pop ++ occupants w.mabe.next_pop

/-- An inject-position policy that returns the lowest-index empty active slot (and the
invalid position when there is none). -/
def lowestEmptyInjectPos (w : Sys) (_new_org : org_ptr_t) : WorldPosition :=
  match (emptySlots w.mabe.active_pop).head? with
  | some i => .mk i .active
  | none => .invalid

/-- Policies that place at the lowest-index empty active slot, for injection and birth. -/
def exPlacingPolicies : PolicySet :=
  { fun_find_inject_pos := some lowestEmptyInjectPos,
    fun_find_birth_pos := some lowestEmptyBirthPos }

/-- A manager with caching on, two cached fitness values, and organism 7 in slot 0 of a
two-slot active buffer. -/
def exCached : Sys :=
  { mabe := { update := 0, active_pop := [some 7, none], next_pop := [], num_orgs := 1,
              fit_cache := [5, 3], cache_on := true, pop_sizes := [2] },
    log := [], heap := 8 }

/-- The calls of the selection scenario: `Resize(5)` on a fresh manager, then `AddOrgAt`
at the active indices 0 to 4. -/
def exFillOps : List Op :=
  [.Resize 5, .AddOrgAt (some 10) (.mk 0 .active), .AddOrgAt (some 11) (.mk 1 .active),
   .AddOrgAt (some 12) (.mk 2 .active), .AddOrgAt (some 13) (.mk 3 .active),
   .AddOrgAt (some 14) (.mk 4 .active)]

/-- The data members these calls leave behind (with an empty log). -/
def exFull : Sys :=
  { mabe := { update := 0,
              active_pop := [some 10, some 11, some 12, some 13, some 14], next_pop := [],
              num_orgs := 5, fit_cache := [], cache_on := false, pop_sizes := [0] },
    log := [], heap := 15 }

/-- A birth-position policy that always returns the invalid position. -/
def rejectBirthPos (_w : Sys) (_new_org : org_ptr_t) (_parent_pos : WorldPosition) :
    WorldPosition := .invalid

/-- An inject-position policy that returns the position `pos` whatever it is asked. -/
def fixedInjectPos (pos : WorldPosition) (_w : Sys) (_new_org : org_ptr_t) : WorldPosition := pos

/-- The log entries that are signal triggers, each with the state its subscribers saw. -/
def signalEntries (log : List Entry) : List Entry := log.filter (fun e => e.ev.isSignal)

/-- The events of `k` passes of the birth loop in which every offspring is rejected, the
first clone being organism `h`: clone, `offspring_ready`, position query, release. -/
def rejectedBirthEvents (parent : Org) (parent_pos : Nat) : Nat → Nat → List Event
  | _, 0 => []
  | h, k + 1 =>
    [Event.Clone parent h, Event.offspring_ready h parent_pos,
     Event.find_birth_pos h (WorldPosition.ofIndex parent_pos), Event.Delete h]
      ++ rejectedBirthEvents parent parent_pos (h + 1) k

/-- The event is a trigger of `before_placement`, `on_placement` or `on_death`. -/
def Event.isPlacementSignal : Event → Bool
  | .before_placement _ _ => true
  | .on_placement _ => true
  | .on_death _ => true
  | _ => false

/-- The organisms made by the `Clone` events of a list of events, in order. -/
def clones (evs : List Event) : List Org :=
  evs.filterMap (fun e => match e with
    | .Clone _ child => some child
    | _ => none)

/-- A birth-position policy that returns the position of the parent. -/
def birthAtParent (_w : Sys) (_new_org : org_ptr_t) (parent_pos : WorldPosition) :
    WorldPosition := parent_pos

/-- Policies with `birthAtParent` for births. -/
def exParentPolicies : PolicySet :=
  { fun_find_inject_pos := some rejectInjectPos, fun_find_birth_pos := some birthAtParent }

/-- The slots of both buffers, the active one first. -/
def Sys.allSlots (w : Sys) : List org_ptr_t := w.mabe.active_pop ++ w.mabe.next_pop

/-- Some `Clone` in the list of events is taken from an organism that an earlier `Delete`
of the list (or of `released`) released. -/
def cloneOfReleased : List Org → List Event → Bool
  | _, [] => false
  | released, .Delete o :: rest => cloneOfReleased (o :: released) rest
  | released, .Clone parent _ :: rest =>
    released.contains parent || cloneOfReleased released rest
  | released, _ :: rest => cloneOfReleased released rest

end mabe

/-! ## Graphs (tools/Graph.h, tools/graph_utils.h) -/

namespace emp

/-- Ways in which a call can trap. -/
inductive Trap
  | assert_failed     -- an `emp_assert` does not hold
  | out_of_range      -- a vector is indexed outside its size
  deriving DecidableEq, Repr

/-- Modelled from the spec: `Graph.h` (class `emp::Graph`) is not among the sources and the
spec does not describe it, so the model follows the way graph_utils.h and make_graph.cc use
the class: a graph on `size` vertices records for each vertex the set of vertices it has an
edge to (`load_graph_table` fills it from a table of 0s and 1s with `AddEdge(i, j)`, and
make_graph.cc takes `GetEdgeCount()/2` for the number of undirected edges). -/
structure Graph where
  /-- Number of vertices. -/
  size : Nat
  /-- The pairs `(from, to)` such that vertex `from` has an edge to vertex `to`. -/
  edges : Finset (Nat × Nat)

/-- Modelled from the spec: the constructor `Graph(num_nodes)`, no edge yet. -/
def Graph.init (num_nodes : Nat) : Graph := { size := num_nodes, edges := ∅ }

/-- Modelled from the spec: `Graph::GetSize`. -/
def Graph.GetSize (g : Graph) : Nat := g.size

/-- Modelled from the spec: `Graph::GetEdgeCount`, the number of (directed) edges. -/
def Graph.GetEdgeCount (g : Graph) : Nat := g.edges.card

/-- Modelled from the spec: `Graph::HasEdge(from, to)`; both vertices must exist. -/
def Graph.HasEdge (g : Graph) (from_id to_id : Nat) : Except Trap Bool :=
  if from_id < g.size ∧ to_id < g.size then .ok (decide ((from_id, to_id) ∈ g.edges))
  else .error .assert_failed

/-- Modelled from the spec: `Graph::AddEdge(from, to)`; both vertices must exist. -/
def Graph.AddEdge (g : Graph) (from_id to_id : Nat) : Except Trap Graph :=
  if from_id < g.size ∧ to_id < g.size then
    .ok { g with edges := insert (from_id, to_id) g.edges }
  else .error .assert_failed

/-- Modelled from the spec: `Graph::AddEdgePair(from, to)`, the edge in both directions. -/
def Graph.AddEdgePair (g : Graph) (from_id to_id : Nat) : Except Trap Graph :=
  if from_id < g.size ∧ to_id < g.size then
    .ok { g with edges := insert (to_id, from_id) (insert (from_id, to_id) g.edges) }
  else .error .assert_failed

/-- The access `v[i]` to an `emp::vector`. -/
def vec_at (v : List Nat) (i : Nat) : Except Trap Nat :=
  match v[i]? with
  | some x => .ok x
  | none => .error .out_of_range

/-- Modelled from the spec: what `BuildRange<size_t>(0, v_count)` followed by
`Shuffle(random, v_map)` (random_utils.h, not among the sources) can leave in `v_map`: the
numbers `0 .. v_count-1` in some order. -/
def IsShuffle (v_count : Nat) (v_map : List Nat) : Prop := v_map.Perm (List.range v_count)

/-- The two statements `graph.AddEdgePair(v_map[a], v_map[b])`. -/
def addMapped (v_map : List Nat) (a b : Nat) (graph : Graph) : Except Trap Graph :=
  match vec_at v_map a with
  | .error e => .error e
  | .ok from_id =>
    match vec_at v_map b with
    | .error e => .error e
    | .ok to_id => graph.AddEdgePair from_id to_id

/-- The function `build_graph_ring` (graph_utils.h 25-40), for the outcome `v_map` of the
shuffle. -/
def build_graph_ring (v_count : Nat) (v_map : List Nat) : Except Trap Graph :=
  match (List.range' 1 (v_count - 1)).foldlM
      (fun graph i => addMapped v_map i (i - 1) graph) (Graph.init v_count) with
  | .error e => .error e
  | .ok graph => addMapped v_map 0 (v_count - 1) graph

/-- The function `build_graph_tree` (graph_utils.h 42-55), for the outcome `v_map` of the
shuffle and the value `draw i` that `random.GetUInt(i)` returns in pass `i`. -/
def build_graph_tree (v_count : Nat) (v_map : List Nat) (draw : Nat → Nat) :
    Except Trap Graph :=
  (List.range' 1 (v_count - 1)).foldlM
    (fun graph i => addMapped v_map i (draw i) graph) (Graph.init v_count)

/-- The loop `while (e_cur < e_count)` of `build_graph_random` (graph_utils.h 77-85), fed
with the pairs `(from, to)` still to be drawn; `none` when these run out while the loop is
still going. -/
def random_loop (e_count : Nat) : List (Nat × Nat) → Nat → Graph → Except Trap (Option Graph)
  | [], e_cur, graph => if e_cur < e_count then .ok none else .ok (some graph)
  | (from_id, to_id) :: rest, e_cur, graph =>
    if e_cur < e_count then
      if from_id = to_id then random_loop e_count rest e_cur graph          -- continue
      else
        match graph.HasEdge from_id to_id with
        | .error e => .error e
        | .ok true => random_loop e_count rest e_cur graph                   -- continue
        | .ok false =>
          match graph.AddEdgePair from_id to_id with
          | .error e => .error e
          | .ok graph1 => random_loop e_count rest (e_cur + 1) graph1
    else .ok (some graph)

/-- The function `build_graph_random` (graph_utils.h 57-88), for the outcome of the shuffle
and the draws of the tree, and the pairs drawn by the loop. -/
def build_graph_random (v_count e_count : Nat) (v_map : List Nat) (draw : Nat → Nat)
    (extra : List (Nat × Nat)) (connected : Bool) : Except Trap (Option Graph) :=
  let max_edges := (v_count * (v_count - 1)) % mabe.SIZE_MOD / 2
  if ¬ (v_count ≥ 2 ∧ e_count > 0) then .error .assert_failed
  else if ¬ (e_count ≤ max_edges) then .error .assert_failed
  else if connected then
    if ¬ (e_count ≥ v_count - 1) then .error .assert_failed
    else
      match build_graph_tree v_count v_map draw with
      | .error e => .error e
      | .ok graph => random_loop e_count extra (v_count - 1) graph
  else random_loop e_count extra 0 (Graph.init v_count)

/-- The body of the inner loop of `build_graph_grid` (graph_utils.h 103-109), for the
outcomes `use_h`, `use_v` of the two calls `random.P(prob_use)`. -/
def grid_cell (width height : Nat) (v_map : List Nat) (use_h use_v : Bool) (x y : Nat)
    (graph : Graph) : Except Trap Graph :=
  let from_id := y * width + x
  match (if x ≠ width - 1 ∧ use_h = true then addMapped v_map from_id (from_id + 1) graph
         else .ok graph) with
  | .error e => .error e
  | .ok graph1 =>
    if y ≠ height - 1 ∧ use_v = true then addMapped v_map from_id (from_id + width) graph1
    else .ok graph1

/-- The function `build_graph_grid` (graph_utils.h 90-114), for the outcome `v_map` of the
shuffle and the outcomes `use_h x y`, `use_v x y` of the calls `random.P(prob_use)` in the
pass for `x`, `y`. -/
def build_graph_grid (width height : Nat) (v_map : List Nat) (use_h use_v : Nat → Nat → Bool) :
    Except Trap Graph :=
  if ¬ (width > 0 ∧ height > 0) then .error .assert_failed
  else
    let v_count := (width * height) % mabe.SIZE_MOD
    (List.range width).foldlM
      (fun graph x => (List.range height).foldlM
        (fun graph1 y => grid_cell width height v_map (use_h x y) (use_v x y) x y graph1) graph)
      (Graph.init v_count)

/-! ### Vocabulary for graphs -/

/-- Vertex `a` has an edge to vertex `b`. -/
def Graph.Adj (g : Graph) (a b : Nat) : Prop := (a, b) ∈ g.edges

/-- Every edge is there in both directions. -/
def Graph.Symmetric (g : Graph) : Prop := ∀ a b, (a, b) ∈ g.edges → (b, a) ∈ g.edges

/-- No vertex has an edge to itself. -/
def Graph.NoSelfLoop (g : Graph) : Prop := ∀ a, (a, a) ∉ g.edges

/-- Every edge joins two vertices of the graph. -/
def Graph.InRange (g : Graph) : Prop := ∀ e ∈ g.edges, e.1 < g.size ∧ e.2 < g.size

/-- Any two vertices are joined by a path. -/
def Graph.Connected (g : Graph) : Prop :=
  ∀ a b, a < g.size → b < g.size → Relation.ReflTransGen g.Adj a b

/-- The number of vertices that vertex `a` has an edge to. -/
def Graph.degree (g : Graph) (a : Nat) : Nat := (g.edges.filter (fun e => e.1 = a)).card

/-- The number of undirected edges, counted the way make_graph.cc does:
`GetEdgeCount()/2`. -/
def Graph.undirectedEdges (g : Graph) : Nat := g.GetEdgeCount / 2

/-- The calls `AddEdgePair(from, to)` for the pairs of a list, in order. -/
def addPairs : List (Nat × Nat) → Graph → Except Trap Graph
  | [], g => .ok g
  | (a, b) :: rest, g =>
    match g.AddEdgePair a b with
    | .error e => .error e
    | .ok g1 => addPairs rest g1

/-- The directed edges that `AddEdgePair` makes for the pairs of a list. -/
def pairEdges (ps : List (Nat × Nat)) : Finset (Nat × Nat) :=
  (ps ++ ps.map Prod.swap).toFinset

/-- The element `v_map[i]`, for an index that is known to exist. -/
def vmap (v_map : List Nat) (i : Nat) : Nat := v_map.getD i 0

/-- The directed edges made by the calls `AddEdgePair(v_map[a], v_map[b])` for the index
pairs `(a, b)` of a list. -/
def mappedEdges (v_map : List Nat) (qs : List (Nat × Nat)) : Finset (Nat × Nat) :=
  pairEdges (qs.map (fun q => (vmap v_map q.1, vmap v_map q.2)))

/-- Modelled from the spec: `Random::GetUInt(max)` (Random.h, not among the sources) returns
a value below `max`; `draw i` stands for the value returned by `random.GetUInt(i)`. -/
def IsDraw (draw : Nat → Nat) : Prop := ∀ i, 0 < i → draw i < i

/-- The index pairs joined by `build_graph_tree`: `i` with `draw i`, for `1 ≤ i < v_count`. -/
def treePairs (v_count : Nat) (draw : Nat → Nat) : List (Nat × Nat) :=
  (List.range' 1 (v_count - 1)).map (fun i => (i, draw i))

/-- The index pairs joined by `build_graph_ring`: `i` with `i - 1` for `1 ≤ i < v_count`,
then `0` with `v_count - 1`. -/
def ringPairs (v_count : Nat) : List (Nat × Nat) :=
  (List.range' 1 (v_count - 1)).map (fun i => (i, i - 1)) ++ [(0, v_count - 1)]

/-- The index after `i` on a cycle through `0 .. n-1`. -/
def ringNext (n i : Nat) : Nat := if i + 1 = n then 0 else i + 1

/-- The index before `i` on a cycle through `0 .. n-1`. -/
def ringPrev (n i : Nat) : Nat := if i = 0 then n - 1 else i - 1

/-- The index pairs that the pass for `x`, `y` of `build_graph_grid` joins when both calls
`random.P(prob_use)` say yes. -/
def gridCellPairs (width height x y : Nat) : List (Nat × Nat) :=
  (if x ≠ width - 1 then [(y * width + x, y * width + x + 1)] else []) ++
  (if y ≠ height - 1 then [(y * width + x, y * width + x + width)] else [])

/-- The index pairs joined by `build_graph_grid` when every call `random.P(prob_use)` says
yes. -/
def gridPairs (width height : Nat) : List (Nat × Nat) :=
  (List.range width).flatMap (fun x =>
    (List.range height).flatMap (fun y => gridCellPairs width height x y))

/-- Cells `(xa, ya)` and `(xb, yb)` of a grid are horizontal or vertical neighbours. -/
def gridNeighbours (xa ya xb yb : Nat) : Prop :=
  (ya = yb ∧ (xa + 1 = xb ∨ xb + 1 = xa)) ∨ (xa = xb ∧ (ya + 1 = yb ∨ yb + 1 = ya))

/-! ### Unit tests (tools/unit_tests.h) -/

/-- The character `\033` that starts a terminal colour sequence. -/
def esc : String := String.singleton (Char.ofNat 27)

/-- The statics behind `UnitTestVerbose()` and `UnitTestErrors()`, and what has been
written to `std::cout`, one entry per line ended by `std::endl`. -/
structure UnitTests where
  /-- The static `verbose`: 0 is SILENT, 1 NORMAL, 2 VERBOSE. -/
  verbose : Nat
  /-- The static `errors` (a `size_t`). -/
  errors : Nat
  cout : List String
  deriving DecidableEq, Repr

/-- The statics as initialised (`verbose = 1`, `errors = 0`), nothing written. -/
def UnitTests.init : UnitTests := { verbose := 1, errors := 0, cout := [] }

/-- The function `ResolveUnitTest` (unit_tests.h 45-60). -/
def ResolveUnitTest (pass : Bool) (test_input result exp_result filename : String)
    (line_num : Nat) (s : UnitTests) : UnitTests :=
  let verbose := s.verbose
  let s1 :=
    if verbose = 2 ∨ pass = false then
      { s with cout := s.cout ++
          [filename ++ ", line " ++ toString line_num ++ ": " ++ test_input ++ " == " ++ result] }
    else s
  if verbose ≥ 1 ∧ pass = false then
    { s1 with
        cout := s1.cout ++
          ["-> " ++ esc ++ "[1;31mMATCH FAILED!  Expected: " ++ exp_result ++ esc ++ "[0m"],
        errors := (s1.errors + 1) % mabe.SIZE_MOD }
  else if verbose = 2 then
    { s1 with cout := s1.cout ++ ["-> " ++ esc ++ "[1;32mPASSED!" ++ esc ++ "[0m"] }
  else s1

/-- The arguments of one call of `ResolveUnitTest`, as `EMP_TEST_VALUE` or
`EMP_TEST_MACRO` (unit_tests.h 67-87) passes them. -/
structure TestCall where
  pass : Bool
  test_input : String
  result : String
  exp_result : String
  filename : String
  line_num : Nat
  deriving DecidableEq, Repr

/-- One resolved test. -/
def TestCall.run (t : TestCall) (s : UnitTests) : UnitTests :=
  ResolveUnitTest t.pass t.test_input t.result t.exp_result t.filename t.line_num s

/-- A body of `emp_main_function` that resolves the given tests in order. -/
def runTests (tests : List TestCall) (s : UnitTests) : UnitTests :=
  tests.foldl (fun s1 t => t.run s1) s

/-- The number of tests that failed. -/
def failedTests (tests : List TestCall) : Nat := tests.countP (fun t => t.pass = false)

/-- The conversion of a `size_t` to `int` (two's complement, 32 bits). -/
def to_int (n : Nat) : Int :=
  if n % 2 ^ 32 < 2 ^ 31 then (n % 2 ^ 32 : Nat) else (n % 2 ^ 32 : Nat) - 2 ^ 32

/-- The `main` that `emp_test_main` generates (unit_tests.h 90-118), for a body that
resolves `tests`; `help`, `verbose_arg` and `silent_arg` say whether `--help`,
`--verbose` and `--silent` are among the arguments (`emp::cl::use_arg`, command_line.h, is
not among the sources), and `prog` is `args[0]`.  Gives the exit status and the statics. -/
def emp_test_main (help verbose_arg silent_arg : Bool) (prog : String)
    (tests : List TestCall) (s : UnitTests) : Int × UnitTests :=
  if help then
    (0, { s with cout := s.cout ++
      ["Usage: " ++ esc ++ "[1;36m" ++ prog ++ " [args]" ++ esc ++ "[0m",
       "  " ++ esc ++ "[1m--help" ++ esc ++ "[0m    : This message.",
       "  " ++ esc ++ "[1m--silent" ++ esc ++ "[0m  : Produce no output except result code.",
       "  " ++ esc ++ "[1m--verbose" ++ esc ++ "[0m : Produce detailed output for each test."] })
  else
    let s1 := if verbose_arg then { s with verbose := 2 } else s
    let s2 := if silent_arg then { s1 with verbose := 0 } else s1
    let s3 := runTests tests s2
    let num_errors := to_int s3.errors
    let s4 :=
      if s3.verbose ≥ 1 then
        if s3.errors ≠ 0 then
          { s3 with cout := s3.cout ++
              [esc ++ "[1;31mRESULT: " ++ toString num_errors ++ " tests failed!" ++ esc ++ "[0m"] }
        else
          { s3 with cout := s3.cout ++ [esc ++ "[1;32mRESULT: all tests PASSED!" ++ esc ++ "[0m"] }
      else s3
    (num_errors, s4)

/-- A failing test: `f(1)` gave 2 where 3 was expected, at line 10 of `test.cc`. -/
def exFailing : TestCall :=
  { pass := false, test_input := "f(1)", result := "2", exp_result := "3",
    filename := "test.cc", line_num := 10 }

/-- A passing test: `g(2)` gave 4 as expected, at line 11 of `test.cc`. -/
def exPassing : TestCall :=
  { pass := true, test_input := "g(2)", result := "4", exp_result := "4",
    filename := "test.cc", line_num := 11 }

/-! ### DataMap (data/DataMap.h) -/

/-- The class `emp::DataMap<Ts...>` (DataMap.h 26-34).  `Ty` stands for the types of the
pack `Ts`, and `default_blob t` is the vector `std::get<emp::vector<T>>(default_blob)` of
the type `t`; `Val` is the type of the stored values.  An `unordered_map` is the function
that gives the value stored under a key, `none` when the key is absent. -/
structure DataMap (Ty Val : Type) where
  /-- Default values for data. -/
  default_blob : Ty → List Val
  /-- Lookup vector positions by name. -/
  id_map : String → Option Nat
  /-- Lookup value types by name. -/
  type_map : String → Option String

/-- The constructor `DataMap()`: every vector and both maps empty. -/
def DataMap.init {Ty Val : Type} : DataMap Ty Val :=
  { default_blob := fun _ => [], id_map := fun _ => none, type_map := fun _ => none }

/-- The function `DataMap::Add<T>` (DataMap.h 45-54); `type_name t` is `typeid(T).name()`,
and `Has(id_map, name)` (map_utils.h, not among the sources) is the test that the key is
present. -/
def DataMap.Add {Ty Val : Type} [DecidableEq Ty] (type_name : Ty → String) (t : Ty)
    (name : String) (value : Val) (m : DataMap Ty Val) : Except Trap (DataMap Ty Val) :=
  if (m.id_map name).isSome then .error .assert_failed     -- emp_assert(!Has(id_map, name))
  else
    let v := m.default_blob t                     -- retrieve vector of the correct type
    let pos := v.length                           -- determine position of new entry
    .ok { default_blob := Function.update m.default_blob t (v ++ [value]),
          id_map := Function.update m.id_map name (some pos),
          type_map := Function.update m.type_map name (some (type_name t)) }

/-- The function `DataMap::GetDefault<T>(size_t id)` (DataMap.h 56-60). -/
def DataMap.GetDefault_id {Ty Val : Type} (t : Ty) (id : Nat) (m : DataMap Ty Val) :
    Except Trap Val :=
  match (m.default_blob t)[id]? with
  | some x => .ok x
  | none => .error .out_of_range

/-- The function `DataMap::GetDefault<T>(const std::string &)` (DataMap.h 80-85), the
overload on a non-const map: `type_map[name]` and `id_map[name]` insert an empty string,
or the position 0, under a key that is absent. -/
def DataMap.GetDefault {Ty Val : Type} (type_name : Ty → String) (t : Ty) (name : String)
    (m : DataMap Ty Val) : Except Trap (Val × DataMap Ty Val) :=
  let m1 : DataMap Ty Val :=
    match m.type_map name with
    | some _ => m
    | none => { m with type_map := Function.update m.type_map name (some "") }
  if m1.type_map name ≠ some (type_name t) then .error .assert_failed
  else
    let m2 : DataMap Ty Val :=
      match m1.id_map name with
      | some _ => m1
      | none => { m1 with id_map := Function.update m1.id_map name (some 0) }
    match m2.id_map name with
    | none => .error .out_of_range
    | some id =>
      match DataMap.GetDefault_id t id m2 with
      | .error e => .error e
      | .ok x => .ok (x, m2)

/-- The function `DataMap::GetDefault<T>(const std::string &) const` (DataMap.h 87-93);
`find(name)->second` on an absent key traps. -/
def DataMap.GetDefault_const {Ty Val : Type} (type_name : Ty → String) (t : Ty)
    (name : String) (m : DataMap Ty Val) : Except Trap Val :=
  match m.id_map name with
  | none => .error .assert_failed                       -- emp_assert(Has(id_map, name))
  | some id =>
    match m.type_map name with
    | none => .error .out_of_range
    | some ty =>
      if ty ≠ type_name t then .error .assert_failed   -- ensure correct type is used
      else DataMap.GetDefault_id t id m

/-- The function `DataMap::GetID` (DataMap.h 112-115). -/
def DataMap.GetID {Ty Val : Type} (name : String) (m : DataMap Ty Val) : Except Trap Nat :=
  match m.id_map name with
  | none => .error .assert_failed                       -- emp_assert(Has(id_map, name))
  | some id => .ok id

/-- The function `DataMap::GetType` (DataMap.h 117-120). -/
def DataMap.GetType {Ty Val : Type} (name : String) (m : DataMap Ty Val) :
    Except Trap String :=
  match m.id_map name with
  | none => .error .assert_failed                       -- emp_assert(Has(id_map, name))
  | some _ =>
    match m.type_map name with
    | none => .error .out_of_range
    | some ty => .ok ty

/-- One call `Add<T>(name, value)`. -/
structure AddCall (Ty Val : Type) where
  t : Ty
  name : String
  value : Val

/-- A sequence of calls of `Add`, oldest first; a trap ends the run. -/
def DataMap.addAll {Ty Val : Type} [DecidableEq Ty] (type_name : Ty → String) :
    List (AddCall Ty Val) → DataMap Ty Val → Except Trap (DataMap Ty Val)
  | [], m => .ok m
  | c :: rest, m =>
    match m.Add type_name c.t c.name c.value with
    | .error e => .error e
    | .ok m1 => DataMap.addAll type_name rest m1

/-- The number of entries of type `t` among the calls. -/
def typedCount {Ty Val : Type} [DecidableEq Ty] (t : Ty) (cs : List (AddCall Ty Val)) : Nat :=
  (cs.filter (fun c => c.t = t)).length

/-- The values of the entries of type `t` among the calls, in order. -/
def typedValues {Ty Val : Type} [DecidableEq Ty] (t : Ty) (cs : List (AddCall Ty Val)) :
    List Val :=
  (cs.filter (fun c => c.t = t)).map (fun c => c.value)

/-- The types of a map `DataMap<int, double>`. -/
inductive ExTy
  | int
  | double
  deriving DecidableEq, Repr

/-- What `typeid(T).name()` gives for these types under the Itanium ABI. -/
def exTypeName : ExTy → String
  | .int => "i"
  | .double => "d"

/-- The calls `Add<int>("a", 5)` and `Add<double>("x", 2)`. -/
def exAdds : List (AddCall ExTy Int) :=
  [{ t := .int, name := "a", value := 5 }, { t := .double, name := "x", value := 2 }]

/-- The map holds what the calls `cs` of `Add` put there: each vector holds the values of
its type in the order of the calls, a name that was not added has no position, and the
name of each call has the number of earlier calls of the same type as its position, and
the name of the type of the call as its type. -/
def DataMap.Holds {Ty Val : Type} [DecidableEq Ty] (type_name : Ty → String)
    (cs : List (AddCall Ty Val)) (m : DataMap Ty Val) : Prop :=
  (∀ t, m.default_blob t = typedValues t cs) ∧
  (∀ n, n ∉ cs.map (fun c => c.name) → m.id_map n = none) ∧
  (∀ pre c post, cs = pre ++ c :: post →
    m.id_map c.name = some (typedCount c.t pre) ∧ m.type_map c.name = some (type_name c.t))

/-! ### The Hamiltonian-cycle graph of make_graph.cc -/

/-- Modelled from the spec: `Graph::Resize(new_size)` (Graph.h is not among the sources),
as make_graph.cc uses it on a default-constructed graph: `new_size` vertices, no edge. -/
def Graph.Resize (_g : Graph) (new_size : Nat) : Graph := { size := new_size, edges := ∅ }

/-- The conversion of an `int` to `size_t`. -/
def to_size (i : Int) : Nat := (i % (2 ^ 64 : Int)).toNat

/-- The loop `for (size_t i = 0; i < nodes; i++) of << v_map[i]` that prints the solution:
gives the values printed. -/
def print_solution (n : Nat) (v_map : List Nat) : Except Trap (List Nat) :=
  (List.range n).mapM (fun i => vec_at v_map i)

/-- The branch `graph_type == 7` of `main` (make_graph.cc 118-153), for the numbers `nodes`
and `edges` read, the outcome `v_map` of the shuffle and the pairs `extra` drawn by the
loop.  Gives the graph and the solution that are printed; `none` when the pairs run out
while the loop is still going. -/
def main_hcycle (nodes edges : Int) (v_map : List Nat) (extra : List (Nat × Nat)) :
    Except Trap (Option (Graph × List Nat)) :=
  let graph := (Graph.init 0).Resize (to_size nodes)
  -- generate the Hamiltonian cycle
  match (List.range' 1 (to_size nodes - 1)).foldlM
      (fun graph1 i => addMapped v_map i (i - 1) graph1) graph with
  | .error e => .error e
  | .ok graph1 =>
    match addMapped v_map 0 (to_size (nodes - 1)) graph1 with
    | .error e => .error e
    | .ok graph2 =>
      -- add in extra edges
      match random_loop (to_size edges) extra (to_size nodes) graph2 with
      | .error e => .error e
      | .ok none => .ok none
      | .ok (some graph3) =>
        -- print the file
        match print_solution (to_size nodes) v_map with
        | .error e => .error e
        | .ok solution => .ok (some (graph3, solution))

/-! ### Linked cliques -/

/-- The values that the counter of a loop `for (s = start; s < bound; s += step)` takes, for
at most `fuel` passes (`bound` passes are enough when `step > 0`). -/
def stepsFrom (step bound : Nat) : Nat → Nat → List Nat
  | 0, _ => []
  | fuel + 1, s => if s < bound then s :: stepsFrom step bound fuel (s + step) else []

/-- The index pairs that the first loop nest of `build_graph_clique_set` joins for the
clique that starts at `start_id`: `node1 < node2` inside the clique. -/
def cliqueInner (clique_size start_id : Nat) : List (Nat × Nat) :=
  (List.range' start_id clique_size).flatMap (fun node1 =>
    (List.range' (node1 + 1) (start_id + clique_size - (node1 + 1))).map
      (fun node2 => (node1, node2)))

/-- The index pairs that the second loop nest of `build_graph_clique_set` joins for the
cliques that start at `start1` and `start2`, for the outcomes `use node1 node2` of the calls
`random.P(extra_prob)`. -/
def cliqueCross (clique_size : Nat) (use : Nat → Nat → Bool) (start1 start2 : Nat) :
    List (Nat × Nat) :=
  (List.range' start1 clique_size).flatMap (fun node1 =>
    (List.range' start2 clique_size).flatMap (fun node2 =>
      if node1 = start1 ∧ node2 = start2 then []          -- both part of IS
      else if use node1 node2 = true then [(node1, node2)] else []))

/-- The index pairs joined by `build_graph_clique_set`, in the order of the calls. -/
def cliquePairs (clique_size v_count : Nat) (use : Nat → Nat → Bool) : List (Nat × Nat) :=
  (stepsFrom clique_size v_count v_count 0).flatMap (fun start_id =>
    cliqueInner clique_size start_id) ++
  (stepsFrom clique_size v_count v_count 0).flatMap (fun start1 =>
    (stepsFrom clique_size v_count v_count (start1 + clique_size)).flatMap (fun start2 =>
      cliqueCross clique_size use start1 start2))

/-- The function `build_graph_clique_set` (graph_utils.h 118-153), for the outcome `v_map`
of the shuffle and the outcomes `use node1 node2` of the calls `random.P(extra_prob)`. -/
def build_graph_clique_set (clique_size clique_count : Nat) (v_map : List Nat)
    (use : Nat → Nat → Bool) : Except Trap Graph :=
  if ¬ (clique_size > 0 ∧ clique_count > 0) then .error .assert_failed
  else
    let v_count := (clique_size * clique_count) % mabe.SIZE_MOD
    -- fill out all of the edges within a clique
    match (stepsFrom clique_size v_count v_count 0).foldlM
        (fun graph start_id =>
          let end_id := start_id + clique_size
          (List.range' start_id (end_id - start_id)).foldlM
            (fun graph1 node1 =>
              (List.range' (node1 + 1) (end_id - (node1 + 1))).foldlM
                (fun graph2 node2 => addMapped v_map node1 node2 graph2) graph1) graph)
        (Graph.init v_count) with
    | .error e => .error e
    | .ok graph =>
      -- add on extra edges
      (stepsFrom clique_size v_count v_count 0).foldlM
        (fun graph1 start1 =>
          let end1 := start1 + clique_size
          (stepsFrom clique_size v_count v_count (start1 + clique_size)).foldlM
            (fun graph2 start2 =>
              let end2 := start2 + clique_size
              (List.range' start1 (end1 - start1)).foldlM
                (fun graph3 node1 =>
                  (List.range' start2 (end2 - start2)).foldlM
                    (fun graph4 node2 =>
                      if node1 = start1 ∧ node2 = start2 then .ok graph4   -- continue
                      else if use node1 node2 = true then addMapped v_map node1 node2 graph4
                      else .ok graph4) graph3) graph2) graph1) graph

end emp

namespace mabe

/-! ## Basic facts about the protocols -/

theorem set_self_of_getElem? {α : Type} (l : List α) (i : Nat) (a : α) (h : l[i]? = some a) :
    l.set i a = l := by
  induction l generalizing i with
  | nil => simp
  | cons x t ih =>
    cases i with
    | zero => simp at h; simp [h]
    | succ j => simp at h; simp [ih j h]

theorem set_of_getElem?_none {α : Type} (l : List α) (i : Nat) (a : α) (h : l[i]? = none) :
    l.set i a = l := by
  induction l generalizing i with
  | nil => simp
  | cons x t ih =>
    cases i with
    | zero => simp at h
    | succ j => simp at h; simp [ih j (by simpa using h)]

theorem RemoveOrgAt_out_of_range (w : Sys) (id : Nat) (pop : PopSel)
    (h : (w.pops pop)[id]? = none) : RemoveOrgAt (.mk id pop) w = .ok w := by
  simp [RemoveOrgAt, h]

theorem RemoveOrgAt_null (w : Sys) (id : Nat) (pop : PopSel)
    (h : (w.pops pop)[id]? = some none) : RemoveOrgAt (.mk id pop) w = .ok w := by
  simp [RemoveOrgAt, h]

theorem RemoveOrgAt_active (w : Sys) (id : Nat) (org : Org)
    (h : w.mabe.active_pop[id]? = some (some org)) :
    RemoveOrgAt (.mk id .active) w = .ok
      { mabe := { w.mabe with active_pop := w.mabe.active_pop.set id none,
                              num_orgs := decr w.mabe.num_orgs },
        log := w.log ++ [⟨.on_death id, w.mabe⟩, ⟨.Delete org, w.mabe⟩],
        heap := w.heap } := by
  simp [RemoveOrgAt, Sys.pops, h, WorldPosition.IsActive, Trigger, Delete, Sys.record, Sys.setPop]

theorem RemoveOrgAt_next (w : Sys) (id : Nat) (org : Org)
    (h : w.mabe.next_pop[id]? = some (some org)) :
    RemoveOrgAt (.mk id .next) w = .ok
      { mabe := { w.mabe with next_pop := w.mabe.next_pop.set id none },
        log := w.log ++ [⟨.Delete org, w.mabe⟩],
        heap := w.heap } := by
  simp [RemoveOrgAt, Sys.pops, h, WorldPosition.IsActive, Trigger, Delete, Sys.record, Sys.setPop]

theorem RemoveOrgAt_spec (w : Sys) (id : Nat) (pop : PopSel) :
    ∃ w1, RemoveOrgAt (.mk id pop) w = .ok w1 ∧
      w1.pops pop = (w.pops pop).set id none ∧
      (∀ q, q ≠ pop → w1.pops q = w.pops q) ∧
      w1.events = w.events ++ deathEvents pop id (w.pops pop)[id]? ∧
      w1.mabe.num_orgs =
        (if pop = .active ∧ occupiedAt (w.pops pop) id = true
          then decr w.mabe.num_orgs else w.mabe.num_orgs) ∧
      w1.heap = w.heap ∧ w1.mabe.update = w.mabe.update ∧
      w1.mabe.pop_sizes = w.mabe.pop_sizes ∧ w1.mabe.fit_cache = w.mabe.fit_cache ∧
      w1.mabe.cache_on = w.mabe.cache_on := by
  rcases h : (w.pops pop)[id]? with _ | (_ | o)
  · refine ⟨w, RemoveOrgAt_out_of_range w id pop h, ?_⟩
    simp [deathEvents, occupiedAt, h, set_of_getElem?_none _ _ _ h]
  · refine ⟨w, RemoveOrgAt_null w id pop h, ?_⟩
    simp [deathEvents, occupiedAt, h, set_self_of_getElem? _ _ _ h]
  · cases pop
    · refine ⟨_, RemoveOrgAt_active w id o h, ?_⟩
      simp only [Sys.pops] at h
      simp [deathEvents, occupiedAt, h, Sys.pops, Sys.events]
      intro q hq; cases q <;> simp_all
    · refine ⟨_, RemoveOrgAt_next w id o h, ?_⟩
      simp only [Sys.pops] at h
      simp [deathEvents, occupiedAt, h, Sys.pops, Sys.events]
      intro q hq; cases q <;> simp_all

theorem grown_set_set (v : pop_t) (id : Nat) (x : org_ptr_t) :
    (grown (v.set id none) id).set id x = (grown v id).set id x := by
  by_cases h : id < v.length
  · simp [grown, h]
  · have : v.set id none = v := set_of_getElem?_none v id none (by simp; omega)
    rw [this]

@[simp] theorem pops_Trigger (e : Event) (w : Sys) (q : PopSel) : (Trigger e w).pops q = w.pops q := by
  cases q <;> rfl

@[simp] theorem events_Trigger (e : Event) (w : Sys) : (Trigger e w).events = w.events ++ [e] := by
  simp [Trigger, Sys.record, Sys.events]

@[simp] theorem mabe_Trigger (e : Event) (w : Sys) : (Trigger e w).mabe = w.mabe := rfl

@[simp] theorem heap_Trigger (e : Event) (w : Sys) : (Trigger e w).heap = w.heap := rfl

theorem MakeValid_pops (id : Nat) (pop : PopSel) (w : Sys) :
    (MakeValid id pop w).pops pop = grown (w.pops pop) id := by
  unfold MakeValid grown
  split
  · rfl
  · cases pop <;> simp [Sys.setPop, Sys.pops]

theorem MakeValid_other (id : Nat) (pop q : PopSel) (w : Sys) (h : q ≠ pop) :
    (MakeValid id pop w).pops q = w.pops q := by
  unfold MakeValid
  split
  · rfl
  · cases pop <;> cases q <;> simp_all [Sys.setPop, Sys.pops]

@[simp] theorem MakeValid_log (id : Nat) (pop : PopSel) (w : Sys) :
    (MakeValid id pop w).log = w.log := by
  unfold MakeValid; split <;> cases pop <;> rfl

@[simp] theorem MakeValid_heap (id : Nat) (pop : PopSel) (w : Sys) :
    (MakeValid id pop w).heap = w.heap := by
  unfold MakeValid; split <;> cases pop <;> rfl

@[simp] theorem MakeValid_num_orgs (id : Nat) (pop : PopSel) (w : Sys) :
    (MakeValid id pop w).mabe.num_orgs = w.mabe.num_orgs := by
  unfold MakeValid; split <;> cases pop <;> rfl

@[simp] theorem MakeValid_update (id : Nat) (pop : PopSel) (w : Sys) :
    (MakeValid id pop w).mabe.update = w.mabe.update := by
  unfold MakeValid; split <;> cases pop <;> rfl

@[simp] theorem MakeValid_pop_sizes (id : Nat) (pop : PopSel) (w : Sys) :
    (MakeValid id pop w).mabe.pop_sizes = w.mabe.pop_sizes := by
  unfold MakeValid; split <;> cases pop <;> rfl

@[simp] theorem MakeValid_fit_cache (id : Nat) (pop : PopSel) (w : Sys) :
    (MakeValid id pop w).mabe.fit_cache = w.mabe.fit_cache := by
  unfold MakeValid; split <;> cases pop <;> rfl

@[simp] theorem MakeValid_cache_on (id : Nat) (pop : PopSel) (w : Sys) :
    (MakeValid id pop w).mabe.cache_on = w.mabe.cache_on := by
  unfold MakeValid; split <;> cases pop <;> rfl

theorem AddOrgAt_spec (w : Sys) (org : Org) (id : Nat) (pop : PopSel) (p_pos : WorldPosition) :
    ∃ w1, AddOrgAt (some org) (.mk id pop) p_pos w = .ok w1 ∧
      w1.pops pop = (grown (w.pops pop) id).set id (some org) ∧
      (∀ q, q ≠ pop → w1.pops q = w.pops q) ∧
      w1.events = w.events ++ (if pop = .active then [Event.before_placement org id] else [])
        ++ deathEvents pop id (w.pops pop)[id]?
        ++ (if pop = .active then [Event.on_placement id] else []) ∧
      w1.mabe.num_orgs =
        (if pop = .active then
          incr (if occupiedAt (w.pops pop) id = true then decr w.mabe.num_orgs else w.mabe.num_orgs)
         else w.mabe.num_orgs) ∧
      w1.heap = w.heap ∧ w1.mabe.update = w.mabe.update ∧
      w1.mabe.pop_sizes = w.mabe.pop_sizes ∧ w1.mabe.fit_cache = w.mabe.fit_cache ∧
      w1.mabe.cache_on = w.mabe.cache_on := by
  cases pop
  · obtain ⟨w2, h2, hp, hq, he, hn, hh, hu, hs, hf, hc⟩ :=
      RemoveOrgAt_spec (Trigger (.before_placement org id) w) id .active
    simp only [AddOrgAt, WorldPosition.IsActive, if_true, h2]
    refine ⟨_, rfl, ?_⟩
    have hv := MakeValid_pops id .active w2
    have hv2 := MakeValid_other id .active .next w2 (by decide)
    have hq2 := hq .next (by decide)
    simp only [Sys.pops] at hv hv2 hp hq2
    simp [Sys.pops, Sys.setPop, Trigger, Sys.record, Sys.events] at *
    refine ⟨by rw [hv, hp, grown_set_set], ?_, by simp [he], by rw [hn], hh, hu, hs, hf, hc⟩
    intro q hq3
    cases q
    · exact absurd rfl hq3
    · simp [hv2, hq2]
  · obtain ⟨w2, h2, hp, hq, he, hn, hh, hu, hs, hf, hc⟩ := RemoveOrgAt_spec w id .next
    simp only [AddOrgAt, WorldPosition.IsActive, Bool.false_eq_true, ↓reduceIte, h2]
    refine ⟨_, rfl, ?_⟩
    have hv := MakeValid_pops id .next w2
    have hv2 := MakeValid_other id .next .active w2 (by decide)
    have hq2 := hq .active (by decide)
    simp only [Sys.pops] at hv hv2 hp hq2
    simp [Sys.pops, Sys.setPop, Trigger, Sys.record, Sys.events] at *
    refine ⟨by rw [hv, hp, grown_set_set], ?_, by simp [he], by rw [hn], hh, hu, hs, hf, hc⟩
    intro q hq3
    cases q
    · simp [hv2, hq2]
    · exact absurd rfl hq3

theorem grown_length (v : pop_t) (id : Nat) : (grown v id).length = max v.length (id + 1) := by
  unfold grown vec_resize
  split
  · omega
  · simp; omega

theorem grown_new_slot (v : pop_t) (id j : Nat) (h1 : v.length ≤ j) (h2 : j < (grown v id).length) :
    (grown v id)[j]? = some none := by
  unfold grown vec_resize at *
  split at h2
  · omega
  · split
    · omega
    · simp at h2
      rw [List.getElem?_append_right (by simp; omega)]
      simp [List.getElem?_replicate]
      omega

theorem emitted_append (w w1 : Sys) (l : List Event) (h : w1.events = w.events ++ l) :
    emitted w w1 = l := by
  simp [emitted, h]

/-- C2: for a non-null handle and a valid position in either buffer, inside or beyond the
current length, `AddOrgAt` returns, the slot then holds the handle, the addressed buffer
has length `max (old length) (index + 1)`, and every slot created by the growth other
than the target is empty. -/
theorem AddOrgAt_owns_slot (w : Sys) (org : Org) (id : Nat) (pop : PopSel)
    (p_pos : WorldPosition) :
    ∃ w1, AddOrgAt (some org) (.mk id pop) p_pos w = .ok w1 ∧
      (w1.pops pop)[id]? = some (some org) ∧
      (w1.pops pop).length = max (w.pops pop).length (id + 1) ∧
      ∀ j, (w.pops pop).length ≤ j → j < (w1.pops pop).length → j ≠ id →
        (w1.pops pop)[j]? = some none := by
  obtain ⟨w1, h1, hp, -⟩ := AddOrgAt_spec w org id pop p_pos
  have hl := grown_length (w.pops pop) id
  refine ⟨w1, h1, ?_, ?_, ?_⟩
  · rw [hp, List.getElem?_set_self (by omega)]
  · rw [hp, List.length_set, hl]
  · intro j hj1 hj2 hj3
    rw [hp] at hj2 ⊢
    rw [List.length_set] at hj2
    rw [List.getElem?_set_ne (Ne.symm hj3)]
    exact grown_new_slot _ _ _ hj1 hj2

theorem deathEvents_of_not_occupied (pop : PopSel) (v : pop_t) (id : Nat)
    (h : occupiedAt v id = false) : deathEvents pop id v[id]? = [] := by
  rcases h1 : v[id]? with _ | (_ | o) <;> simp [occupiedAt, deathEvents, h1] at *

/-- C3: overwriting an active slot. After `AddOrgAt(orgA, p)`, the call `AddOrgAt(orgB, p)`
logs exactly `before_placement(orgB, p)`, `on_death(p)`, the release of `orgA`, and
`on_placement(p)`, in this order, and leaves `p` holding `orgB`; and a call on a slot that
is empty (or not yet there) logs `before_placement` and `on_placement` only. -/
theorem AddOrgAt_overwrite (w : Sys) (orgA orgB : Org) (id : Nat) (p1 p2 : WorldPosition) :
    ∃ w1 w2, AddOrgAt (some orgA) (.mk id .active) p1 w = .ok w1 ∧
      AddOrgAt (some orgB) (.mk id .active) p2 w1 = .ok w2 ∧
      emitted w1 w2 = [.before_placement orgB id, .on_death id, .Delete orgA, .on_placement id] ∧
      (emitted w1 w2).filter Event.isSignal =
        [.before_placement orgB id, .on_death id, .on_placement id] ∧
      (emitted w1 w2).count (.Delete orgA) = 1 ∧
      w2.mabe.active_pop[id]? = some (some orgB) ∧
      (occupiedAt w.mabe.active_pop id = false →
        emitted w w1 = [.before_placement orgA id, .on_placement id]) := by
  obtain ⟨w1, h1, hp1, -, he1, -⟩ := AddOrgAt_spec w orgA id .active p1
  obtain ⟨w2, h2, hp2, -, he2, -⟩ := AddOrgAt_spec w1 orgB id .active p2
  have hl := grown_length (w.pops .active) id
  have hl1 := grown_length (w1.pops .active) id
  have hs1 : (w1.pops .active)[id]? = some (some orgA) := by
    rw [hp1, List.getElem?_set_self (by omega)]
  have hem : emitted w1 w2 =
      [.before_placement orgB id, .on_death id, .Delete orgA, .on_placement id] := by
    apply emitted_append
    rw [he2, hs1]
    simp [deathEvents]
  refine ⟨w1, w2, h1, h2, hem, ?_, ?_, ?_, ?_⟩
  · rw [hem]; simp [Event.isSignal]
  · rw [hem]; simp
  · have : (w2.pops .active)[id]? = some (some orgB) := by
      rw [hp2, List.getElem?_set_self (by omega)]
    exact this
  · intro hocc
    apply emitted_append
    rw [he1]
    have hd : deathEvents .active id (w.pops .active)[id]? = [] :=
      deathEvents_of_not_occupied .active (w.pops .active) id hocc
    rw [hd]
    simp

/-- Witness for C3 on a freshly constructed manager, slot 0. -/
theorem AddOrgAt_overwrite_witness :
    ∃ w1 w2, AddOrgAt (some 1) (.mk 0 .active) .invalid Sys.init = .ok w1 ∧
      AddOrgAt (some 2) (.mk 0 .active) .invalid w1 = .ok w2 ∧
      emitted w1 w2 = [.before_placement 2 0, .on_death 0, .Delete 1, .on_placement 0] ∧
      (emitted w1 w2).filter Event.isSignal =
        [.before_placement 2 0, .on_death 0, .on_placement 0] ∧
      (emitted w1 w2).count (.Delete 1) = 1 ∧
      w2.mabe.active_pop[0]? = some (some 2) ∧
      (occupiedAt Sys.init.mabe.active_pop 0 = false →
        emitted Sys.init w1 = [.before_placement 1 0, .on_placement 0]) :=
  AddOrgAt_overwrite Sys.init 1 2 0 .invalid .invalid

/-- C4: `RemoveOrgAt` on a slot that is empty or beyond the end of its buffer returns the
state it was given (no event logged, both buffers and `num_orgs` as before); and for every
state and every position, a second `RemoveOrgAt` right after the first changes nothing any
more, so that the two calls together log at most one `on_death`. -/
theorem RemoveOrgAt_idempotent (w : Sys) (id : Nat) (pop : PopSel) :
    (((w.pops pop).length ≤ id ∨ (w.pops pop)[id]? = some none) →
      RemoveOrgAt (.mk id pop) w = .ok w) ∧
    (∃ w1, RemoveOrgAt (.mk id pop) w = .ok w1 ∧ RemoveOrgAt (.mk id pop) w1 = .ok w1 ∧
      (emitted w w1).countP Event.isOnDeath ≤ 1) ∧
    (∀ pos, (RemoveOrgAt pos w).bind (RemoveOrgAt pos) = RemoveOrgAt pos w) := by
  have key : ∀ (v : Sys) (i : Nat) (p : PopSel),
      ∃ v1, RemoveOrgAt (.mk i p) v = .ok v1 ∧ RemoveOrgAt (.mk i p) v1 = .ok v1 ∧
        (emitted v v1).countP Event.isOnDeath ≤ 1 := by
    intro v i p
    obtain ⟨v1, h1, hp, -, he, -⟩ := RemoveOrgAt_spec v i p
    refine ⟨v1, h1, ?_, ?_⟩
    · rcases hs : (v.pops p)[i]? with _ | s
      · apply RemoveOrgAt_out_of_range
        rw [hp]
        simpa using hs
      · apply RemoveOrgAt_null
        have hlt : i < (v.pops p).length := by
          rcases Nat.lt_or_ge i (v.pops p).length with h | h
          · exact h
          · rw [List.getElem?_eq_none h] at hs; cases hs
        rw [hp, List.getElem?_set_self hlt]
    · rw [emitted_append v v1 _ he]
      rcases hs : (v.pops p)[i]? with _ | (_ | o) <;> cases p <;>
        simp [deathEvents, Event.isOnDeath]
  refine ⟨?_, key w id pop, ?_⟩
  · rintro (h | h)
    · exact RemoveOrgAt_out_of_range w id pop (List.getElem?_eq_none h)
    · exact RemoveOrgAt_null w id pop h
  · intro pos
    cases pos with
    | invalid => rfl
    | mk i p =>
      obtain ⟨v1, h1, h2, -⟩ := key w i p
      rw [h1]
      exact h2

/-- Witness for C4: a slot beyond the end of an empty buffer (no-op), and two removals
from the occupied slot 0 of a one-slot buffer. -/
theorem RemoveOrgAt_idempotent_witness :
    RemoveOrgAt (.mk 3 .active) Sys.init = .ok Sys.init ∧
    (∃ w1, RemoveOrgAt (.mk 0 .active) exOneOrg = .ok w1 ∧
      RemoveOrgAt (.mk 0 .active) w1 = .ok w1 ∧
      (emitted exOneOrg w1).countP Event.isOnDeath ≤ 1) :=
  ⟨(RemoveOrgAt_idempotent Sys.init 3 .active).1 (Or.inl (Nat.zero_le 3)),
   (RemoveOrgAt_idempotent exOneOrg 0 .active).2.1⟩

/-- C5: on an occupied active slot `RemoveOrgAt` logs `on_death(id)` once, and then the
release of the occupant; what the `on_death` subscribers see is the state before the call,
in which the slot still holds the organism and `num_orgs` is not yet decremented.  After
the call the slot is empty and `num_orgs` has been decremented (by one, unless it was 0). -/
theorem RemoveOrgAt_signals_before_release (w : Sys) (id : Nat) (org : Org)
    (h : w.mabe.active_pop[id]? = some (some org)) :
    ∃ w1 e1 e2, RemoveOrgAt (.mk id .active) w = .ok w1 ∧
      w1.log = w.log ++ [e1, e2] ∧
      e1.ev = .on_death id ∧ e2.ev = .Delete org ∧
      e1.seen.active_pop[id]? = some (some org) ∧ e1.seen.num_orgs = w.mabe.num_orgs ∧
      (emitted w w1).countP Event.isOnDeath = 1 ∧
      w1.mabe.active_pop[id]? = some none ∧
      w1.mabe.num_orgs = decr w.mabe.num_orgs ∧
      (0 < w.mabe.num_orgs → w.mabe.num_orgs < SIZE_MOD →
        w1.mabe.num_orgs + 1 = w.mabe.num_orgs) := by
  have hlt : id < w.mabe.active_pop.length := by
    rcases Nat.lt_or_ge id w.mabe.active_pop.length with h1 | h1
    · exact h1
    · rw [List.getElem?_eq_none h1] at h; cases h
  refine ⟨_, ⟨.on_death id, w.mabe⟩, ⟨.Delete org, w.mabe⟩, RemoveOrgAt_active w id org h,
    rfl, rfl, rfl, h, rfl, ?_, ?_, rfl, ?_⟩
  · simp [emitted, Sys.events, Event.isOnDeath]
  · simp [List.getElem?_set_self hlt]
  · intro h0 h1
    simp only [decr, SIZE_MOD] at *
    omega

/-- Witness for C5: slot 0 of a one-slot active buffer holding organism 7. -/
theorem RemoveOrgAt_signals_before_release_witness :
    ∃ w1 e1 e2, RemoveOrgAt (.mk 0 .active) exOneOrg = .ok w1 ∧
      w1.log = exOneOrg.log ++ [e1, e2] ∧
      e1.ev = .on_death 0 ∧ e2.ev = .Delete 7 ∧
      e1.seen.active_pop[0]? = some (some 7) ∧ e1.seen.num_orgs = exOneOrg.mabe.num_orgs ∧
      (emitted exOneOrg w1).countP Event.isOnDeath = 1 ∧
      w1.mabe.active_pop[0]? = some none ∧
      w1.mabe.num_orgs = decr exOneOrg.mabe.num_orgs ∧
      (0 < exOneOrg.mabe.num_orgs → exOneOrg.mabe.num_orgs < SIZE_MOD →
        w1.mabe.num_orgs + 1 = exOneOrg.mabe.num_orgs) :=
  RemoveOrgAt_signals_before_release exOneOrg 0 7 rfl

/-- C6: on a position of the next buffer, `AddOrgAt` and `RemoveOrgAt` log no signal at
all (in particular no `before_placement`, `on_death` or `on_placement`), and leave
`num_orgs` and the active buffer as they were. -/
theorem next_buffer_ops_silent (w : Sys) (org : Org) (id : Nat) (p_pos : WorldPosition) :
    (∃ w1, AddOrgAt (some org) (.mk id .next) p_pos w = .ok w1 ∧
      (∀ e ∈ emitted w w1, e.isSignal = false) ∧
      w1.mabe.num_orgs = w.mabe.num_orgs ∧ w1.mabe.active_pop = w.mabe.active_pop) ∧
    (∃ w1, RemoveOrgAt (.mk id .next) w = .ok w1 ∧
      (∀ e ∈ emitted w w1, e.isSignal = false) ∧
      w1.mabe.num_orgs = w.mabe.num_orgs ∧ w1.mabe.active_pop = w.mabe.active_pop) := by
  have hd : ∀ e ∈ deathEvents .next id (w.pops .next)[id]?, e.isSignal = false := by
    intro e he
    rcases hs : (w.pops .next)[id]? with _ | (_ | o) <;> rw [hs] at he <;>
      simp [deathEvents] at he
    subst he; rfl
  constructor
  · obtain ⟨w1, h1, -, hq, he, hn, -⟩ := AddOrgAt_spec w org id .next p_pos
    refine ⟨w1, h1, ?_, by simpa using hn, hq .active (by decide)⟩
    rw [emitted_append w w1 (deathEvents .next id (w.pops .next)[id]?) (by simpa using he)]
    exact hd
  · obtain ⟨w1, h1, -, hq, he, hn, -⟩ := RemoveOrgAt_spec w id .next
    refine ⟨w1, h1, ?_, by simpa using hn, hq .active (by decide)⟩
    rw [emitted_append w w1 _ he]
    exact hd

/-- Witness for C6: slot 1 of the next buffer of a freshly constructed manager. -/
theorem next_buffer_ops_silent_witness :
    (∃ w1, AddOrgAt (some 5) (.mk 1 .next) .invalid Sys.init = .ok w1 ∧
      (∀ e ∈ emitted Sys.init w1, e.isSignal = false) ∧
      w1.mabe.num_orgs = Sys.init.mabe.num_orgs ∧
      w1.mabe.active_pop = Sys.init.mabe.active_pop) ∧
    (∃ w1, RemoveOrgAt (.mk 1 .next) Sys.init = .ok w1 ∧
      (∀ e ∈ emitted Sys.init w1, e.isSignal = false) ∧
      w1.mabe.num_orgs = Sys.init.mabe.num_orgs ∧
      w1.mabe.active_pop = Sys.init.mabe.active_pop) :=
  next_buffer_ops_silent Sys.init 5 1 .invalid

theorem events_record (w : Sys) (e : Event) : (w.record e).events = w.events ++ [e] := by
  simp [Sys.record, Sys.events]

theorem DoBirthStep_events (inj : Option (Sys → org_ptr_t → WorldPosition))
    (f : Sys → org_ptr_t → WorldPosition → WorldPosition) (parent : Org) (pp : Nat) (w : Sys) :
    ∃ pos w1 tail, DoBirthStep ⟨inj, some f⟩ (some parent) pp w = .ok (pos, w1) ∧
      w1.events = w.events ++ (Event.Clone parent w.heap :: Event.offspring_ready w.heap pp ::
        Event.find_birth_pos w.heap (WorldPosition.ofIndex pp) :: tail) ∧
      (∀ e ∈ tail, e.isPlacementPhase = true) := by
  simp only [DoBirthStep, Clone]
  generalize hw3 : Sys.record _ (Event.find_birth_pos w.heap (WorldPosition.ofIndex pp)) = w3
  have he3 : w3.events = w.events ++ [Event.Clone parent w.heap, Event.offspring_ready w.heap pp,
      Event.find_birth_pos w.heap (WorldPosition.ofIndex pp)] := by
    rw [← hw3]
    simp [events_record, Sys.events, Sys.record, Trigger]
  generalize f _ _ _ = pos
  cases pos with
  | invalid =>
    refine ⟨.invalid, Delete w.heap w3, [Event.Delete w.heap], ?_, ?_, ?_⟩
    · simp only [WorldPosition.IsValid, Bool.false_eq_true, ↓reduceIte]
    · simp [Delete, events_record, he3]
    · intro e he; simp at he; subst he; rfl
  | mk id pop =>
    obtain ⟨w4, h4, -, -, he4, -⟩ := AddOrgAt_spec w3 w.heap id pop (WorldPosition.ofIndex pp)
    refine ⟨.mk id pop, w4, (if pop = .active then [Event.before_placement w.heap id] else [])
        ++ deathEvents pop id (w3.pops pop)[id]?
        ++ (if pop = .active then [Event.on_placement id] else []), ?_, ?_, ?_⟩
    · simp only [WorldPosition.IsValid, ↓reduceIte, h4]
    · rw [he4, he3]
      simp only [List.append_assoc, List.cons_append, List.nil_append]
    · intro e he
      rcases hs : (w3.pops pop)[id]? with _ | (_ | o) <;> rw [hs] at he <;> cases pop <;>
        simp [deathEvents] at he
      all_goals first
        | (subst he; rfl)
        | (rcases he with h | h <;> subst h <;> rfl)
        | (rcases he with h | h | h | h <;> subst h <;> rfl)

theorem DoBirthLoop_events (inj : Option (Sys → org_ptr_t → WorldPosition))
    (f : Sys → org_ptr_t → WorldPosition → WorldPosition) (parent : Org) (pp : Nat) :
    ∀ (k : Nat) (pos0 : WorldPosition) (w : Sys),
      ∃ pos w1 rest, DoBirthLoop ⟨inj, some f⟩ (some parent) pp k pos0 w = .ok (pos, w1) ∧
        w1.events = w.events ++ rest ∧ BirthBlocks parent pp k rest := by
  intro k
  induction k with
  | zero =>
    intro pos0 w
    exact ⟨pos0, w, [], rfl, by simp, rfl⟩
  | succ n ih =>
    intro pos0 w
    obtain ⟨pos1, w1, tail, h1, he1, ht⟩ := DoBirthStep_events inj f parent pp w
    obtain ⟨pos2, w2, rest, h2, he2, hb⟩ := ih pos1 w1
    refine ⟨pos2, w2, _, ?_, ?_, ⟨w.heap, tail, rest, rfl, ht, hb⟩⟩
    · simp only [DoBirthLoop, h1, h2]
    · rw [he2, he1]; simp

theorem placementPhase_countP_zero (p : Event → Bool) (tail : List Event)
    (hp : ∀ e, e.isPlacementPhase = true → p e = false)
    (ht : ∀ e ∈ tail, e.isPlacementPhase = true) : tail.countP p = 0 := by
  rw [List.countP_eq_zero]
  intro e he
  simp [hp e (ht e he)]

theorem BirthBlocks_facts (parent : Org) (pp : Nat) :
    ∀ (k : Nat) (evs : List Event), BirthBlocks parent pp k evs →
      evs.countP Event.isBeforeRepro = 0 ∧ evs.countP Event.isOffspringReady = k ∧
      evs.countP Event.isClone = k ∧
      (∀ o q, Event.offspring_ready o q ∈ evs → q = pp) ∧
      (∀ o q, Event.find_birth_pos o q ∈ evs → q = WorldPosition.ofIndex pp) := by
  intro k
  induction k with
  | zero =>
    intro evs h
    simp only [BirthBlocks] at h
    subst h
    simp
  | succ n ih =>
    intro evs h
    obtain ⟨child, tail, rest, hevs, ht, hb⟩ := h
    obtain ⟨i1, i2, i3, i4, i5⟩ := ih rest hb
    have t1 := placementPhase_countP_zero Event.isBeforeRepro tail
      (by intro e; cases e <;> simp [Event.isPlacementPhase, Event.isBeforeRepro]) ht
    have t2 := placementPhase_countP_zero Event.isOffspringReady tail
      (by intro e; cases e <;> simp [Event.isPlacementPhase, Event.isOffspringReady]) ht
    have t3 := placementPhase_countP_zero Event.isClone tail
      (by intro e; cases e <;> simp [Event.isPlacementPhase, Event.isClone]) ht
    subst hevs
    refine ⟨?_, ?_, ?_, ?_, ?_⟩
    · simp [List.countP_cons, List.countP_append, t1, i1, Event.isBeforeRepro]
    · simp [List.countP_cons, List.countP_append, t2, i2, Event.isOffspringReady]
    · simp [List.countP_cons, List.countP_append, t3, i3, Event.isClone]
    · intro o q hm
      simp only [List.mem_cons, List.mem_append] at hm
      rcases hm with hm | hm | hm | hm | hm
      · cases hm
      · cases hm; rfl
      · cases hm
      · have := ht _ hm; simp [Event.isPlacementPhase] at this
      · exact i4 o q hm
    · intro o q hm
      simp only [List.mem_cons, List.mem_append] at hm
      rcases hm with hm | hm | hm | hm | hm
      · cases hm
      · cases hm
      · cases hm; rfl
      · have := ht _ hm; simp [Event.isPlacementPhase] at this
      · exact i5 o q hm

/-- C8: for every copy_count (0 included) and every configured birth-position policy,
`DoBirth` returns, and what it logs is `before_repro(parent_pos)` followed by copy_count
blocks, each made of the clone of the parent, `offspring_ready` for that clone, the
position query for that clone, and then placement-phase events only.  So `before_repro`
fires exactly once and before any clone, `offspring_ready` fires exactly copy_count times,
once per clone and before that clone's query, and every `offspring_ready` and every query
carries the caller's parent index. -/
theorem DoBirth_signal_protocol (inj : Option (Sys → org_ptr_t → WorldPosition))
    (f : Sys → org_ptr_t → WorldPosition → WorldPosition) (parent : Org)
    (parent_pos copy_count : Nat) (w : Sys) :
    ∃ pos w1 rest,
      DoBirth ⟨inj, some f⟩ (some parent) parent_pos copy_count w = .ok (pos, w1) ∧
      emitted w w1 = Event.before_repro parent_pos :: rest ∧
      BirthBlocks parent parent_pos copy_count rest ∧
      (emitted w w1).countP Event.isBeforeRepro = 1 ∧
      (emitted w w1).countP Event.isOffspringReady = copy_count ∧
      (emitted w w1).countP Event.isClone = copy_count ∧
      (∀ o q, Event.offspring_ready o q ∈ emitted w w1 → q = parent_pos) ∧
      (∀ o q, Event.find_birth_pos o q ∈ emitted w w1 →
        q = WorldPosition.ofIndex parent_pos) := by
  obtain ⟨pos, w1, rest, h1, he, hb⟩ := DoBirthLoop_events inj f parent parent_pos copy_count
    .invalid (Trigger (.before_repro parent_pos) w)
  obtain ⟨i1, i2, i3, i4, i5⟩ := BirthBlocks_facts parent parent_pos copy_count rest hb
  have hem : emitted w w1 = Event.before_repro parent_pos :: rest := by
    apply emitted_append
    rw [he]; simp
  refine ⟨pos, w1, rest, h1, hem, hb, ?_, ?_, ?_, ?_, ?_⟩
  · rw [hem]; simp [List.countP_cons, i1, Event.isBeforeRepro]
  · rw [hem]; simp [List.countP_cons, i2, Event.isOffspringReady]
  · rw [hem]; simp [List.countP_cons, i3, Event.isClone]
  · intro o q hm
    rw [hem] at hm
    simp only [List.mem_cons] at hm
    rcases hm with hm | hm
    · cases hm
    · exact i4 o q hm
  · intro o q hm
    rw [hem] at hm
    simp only [List.mem_cons] at hm
    rcases hm with hm | hm
    · cases hm
    · exact i5 o q hm

theorem mem_emptySlots (v : pop_t) (i : Nat) : i ∈ emptySlots v ↔ v[i]? = some none := by
  unfold emptySlots
  simp only [List.mem_filter, List.mem_range, beq_iff_eq]
  constructor
  · exact fun h => h.2
  · intro h
    refine ⟨?_, h⟩
    rcases Nat.lt_or_ge i v.length with h1 | h1
    · exact h1
    · rw [List.getElem?_eq_none h1] at h; cases h

theorem emptySlots_cons (x : org_ptr_t) (t : pop_t) :
    emptySlots (x :: t) = (if x = none then [0] else []) ++ (emptySlots t).map (· + 1) := by
  unfold emptySlots
  rw [List.length_cons, List.range_succ_eq_map, List.filter_cons, List.filter_map]
  cases x <;> simp [Function.comp_def]

theorem emptySlots_set_head (v : pop_t) (i : Nat) (rest : List Nat) (h : Org)
    (hv : emptySlots v = i :: rest) : emptySlots (v.set i (some h)) = rest := by
  induction v generalizing i rest with
  | nil => simp [emptySlots] at hv
  | cons x t ih =>
    rw [emptySlots_cons] at hv
    cases x with
    | none =>
      simp at hv
      obtain ⟨h0, hr⟩ := hv
      subst h0
      simp [emptySlots_cons, hr]
    | some o =>
      simp at hv
      rcases ht : emptySlots t with _ | ⟨i1, r1⟩
      · rw [ht] at hv; simp at hv
      · rw [ht] at hv
        simp at hv
        obtain ⟨h0, hr⟩ := hv
        subst h0
        simp [emptySlots_cons, ih i1 r1 ht, hr]

theorem placements_append (a b : List Event) :
    placements (a ++ b) = placements a ++ placements b := by
  simp [placements, List.filterMap_append]

theorem DoBirthStep_lowest (inj : Option (Sys → org_ptr_t → WorldPosition)) (parent : Org)
    (pp : Nat) (w : Sys) (i : Nat) (rest : List Nat)
    (hS : emptySlots w.mabe.active_pop = i :: rest) :
    ∃ w1, DoBirthStep ⟨inj, some lowestEmptyBirthPos⟩ (some parent) pp w
        = .ok (.mk i .active, w1) ∧
      w1.mabe.active_pop = w.mabe.active_pop.set i (some w.heap) ∧
      w1.mabe.next_pop = w.mabe.next_pop ∧
      w1.mabe.num_orgs = incr w.mabe.num_orgs ∧
      w1.heap = w.heap + 1 ∧
      w1.events = w.events ++ [Event.Clone parent w.heap, Event.offspring_ready w.heap pp,
        Event.find_birth_pos w.heap (WorldPosition.ofIndex pp),
        Event.before_placement w.heap i, Event.on_placement i] := by
  have hslot : w.mabe.active_pop[i]? = some none :=
    (mem_emptySlots _ _).1 (by rw [hS]; simp)
  have hlt : i < w.mabe.active_pop.length := by
    rcases Nat.lt_or_ge i w.mabe.active_pop.length with h1 | h1
    · exact h1
    · rw [List.getElem?_eq_none h1] at hslot; cases hslot
  simp only [DoBirthStep, Clone]
  generalize hw3 : Sys.record _ (Event.find_birth_pos w.heap (WorldPosition.ofIndex pp)) = w3
  have he3 : w3.events = w.events ++ [Event.Clone parent w.heap, Event.offspring_ready w.heap pp,
      Event.find_birth_pos w.heap (WorldPosition.ofIndex pp)] := by
    rw [← hw3]
    simp [events_record, Sys.events, Sys.record, Trigger]
  have hm3 : w3.mabe = w.mabe := by rw [← hw3]; rfl
  have hh3 : w3.heap = w.heap + 1 := by rw [← hw3]; rfl
  have hpos : lowestEmptyBirthPos
      (Trigger (Event.offspring_ready w.heap pp)
        { mabe := (w.record (Event.Clone parent w.heap)).mabe,
          log := (w.record (Event.Clone parent w.heap)).log, heap := w.heap + 1 })
      (some w.heap) (WorldPosition.ofIndex pp) = .mk i .active := by
    simp [lowestEmptyBirthPos, Trigger, Sys.record, hS]
  rw [hpos]
  obtain ⟨w4, h4, hp4, hq4, he4, hn4, hh4, -⟩ :=
    AddOrgAt_spec w3 w.heap i .active (WorldPosition.ofIndex pp)
  refine ⟨w4, ?_, ?_, ?_, ?_, ?_, ?_⟩
  · simp only [WorldPosition.IsValid, ↓reduceIte, h4]
  · have : w4.mabe.active_pop = (grown w3.mabe.active_pop i).set i (some w.heap) := hp4
    rw [this, hm3]
    simp [grown, hlt]
  · have : w4.mabe.next_pop = w3.mabe.next_pop := hq4 .next (by decide)
    rw [this, hm3]
  · have : occupiedAt (w3.pops .active) i = false := by
      show occupiedAt w3.mabe.active_pop i = false
      rw [hm3]; simp [occupiedAt, hslot]
    rw [hn4, this, hm3]
    simp
  · rw [hh4, hh3]
  · rw [he4, he3]
    have : deathEvents .active i (w3.pops .active)[i]? = [] := by
      have h5 : (w3.pops .active)[i]? = some none := by
        show w3.mabe.active_pop[i]? = some none
        rw [hm3]; exact hslot
      rw [h5]; rfl
    rw [this]
    simp

theorem DoBirthLoop_lowest (inj : Option (Sys → org_ptr_t → WorldPosition)) (parent : Org)
    (pp : Nat) :
    ∀ (k : Nat) (pos0 : WorldPosition) (w : Sys),
      k ≤ (emptySlots w.mabe.active_pop).length → w.mabe.num_orgs < SIZE_MOD →
      ∃ pos w1 evs,
        DoBirthLoop ⟨inj, some lowestEmptyBirthPos⟩ (some parent) pp k pos0 w = .ok (pos, w1) ∧
        w1.events = w.events ++ evs ∧
        placements evs = (emptySlots w.mabe.active_pop).take k ∧
        pos = (match ((emptySlots w.mabe.active_pop).take k).getLast? with
          | some i => .mk i .active
          | none => pos0) ∧
        w1.mabe.num_orgs = (w.mabe.num_orgs + k) % SIZE_MOD ∧
        (∀ j i, ((emptySlots w.mabe.active_pop).take k)[j]? = some i →
          w1.mabe.active_pop[i]? = some (some (w.heap + j))) ∧
        (∀ i, i ∉ (emptySlots w.mabe.active_pop).take k →
          w1.mabe.active_pop[i]? = w.mabe.active_pop[i]?) ∧
        w1.mabe.next_pop = w.mabe.next_pop := by
  intro k
  induction k with
  | zero =>
    intro pos0 w _ hM
    exact ⟨pos0, w, [], rfl, by simp, by simp [placements], by simp,
      by simp [Nat.mod_eq_of_lt hM], by simp, by simp, rfl⟩
  | succ n ih =>
    intro pos0 w hk hM
    rcases hS : emptySlots w.mabe.active_pop with _ | ⟨i, rest⟩
    · rw [hS] at hk; simp at hk
    · rw [hS] at hk
      simp only [List.length_cons, Nat.add_le_add_iff_right] at hk
      obtain ⟨w1, h1, ha1, hn1, hc1, hh1, he1⟩ := DoBirthStep_lowest inj parent pp w i rest hS
      have hS1 : emptySlots w1.mabe.active_pop = rest := by
        rw [ha1]; exact emptySlots_set_head _ _ _ _ hS
      obtain ⟨pos2, w2, evs2, h2, he2, hp2, hpos2, hc2, hf2, hfr2, hn2⟩ :=
        ih (.mk i .active) w1 (by rw [hS1]; exact hk)
          (by rw [hc1]; exact Nat.mod_lt _ (by decide))
      rw [hS1] at hp2 hpos2 hf2 hfr2
      have hslot : w.mabe.active_pop[i]? = some none :=
        (mem_emptySlots _ _).1 (by rw [hS]; simp)
      have hlt : i < w.mabe.active_pop.length := by
        rcases Nat.lt_or_ge i w.mabe.active_pop.length with h3 | h3
        · exact h3
        · rw [List.getElem?_eq_none h3] at hslot; cases hslot
      have hi1 : w1.mabe.active_pop[i]? = some (some w.heap) := by
        rw [ha1, List.getElem?_set_self hlt]
      have hnot : i ∉ rest.take n := by
        intro hm
        have : i ∈ emptySlots w1.mabe.active_pop := by rw [hS1]; exact List.mem_of_mem_take hm
        rw [mem_emptySlots, hi1] at this
        cases this
      refine ⟨pos2, w2, [Event.Clone parent w.heap, Event.offspring_ready w.heap pp,
        Event.find_birth_pos w.heap (WorldPosition.ofIndex pp),
        Event.before_placement w.heap i, Event.on_placement i] ++ evs2,
        ?_, ?_, ?_, ?_, ?_, ?_, ?_, ?_⟩
      · simp only [DoBirthLoop, h1, h2]
      · rw [he2, he1, List.append_assoc]
      · rw [placements_append, hp2]
        simp [placements]
      · rw [hpos2]
        simp only [List.take_succ_cons]
        rcases hl : (rest.take n).getLast? with _ | l
        · have : rest.take n = [] := by simpa using hl
          rw [this]; rfl
        · rw [List.getLast?_cons, hl]; rfl
      · rw [hc2, hc1]
        simp only [incr]
        rw [Nat.mod_add_mod]
        congr 1
        omega
      · intro j i2 hj
        simp only [List.take_succ_cons] at hj
        cases j with
        | zero =>
          simp at hj
          subst hj
          rw [hfr2 i hnot, hi1]; rfl
        | succ j1 =>
          simp at hj
          rw [hf2 j1 i2 (by simpa using hj), hh1]
          congr 2
          omega
      · intro i2 hi2
        simp only [List.take_succ_cons, List.mem_cons, not_or] at hi2
        rw [hfr2 i2 hi2.2, ha1, List.getElem?_set_ne (Ne.symm hi2.1)]
      · rw [hn2, hn1]

/-- C9: with the birth-position policy that returns the lowest-index empty active slot,
`DoBirth` with copy_count `k` on an active buffer with at least `k` empty slots returns;
its `on_placement` triggers are, in order, the `k` lowest empty indices; the position
returned is the last of them; `num_orgs` has grown by `k` (as a `size_t`, and exactly
when that does not wrap); the `j`-th of these slots
holds the `j`-th clone; and every organism that was in the active buffer (the parent
among them) is still in its slot. -/
theorem DoBirth_fills_lowest_empty (inj : Option (Sys → org_ptr_t → WorldPosition))
    (parent : Org) (parent_pos k : Nat) (w : Sys)
    (hk : k ≤ (emptySlots w.mabe.active_pop).length)
    (hn : w.mabe.num_orgs < SIZE_MOD) :
    ∃ pos w1,
      DoBirth ⟨inj, some lowestEmptyBirthPos⟩ (some parent) parent_pos k w = .ok (pos, w1) ∧
      placements (emitted w w1) = (emptySlots w.mabe.active_pop).take k ∧
      pos = (match ((emptySlots w.mabe.active_pop).take k).getLast? with
        | some i => .mk i .active
        | none => .invalid) ∧
      w1.mabe.num_orgs = (w.mabe.num_orgs + k) % SIZE_MOD ∧
      (w.mabe.num_orgs + k < SIZE_MOD → w1.mabe.num_orgs = w.mabe.num_orgs + k) ∧
      (∀ j i, ((emptySlots w.mabe.active_pop).take k)[j]? = some i →
        w1.mabe.active_pop[i]? = some (some (w.heap + j))) ∧
      (∀ (i : Nat) (o : Org), w.mabe.active_pop[i]? = some (some o) →
        w1.mabe.active_pop[i]? = some (some o)) ∧
      (∀ i, i ∉ (emptySlots w.mabe.active_pop).take k →
        w1.mabe.active_pop[i]? = w.mabe.active_pop[i]?) := by
  obtain ⟨pos, w1, evs, h1, he, hp, hpos, hc, hf, hfr, -⟩ :=
    DoBirthLoop_lowest inj parent parent_pos k .invalid (Trigger (.before_repro parent_pos) w)
      hk hn
  simp only [mabe_Trigger, heap_Trigger] at hp hpos hc hf hfr
  refine ⟨pos, w1, h1, ?_, hpos, hc, fun h => by rw [hc, Nat.mod_eq_of_lt h], hf, ?_, hfr⟩
  · have : emitted w w1 = Event.before_repro parent_pos :: evs := by
      apply emitted_append
      rw [he]; simp
    rw [this, ← hp]
    simp [placements]
  · intro i o hio
    have hnot : i ∉ (emptySlots w.mabe.active_pop).take k := by
      intro hm
      have := (mem_emptySlots _ _).1 (List.mem_of_mem_take hm)
      rw [hio] at this
      cases this
    rw [hfr i hnot, hio]

/-- Witness for C9, the scenario of the spec: size 5, only index 2 occupied (by the
parent), copy_count 3: the offspring land at 0, 1, 3 in that order, 3 is returned,
`num_orgs` goes from 1 to 4 and the parent is still at index 2. -/
theorem DoBirth_fills_lowest_empty_witness :
    ∃ pos w1, DoBirth exPolicies (some 7) 2 3 exFive = .ok (pos, w1) ∧
      placements (emitted exFive w1) = [0, 1, 3] ∧
      pos = .mk 3 .active ∧
      w1.mabe.num_orgs = 4 ∧
      w1.mabe.active_pop[2]? = some (some 7) := by
  obtain ⟨pos, w1, h1, hp, hpos, -, hc, -, hpar, -⟩ :=
    DoBirth_fills_lowest_empty (some rejectInjectPos) 7 2 3 exFive (by decide)
      (by simp [exFive, SIZE_MOD])
  exact ⟨pos, w1, h1, hp, hpos, hc (by simp [exFive, SIZE_MOD]), hpar 2 7 rfl⟩

/-- Witness for C8: the same scenario, copy_count 3. -/
theorem DoBirth_signal_protocol_witness :
    ∃ pos w1 rest, DoBirth exPolicies (some 7) 2 3 exFive = .ok (pos, w1) ∧
      emitted exFive w1 = Event.before_repro 2 :: rest ∧
      BirthBlocks 7 2 3 rest ∧
      (emitted exFive w1).countP Event.isBeforeRepro = 1 ∧
      (emitted exFive w1).countP Event.isOffspringReady = 3 ∧
      (emitted exFive w1).countP Event.isClone = 3 ∧
      (∀ o q, Event.offspring_ready o q ∈ emitted exFive w1 → q = 2) ∧
      (∀ o q, Event.find_birth_pos o q ∈ emitted exFive w1 → q = WorldPosition.ofIndex 2) :=
  DoBirth_signal_protocol (some rejectInjectPos) lowestEmptyBirthPos 7 2 3 exFive

/-- C7, evaluation at a failing input: active buffer of size 2 with the parent at index 0,
lowest-empty policy, copy_count 2.  The first offspring (organism 8) is placed at index 1,
the second finds no place, and `DoBirth` returns the invalid position although an
offspring of the batch was placed. -/
theorem DoBirth_returns_last_query_result :
    ∃ w1, DoBirth exPolicies (some 7) 0 2 exTwo = .ok (.invalid, w1) ∧
      w1.mabe.active_pop = [some 7, some 8] ∧
      placements (emitted exTwo w1) = [1] ∧
      w1.mabe.num_orgs = 2 :=
  ⟨_, rfl, rfl, rfl, rfl⟩

/-- C10, evaluation at a failing input: `Inject(7, 2)` with a policy that always returns
invalid.  No copy is made: the one handle is released on the first pass, and on the second
pass `inject_ready` fires on it again and it is released a second time. -/
theorem Inject_rejected_twice_releases_same_handle :
    ∃ w1, Inject exPolicies (some 7) 2 Sys.init = .ok w1 ∧
      w1.events = [.inject_ready 7, .find_inject_pos 7, .Delete 7,
                   .inject_ready 7, .find_inject_pos 7, .Delete 7] ∧
      w1.events.count (.Delete 7) = 2 ∧
      w1.events.countP Event.isClone = 0 :=
  ⟨_, rfl, rfl, rfl, rfl⟩

/-- C1, evaluation at a failing input: after `AddOrgAt(1, active 0)` and
`AddOrgAt(2, next 1)` both positions `active 0` and `next 0` are in bounds;
`Swap(active 0, next 0)` then moves organism 1 out of the active buffer without touching
`num_orgs`, which stays 1 while the active buffer has no occupied slot. -/
theorem Swap_across_buffers_breaks_num_orgs :
    ∃ w0 w1,
      runOps exPolicies [.AddOrgAt (some 1) (.mk 0 .active), .AddOrgAt (some 2) (.mk 1 .next)]
        Sys.init = .ok w0 ∧
      inBounds (.mk 0 .active) w0 = true ∧ inBounds (.mk 0 .next) w0 = true ∧
      w0.mabe.num_orgs = occupied w0.mabe.active_pop ∧
      runOps exPolicies [.Swap (.mk 0 .active) (.mk 0 .next)] w0 = .ok w1 ∧
      w1.mabe.active_pop = [none] ∧ w1.mabe.next_pop = [some 1, some 2] ∧
      w1.mabe.num_orgs = 1 ∧ occupied w1.mabe.active_pop = 0 :=
  ⟨_, _, rfl, rfl, rfl, rfl, rfl, rfl, rfl, rfl, rfl⟩

/-- Witness for C2: slot 2 of the empty next buffer of a freshly constructed manager. -/
theorem AddOrgAt_owns_slot_witness :
    ∃ w1, AddOrgAt (some 7) (.mk 2 .next) .invalid Sys.init = .ok w1 ∧
      (w1.pops .next)[2]? = some (some 7) ∧
      (w1.pops .next).length = max (Sys.init.pops .next).length (2 + 1) ∧
      ∀ j, (Sys.init.pops .next).length ≤ j → j < (w1.pops .next).length → j ≠ 2 →
        (w1.pops .next)[j]? = some none :=
  AddOrgAt_owns_slot Sys.init 7 2 .next .invalid

theorem Swap_spec (w : Sys) (i1 i2 : Nat) (p1 p2 : PopSel) (a b : org_ptr_t)
    (h1 : (w.pops p1)[i1]? = some a) (h2 : (w.pops p2)[i2]? = some b) :
    ∃ w1, Swap (.mk i1 p1) (.mk i2 p2) w = .ok w1 ∧
      (w1.pops p1)[i1]? = some b ∧ (w1.pops p2)[i2]? = some a ∧
      (∀ q j, ¬ (q = p1 ∧ j = i1) → ¬ (q = p2 ∧ j = i2) → (w1.pops q)[j]? = (w.pops q)[j]?) ∧
      w1.log = w.log ++ [⟨.on_swap (.mk i1 p1) (.mk i2 p2), w1.mabe⟩] ∧
      w1.mabe.num_orgs = w.mabe.num_orgs ∧ w1.heap = w.heap ∧
      w1.mabe.update = w.mabe.update ∧ w1.mabe.pop_sizes = w.mabe.pop_sizes ∧
      w1.mabe.fit_cache = w.mabe.fit_cache ∧ w1.mabe.cache_on = w.mabe.cache_on := by
  have hl1 : i1 < (w.pops p1).length := by
    rcases Nat.lt_or_ge i1 (w.pops p1).length with h | h
    · exact h
    · rw [List.getElem?_eq_none h] at h1; cases h1
  have hl2 : i2 < (w.pops p2).length := by
    rcases Nat.lt_or_ge i2 (w.pops p2).length with h | h
    · exact h
    · rw [List.getElem?_eq_none h] at h2; cases h2
  simp only [Swap, h1, h2]
  refine ⟨_, rfl, ?_, ?_, ?_, ?_, ?_, ?_, ?_, ?_, ?_, ?_⟩
  · cases p1 <;> cases p2 <;> simp only [Sys.pops, Sys.setPop, Trigger, Sys.record] at *
    · by_cases h : i1 = i2
      · subst h
        rw [List.getElem?_set_self (by simpa using hl1)]
        rw [h1] at h2; exact h2.symm ▸ rfl
      · rw [List.getElem?_set_ne (Ne.symm h), List.getElem?_set_self hl1]
    · rw [List.getElem?_set_self hl1]
    · rw [List.getElem?_set_self hl1]
    · by_cases h : i1 = i2
      · subst h
        rw [List.getElem?_set_self (by simpa using hl1)]
        rw [h1] at h2; exact h2.symm ▸ rfl
      · rw [List.getElem?_set_ne (Ne.symm h), List.getElem?_set_self hl1]
  · cases p1 <;> cases p2 <;> simp only [Sys.pops, Sys.setPop, Trigger, Sys.record] at * <;>
      rw [List.getElem?_set_self (by simpa using hl2)]
  · intro q j hq1 hq2
    cases p1 <;> cases p2 <;> cases q <;>
      simp only [Sys.pops, Sys.setPop, Trigger, Sys.record] at * <;>
      simp_all [List.getElem?_set]
    all_goals first
      | (intro h; exact absurd h.symm (by assumption))
      | (rw [if_neg (fun h => hq2 h.symm), if_neg (fun h => hq1 h.symm)])
  all_goals cases p1 <;> cases p2 <;> rfl



/-- C13: for two in-bounds positions (holding `a` and `b`), `Swap` returns; afterwards the
first slot holds `b` and the second `a`, every other slot of both buffers is as before,
and the call logs exactly one event, `on_swap(pos1, pos2)`, whose subscribers see the
buffers already exchanged: no `on_death`, `before_placement` or `on_placement`, and no
release of an organism. -/
theorem Swap_exchanges_two_slots (w : Sys) (i1 i2 : Nat) (p1 p2 : PopSel) (a b : org_ptr_t)
    (h1 : w.slotAt p1 i1 = some a) (h2 : w.slotAt p2 i2 = some b) :
    ∃ w1, Swap (.mk i1 p1) (.mk i2 p2) w = .ok w1 ∧
      w1.slotAt p1 i1 = some b ∧ w1.slotAt p2 i2 = some a ∧
      (∀ q j, ¬ (q = p1 ∧ j = i1) → ¬ (q = p2 ∧ j = i2) → w1.slotAt q j = w.slotAt q j) ∧
      w1.log = w.log ++ [⟨.on_swap (.mk i1 p1) (.mk i2 p2), w1.mabe⟩] ∧
      emitted w w1 = [.on_swap (.mk i1 p1) (.mk i2 p2)] ∧
      deletes (emitted w w1) = [] := by
  obtain ⟨w1, hs, ha, hb, hfr, hlog, -⟩ := Swap_spec w i1 i2 p1 p2 a b h1 h2
  have hem : emitted w w1 = [.on_swap (.mk i1 p1) (.mk i2 p2)] := by
    apply emitted_append
    simp [Sys.events, hlog]
  refine ⟨w1, hs, ha, hb, hfr, hlog, hem, ?_⟩
  rw [hem]; rfl

/-- Witness for C13: slots 0 and 1 of the active buffer `[7, empty]`. -/
theorem Swap_exchanges_two_slots_witness :
    ∃ w1, Swap (.mk 0 .active) (.mk 1 .active) exTwo = .ok w1 ∧
      w1.slotAt .active 0 = some none ∧ w1.slotAt .active 1 = some (some 7) ∧
      (∀ q j, ¬ (q = .active ∧ j = 0) → ¬ (q = .active ∧ j = 1) →
        w1.slotAt q j = exTwo.slotAt q j) ∧
      w1.log = exTwo.log ++ [⟨.on_swap (.mk 0 .active) (.mk 1 .active), w1.mabe⟩] ∧
      emitted exTwo w1 = [.on_swap (.mk 0 .active) (.mk 1 .active)] ∧
      deletes (emitted exTwo w1) = [] :=
  Swap_exchanges_two_slots exTwo 0 1 .active .active (some 7) none rfl rfl

theorem MABEBase_ext (m1 m2 : MABEBase) (h1 : m1.update = m2.update)
    (h2 : m1.active_pop = m2.active_pop) (h3 : m1.next_pop = m2.next_pop)
    (h4 : m1.num_orgs = m2.num_orgs) (h5 : m1.fit_cache = m2.fit_cache)
    (h6 : m1.cache_on = m2.cache_on) (h7 : m1.pop_sizes = m2.pop_sizes) : m1 = m2 := by
  cases m1; cases m2; simp_all

/-- C12: for two in-bounds positions, two consecutive `Swap(p1, p2)` calls return, every
slot of both buffers (indeed every data member) is then as it was at the start, and the
two calls log exactly two events, both `on_swap(p1, p2)` with the positions as passed. -/
theorem Swap_twice_restores (w : Sys) (i1 i2 : Nat) (p1 p2 : PopSel) (a b : org_ptr_t)
    (h1 : w.slotAt p1 i1 = some a) (h2 : w.slotAt p2 i2 = some b) :
    ∃ w1 w2, Swap (.mk i1 p1) (.mk i2 p2) w = .ok w1 ∧
      Swap (.mk i1 p1) (.mk i2 p2) w1 = .ok w2 ∧
      (∀ q j, w2.slotAt q j = w.slotAt q j) ∧
      w2.mabe = w.mabe ∧
      emitted w w2 = [.on_swap (.mk i1 p1) (.mk i2 p2), .on_swap (.mk i1 p1) (.mk i2 p2)] := by
  obtain ⟨w1, hs1, ha1, hb1, hfr1, hlog1, hn1, -, hu1, hz1, hf1, hc1⟩ :=
    Swap_spec w i1 i2 p1 p2 a b h1 h2
  obtain ⟨w2, hs2, ha2, hb2, hfr2, hlog2, hn2, -, hu2, hz2, hf2, hc2⟩ :=
    Swap_spec w1 i1 i2 p1 p2 b a ha1 hb1
  have hslot : ∀ (q : PopSel) (j : Nat), (w2.pops q)[j]? = (w.pops q)[j]? := by
    intro q j
    by_cases hq1 : q = p1 ∧ j = i1
    · obtain ⟨rfl, rfl⟩ := hq1
      rw [ha2]; exact h1.symm
    · by_cases hq2 : q = p2 ∧ j = i2
      · obtain ⟨rfl, rfl⟩ := hq2
        rw [hb2]; exact h2.symm
      · rw [hfr2 q j hq1 hq2, hfr1 q j hq1 hq2]
  have hpop : ∀ q, w2.pops q = w.pops q := fun q => List.ext_getElem? (hslot q)
  refine ⟨w1, w2, hs1, hs2, hslot, ?_, ?_⟩
  · exact MABEBase_ext _ _ (hu2.trans hu1) (hpop .active) (hpop .next) (hn2.trans hn1)
      (hf2.trans hf1) (hc2.trans hc1) (hz2.trans hz1)
  · apply emitted_append
    simp [Sys.events, hlog2, hlog1]

/-- Witness for C12: position 0 of the active buffer `[7, empty]` against slot 1. -/
theorem Swap_twice_restores_witness :
    ∃ w1 w2, Swap (.mk 0 .active) (.mk 1 .active) exTwo = .ok w1 ∧
      Swap (.mk 0 .active) (.mk 1 .active) w1 = .ok w2 ∧
      (∀ q j, w2.slotAt q j = exTwo.slotAt q j) ∧
      w2.mabe = exTwo.mabe ∧
      emitted exTwo w2 =
        [.on_swap (.mk 0 .active) (.mk 1 .active), .on_swap (.mk 0 .active) (.mk 1 .active)] :=
  Swap_twice_restores exTwo 0 1 .active .active (some 7) none rfl rfl

theorem RemoveOrgAt_log (w : Sys) (id : Nat) (pop : PopSel) (w1 : Sys)
    (h : RemoveOrgAt (.mk id pop) w = .ok w1) :
    ∃ es, w1.log = w.log ++ es ∧ ∀ e ∈ es, e.seen = w.mabe := by
  rcases hs : (w.pops pop)[id]? with _ | (_ | o)
  · rw [RemoveOrgAt_out_of_range w id pop hs] at h
    cases h
    exact ⟨[], by simp, by simp⟩
  · rw [RemoveOrgAt_null w id pop hs] at h
    cases h
    exact ⟨[], by simp, by simp⟩
  · cases pop
    · rw [RemoveOrgAt_active w id o hs] at h
      cases h
      exact ⟨_, rfl, by simp⟩
    · rw [RemoveOrgAt_next w id o hs] at h
      cases h
      exact ⟨_, rfl, by simp⟩

theorem take_set_self {α : Type} (l : List α) (i : Nat) (a : α) :
    (l.set i a).take i = l.take i := by
  rw [List.set_take]
  apply set_of_getElem?_none
  simp

theorem occupied_cons_none (rest : pop_t) : occupied (none :: rest) = occupied rest := by
  simp [occupied, List.countP_cons]

theorem occupied_cons_some (o : Org) (rest : pop_t) :
    occupied (some o :: rest) = occupied rest + 1 := by
  simp [occupied, List.countP_cons]

theorem decrBy_succ (k n : Nat) : decrBy (k + 1) n = decrBy k (decr n) := by
  unfold decrBy
  exact Function.iterate_succ_apply decr k n

theorem lengths_of_RemoveOrgAt (w w1 : Sys) (i : Nat) (pop : PopSel)
    (h : RemoveOrgAt (.mk i pop) w = .ok w1) :
    w1.mabe.active_pop.length = w.mabe.active_pop.length ∧
    w1.mabe.next_pop.length = w.mabe.next_pop.length := by
  obtain ⟨w2, h2, hp, hq, -⟩ := RemoveOrgAt_spec w i pop
  rw [h] at h2
  cases h2
  cases pop
  · have := hq .next (by decide)
    simp only [Sys.pops] at hp this
    rw [hp, this, List.length_set]
    exact ⟨rfl, rfl⟩
  · have := hq .active (by decide)
    simp only [Sys.pops] at hp this
    rw [hp, this, List.length_set]
    exact ⟨rfl, rfl⟩

theorem RemoveOrgsFrom_spec (pop : PopSel) :
    ∀ (n i : Nat) (w : Sys), n ≤ (w.pops pop).length - i →
      ∃ w1, RemoveOrgsFrom pop i n w = .ok w1 ∧
        (w1.pops pop).length = (w.pops pop).length ∧
        (w1.pops pop).take i = (w.pops pop).take i ∧
        (∀ q, q ≠ pop → w1.pops q = w.pops q) ∧
        w1.events = w.events ++ removalEvents pop i (((w.pops pop).drop i).take n) ∧
        w1.mabe.num_orgs =
          (if pop = .active then
            decrBy (occupied (((w.pops pop).drop i).take n)) w.mabe.num_orgs
           else w.mabe.num_orgs) ∧
        w1.heap = w.heap ∧ w1.mabe.update = w.mabe.update ∧
        w1.mabe.pop_sizes = w.mabe.pop_sizes ∧ w1.mabe.fit_cache = w.mabe.fit_cache ∧
        w1.mabe.cache_on = w.mabe.cache_on ∧
        ∃ es, w1.log = w.log ++ es ∧ ∀ e ∈ es,
          e.seen.active_pop.length = w.mabe.active_pop.length ∧
          e.seen.next_pop.length = w.mabe.next_pop.length := by
  intro n
  induction n with
  | zero =>
    intro i w _
    refine ⟨w, rfl, rfl, rfl, fun _ _ => rfl, by simp [removalEvents], ?_, rfl, rfl, rfl, rfl,
      rfl, [], by simp, by simp⟩
    simp [occupied, decrBy]
  | succ n ih =>
    intro i w hn
    have hi : i < (w.pops pop).length := by omega
    obtain ⟨w1, h1, hp1, hq1, he1, hc1, hh1, hu1, hz1, hf1, hk1⟩ := RemoveOrgAt_spec w i pop
    obtain ⟨es1, hl1, hs1⟩ := RemoveOrgAt_log w i pop w1 h1
    have hlen1 : (w1.pops pop).length = (w.pops pop).length := by rw [hp1, List.length_set]
    obtain ⟨w2, h2, hlen2, htk2, hq2, he2, hc2, hh2, hu2, hz2, hf2, hk2, es2, hl2, hs2⟩ :=
      ih (i + 1) w1 (by rw [hlen1]; omega)
    have hdrop : (w.pops pop).drop i = (w.pops pop)[i] :: (w.pops pop).drop (i + 1) :=
      List.drop_eq_getElem_cons hi
    have hdrop1 : (w1.pops pop).drop (i + 1) = (w.pops pop).drop (i + 1) := by
      rw [hp1]; exact List.drop_set_of_lt _ _ (by omega)
    have hget : (w.pops pop)[i]? = some (w.pops pop)[i] := List.getElem?_eq_getElem hi
    refine ⟨w2, ?_, ?_, ?_, ?_, ?_, ?_, ?_, ?_, ?_, ?_, ?_, es1 ++ es2, ?_, ?_⟩
    · simp only [RemoveOrgsFrom, h1, h2]
    · rw [hlen2, hlen1]
    · have := congrArg (List.take i) htk2
      rw [List.take_take, List.take_take] at this
      rw [Nat.min_eq_left (Nat.le_succ i)] at this
      rw [this, hp1, take_set_self]
    · intro q hq; rw [hq2 q hq, hq1 q hq]
    · rw [he2, he1, hdrop1, hdrop, List.take_succ_cons, hget]
      simp [removalEvents]
    · rw [hc2, hc1, hdrop1, hdrop, List.take_succ_cons]
      cases pop
      · rcases hv : (w.pops .active)[i] with _ | o
        · have : occupiedAt (w.pops .active) i = false := by
            simp [occupiedAt, hget, hv]
          simp [this, occupied_cons_none]
        · have : occupiedAt (w.pops .active) i = true := by
            simp [occupiedAt, hget, hv]
          simp [this, occupied_cons_some, decrBy_succ]
      · simp
    · rw [hh2, hh1]
    · rw [hu2, hu1]
    · rw [hz2, hz1]
    · rw [hf2, hf1]
    · rw [hk2, hk1]
    · rw [hl2, hl1, List.append_assoc]
    · obtain ⟨hla, hln⟩ := lengths_of_RemoveOrgAt w w1 i pop h1
      intro e he
      rcases List.mem_append.1 he with he | he
      · rw [hs1 e he]; exact ⟨rfl, rfl⟩
      · obtain ⟨ha, hb⟩ := hs2 e he
        exact ⟨ha.trans hla, hb.trans hln⟩

theorem occupiedAt_cons_succ (x : org_ptr_t) (t : pop_t) (i : Nat) :
    occupiedAt (x :: t) (i + 1) = occupiedAt t i := by
  simp [occupiedAt]

theorem occupiedSlots_cons (x : org_ptr_t) (t : pop_t) :
    occupiedSlots (x :: t) =
      (if x.isSome = true then [0] else []) ++ (occupiedSlots t).map (· + 1) := by
  unfold occupiedSlots
  rw [List.length_cons, List.range_succ_eq_map, List.filter_cons, List.filter_map]
  cases x <;> simp [Function.comp_def, occupiedAt]

theorem onDeaths_append (a b : List Event) : onDeaths (a ++ b) = onDeaths a ++ onDeaths b := by
  simp [onDeaths, List.filterMap_append]

theorem deletes_append (a b : List Event) : deletes (a ++ b) = deletes a ++ deletes b := by
  simp [deletes, List.filterMap_append]

theorem deletes_removalEvents (pop : PopSel) (v : pop_t) :
    ∀ i, deletes (removalEvents pop i v) = occupants v := by
  induction v with
  | nil => intro i; rfl
  | cons x t ih =>
    intro i
    simp only [removalEvents, deletes_append, ih]
    cases x <;> cases pop <;> simp [deathEvents, deletes, occupants]

theorem onDeaths_removalEvents_next (v : pop_t) :
    ∀ i, onDeaths (removalEvents .next i v) = [] := by
  induction v with
  | nil => intro i; rfl
  | cons x t ih =>
    intro i
    simp only [removalEvents, onDeaths_append, ih]
    cases x <;> simp [deathEvents, onDeaths]

theorem onDeaths_removalEvents_active (v : pop_t) :
    ∀ i, onDeaths (removalEvents .active i v) = (occupiedSlots v).map (· + i) := by
  induction v with
  | nil => intro i; rfl
  | cons x t ih =>
    intro i
    simp only [removalEvents, onDeaths_append, ih, occupiedSlots_cons]
    cases x <;> simp [deathEvents, onDeaths, Function.comp_def] <;> intros <;> omega

theorem occupiedSlots_drop (k : Nat) :
    ∀ v : pop_t, (occupiedSlots v).filter (fun j => decide (k ≤ j)) =
      (occupiedSlots (v.drop k)).map (· + k) := by
  induction k with
  | zero => intro v; simp
  | succ k ih =>
    intro v
    cases v with
    | nil => simp [occupiedSlots]
    | cons x t =>
      rw [occupiedSlots_cons, List.filter_append, List.filter_map, List.drop_succ_cons]
      have h0 : List.filter (fun j => decide (k + 1 ≤ j)) (if x.isSome = true then [0] else [])
          = [] := by
        split <;> simp
      rw [h0, List.nil_append]
      have hf : ((fun j => decide (k + 1 ≤ j)) ∘ fun x => x + 1) = fun j => decide (k ≤ j) := by
        funext j; simp
      rw [hf, ih t, List.map_map]
      congr 1

theorem decr_of_pos (n : Nat) (h0 : 0 < n) (h1 : n < SIZE_MOD) : decr n = n - 1 := by
  simp only [decr, SIZE_MOD] at *
  omega

theorem decrBy_of_le (k : Nat) : ∀ n, k ≤ n → n < SIZE_MOD → decrBy k n = n - k := by
  induction k with
  | zero => intro n _ _; simp [decrBy]
  | succ k ih =>
    intro n hk hn
    rw [decrBy_succ, decr_of_pos n (by omega) hn, ih (n - 1) (by omega) (by omega)]
    omega

theorem ClearPop_spec (pop : PopSel) (w : Sys) :
    ∃ w1, ClearPop pop w = .ok w1 ∧
      w1.pops pop = [] ∧
      (∀ q, q ≠ pop → w1.pops q = w.pops q) ∧
      w1.events = w.events ++ removalEvents pop 0 (w.pops pop) ∧
      w1.mabe.num_orgs =
        (if pop = .active then decrBy (occupied (w.pops pop)) w.mabe.num_orgs
         else w.mabe.num_orgs) ∧
      w1.heap = w.heap ∧ w1.mabe.update = w.mabe.update ∧
      w1.mabe.pop_sizes = w.mabe.pop_sizes ∧ w1.mabe.fit_cache = w.mabe.fit_cache ∧
      w1.mabe.cache_on = w.mabe.cache_on := by
  obtain ⟨w1, h1, -, -, hq, he, hc, hh, hu, hz, hf, hk, -⟩ :=
    RemoveOrgsFrom_spec pop (w.pops pop).length 0 w (by omega)
  simp only [List.drop_zero, List.take_length] at he hc
  have hcl : ClearPop pop w = .ok (w1.setPop pop (vec_resize (w1.pops pop) 0 none)) := by
    simp only [ClearPop, h1]
  refine ⟨_, hcl, ?_, ?_, ?_, ?_, ?_, ?_, ?_, ?_, ?_⟩
  · cases pop <;> simp [Sys.setPop, Sys.pops, vec_resize]
  · intro q hq1
    rw [← hq q hq1]
    cases pop <;> cases q <;> simp_all [Sys.setPop, Sys.pops]
  · rw [← he]; cases pop <;> rfl
  · rw [← hc]; cases pop <;> rfl
  · rw [← hh]; cases pop <;> rfl
  · rw [← hu]; cases pop <;> rfl
  · rw [← hz]; cases pop <;> rfl
  · rw [← hf]; cases pop <;> rfl
  · rw [← hk]; cases pop <;> rfl

theorem Clear_spec (w : Sys) :
    ∃ w1, Clear w = .ok w1 ∧
      w1.mabe.active_pop = [] ∧ w1.mabe.next_pop = [] ∧
      w1.events = w.events ++ (removalEvents .active 0 w.mabe.active_pop ++
        removalEvents .next 0 w.mabe.next_pop) ∧
      w1.mabe.num_orgs = decrBy (occupied w.mabe.active_pop) w.mabe.num_orgs ∧
      w1.heap = w.heap ∧ w1.mabe.update = w.mabe.update ∧
      w1.mabe.pop_sizes = w.mabe.pop_sizes ∧ w1.mabe.fit_cache = w.mabe.fit_cache ∧
      w1.mabe.cache_on = w.mabe.cache_on := by
  obtain ⟨w1, h1, hp1, hq1, he1, hc1, hh1, hu1, hz1, hf1, hk1⟩ := ClearPop_spec .active w
  obtain ⟨w2, h2, hp2, hq2, he2, hc2, hh2, hu2, hz2, hf2, hk2⟩ := ClearPop_spec .next w1
  have hn1 : w1.pops .next = w.pops .next := hq1 .next (by decide)
  have ha2 : w2.pops .active = w1.pops .active := hq2 .active (by decide)
  refine ⟨w2, by simp only [Clear, h1, h2], ?_, hp2, ?_, ?_, ?_, ?_, ?_, ?_, ?_⟩
  · exact ha2.trans hp1
  · rw [he2, he1, hn1, List.append_assoc]; rfl
  · rw [hc2, hc1]; simp; rfl
  · rw [hh2, hh1]
  · rw [hu2, hu1]
  · rw [hz2, hz1]
  · rw [hf2, hf1]
  · rw [hk2, hk1]

theorem Clear_resets_count_when_exact (w : Sys)
    (hinv : w.mabe.num_orgs = occupied w.mabe.active_pop) (hlt : w.mabe.num_orgs < SIZE_MOD) :
    ∃ w1, Clear w = .ok w1 ∧ w1.mabe.num_orgs = 0 ∧
      w1.mabe.active_pop = [] ∧ w1.mabe.next_pop = [] := by
  obtain ⟨w1, h1, ha, hn, -, hc, -⟩ := Clear_spec w
  refine ⟨w1, h1, ?_, ha, hn⟩
  rw [hc, decrBy_of_le _ _ (by omega) hlt]
  omega

/-- C14, evaluation at a failing input: the state reached by `AddOrgAt(1, active 0)`,
`AddOrgAt(2, next 1)` and `Swap(active 0, next 0)` has `num_orgs` 1 and no organism in the
active buffer; `Clear` then empties both buffers, decrements nothing, and leaves
`num_orgs` at 1. -/
theorem Clear_after_cross_swap_keeps_num_orgs :
    ∃ w0 w1,
      runOps exPolicies [.AddOrgAt (some 1) (.mk 0 .active), .AddOrgAt (some 2) (.mk 1 .next),
        .Swap (.mk 0 .active) (.mk 0 .next)] Sys.init = .ok w0 ∧
      Clear w0 = .ok w1 ∧
      w1.mabe.active_pop = [] ∧ w1.mabe.next_pop = [] ∧ w1.mabe.num_orgs = 1 :=
  ⟨_, _, rfl, rfl, rfl, rfl, rfl⟩

/-- C15: `Clear` returns, and what it logs is the removal protocol run over the active
buffer and then over the next buffer.  The active part fires `on_death` once for each
occupied active slot, in ascending index order, and releases the occupants of the active
buffer; the next part fires no `on_death` and releases the occupants of the next buffer.
Altogether each organism is released once for each slot that held it. -/
theorem Clear_releases_every_occupant (w : Sys) :
    ∃ w1 evA evN, Clear w = .ok w1 ∧ emitted w w1 = evA ++ evN ∧
      evA = removalEvents .active 0 w.mabe.active_pop ∧
      evN = removalEvents .next 0 w.mabe.next_pop ∧
      onDeaths evA = occupiedSlots w.mabe.active_pop ∧
      deletes evA = occupants w.mabe.active_pop ∧
      onDeaths evN = [] ∧
      deletes evN = occupants w.mabe.next_pop ∧
      deletes (emitted w w1) = w.allOccupants ∧
      (∀ o, (deletes (emitted w w1)).count o = w.allOccupants.count o) := by
  obtain ⟨w1, h1, -, -, he, -⟩ := Clear_spec w
  have hem := emitted_append w w1 _ he
  have hd : deletes (emitted w w1) = w.allOccupants := by
    rw [hem, deletes_append, deletes_removalEvents, deletes_removalEvents]
    rfl
  refine ⟨w1, _, _, h1, hem, rfl, rfl, ?_, deletes_removalEvents _ _ _,
    onDeaths_removalEvents_next _ _, deletes_removalEvents _ _ _, hd, ?_⟩
  · rw [onDeaths_removalEvents_active]
    simp
  · intro o; rw [hd]

/-- C16: `Reset` returns exactly when `Clear` does (always), its result is the result of
`Clear` with the time-step counter `update` set to 0 and nothing else changed, and
`Clear` itself leaves `update` as it was. -/
theorem Reset_is_Clear_with_update_zero (w : Sys) :
    ∃ wc wr, Clear w = .ok wc ∧ Reset w = .ok wr ∧
      wr.mabe = { wc.mabe with update := 0 } ∧ wr.log = wc.log ∧ wr.heap = wc.heap ∧
      wr.mabe.update = 0 ∧ wc.mabe.update = w.mabe.update := by
  obtain ⟨wc, hc, -, -, -, -, -, hu, -⟩ := Clear_spec w
  have hr : Reset w = .ok { wc with mabe := { wc.mabe with update := 0 } } := by
    simp only [Reset, hc]
  exact ⟨wc, _, hc, hr, rfl, rfl, rfl, rfl, hu⟩

theorem Resize_spec (new_size : Nat) (w : Sys) :
    ∃ w1, Resize new_size w = .ok w1 ∧
      w1.mabe.active_pop = vec_resize w.mabe.active_pop new_size none ∧
      w1.mabe.next_pop = w.mabe.next_pop ∧
      w1.events = w.events ++
        removalEvents .active new_size (w.mabe.active_pop.drop new_size) ∧
      w1.mabe.num_orgs =
        decrBy (occupied (w.mabe.active_pop.drop new_size)) w.mabe.num_orgs ∧
      w1.heap = w.heap ∧ w1.mabe.update = w.mabe.update ∧
      w1.mabe.pop_sizes = w.mabe.pop_sizes ∧ w1.mabe.fit_cache = w.mabe.fit_cache ∧
      w1.mabe.cache_on = w.mabe.cache_on ∧
      ∃ es, w1.log = w.log ++ es ∧ ∀ e ∈ es,
        e.seen.active_pop.length = w.mabe.active_pop.length := by
  obtain ⟨w1, h1, hlen, htk, hq, he, hc, hh, hu, hz, hf, hk, es, hl, hs⟩ :=
    RemoveOrgsFrom_spec .active (w.mabe.active_pop.length - new_size) new_size w (by
      show _ ≤ w.mabe.active_pop.length - new_size
      omega)
  have htake : ((w.pops .active).drop new_size).take (w.mabe.active_pop.length - new_size)
      = w.mabe.active_pop.drop new_size := by
    apply List.take_of_length_le
    simp [Sys.pops]
  rw [htake] at he hc
  have hr : Resize new_size w =
      .ok (w1.setPop .active (vec_resize w1.mabe.active_pop new_size none)) := by
    simp only [Resize, h1]
  refine ⟨_, hr, ?_, hq .next (by decide), he, ?_, hh, hu, hz, hf, hk, es, hl, ?_⟩
  · show vec_resize w1.mabe.active_pop new_size none = _
    unfold vec_resize
    have h1 : w1.mabe.active_pop.take new_size = w.mabe.active_pop.take new_size := htk
    have h2 : w1.mabe.active_pop.length = w.mabe.active_pop.length := hlen
    rw [h1, h2]
  · simpa using hc
  · intro e he1; exact (hs e he1).1

theorem length_occupants (v : pop_t) : (occupants v).length = occupied v := by
  induction v with
  | nil => rfl
  | cons x t ih =>
    cases x with
    | none => simpa [occupants, occupied] using ih
    | some o => simpa [occupants, occupied] using ih

theorem vec_resize_length {α : Type} (v : List α) (n : Nat) (fill : α) :
    (vec_resize v n fill).length = n := by
  simp [vec_resize]
  omega

theorem vec_resize_old {α : Type} (v : List α) (n j : Nat) (fill : α)
    (h1 : j < n) (h2 : j < v.length) : (vec_resize v n fill)[j]? = v[j]? := by
  unfold vec_resize
  rw [List.getElem?_append_left (by simp; omega), List.getElem?_take_of_lt h1]

theorem vec_resize_new {α : Type} (v : List α) (n j : Nat) (fill : α)
    (h1 : v.length ≤ j) (h2 : j < n) : (vec_resize v n fill)[j]? = some fill := by
  unfold vec_resize
  rw [List.getElem?_append_right (by simp; omega)]
  simp [List.getElem?_replicate]
  omega

/-- C17: `Resize(new_size)` returns; it logs the removal protocol for the slots at indices
`new_size` and up: one `on_death` for each occupied one, in ascending index order, and the
release of its occupant, all of them while the active buffer still has its old length.
Afterwards the active buffer has length `new_size`, the slots below `new_size` that were
there are unchanged, the added slots are empty, `num_orgs` has been decremented once for
each released occupant, and the next buffer is as before. -/
theorem Resize_releases_tail (new_size : Nat) (w : Sys) :
    ∃ w1, Resize new_size w = .ok w1 ∧
      emitted w w1 = removalEvents .active new_size (w.mabe.active_pop.drop new_size) ∧
      onDeaths (emitted w w1) =
        (occupiedSlots w.mabe.active_pop).filter (fun j => decide (new_size ≤ j)) ∧
      deletes (emitted w w1) = occupants (w.mabe.active_pop.drop new_size) ∧
      (∃ es, w1.log = w.log ++ es ∧
        ∀ e ∈ es, e.seen.active_pop.length = w.mabe.active_pop.length) ∧
      w1.mabe.active_pop.length = new_size ∧
      (∀ j, j < new_size → j < w.mabe.active_pop.length →
        w1.mabe.active_pop[j]? = w.mabe.active_pop[j]?) ∧
      (∀ j, w.mabe.active_pop.length ≤ j → j < new_size →
        w1.mabe.active_pop[j]? = some none) ∧
      w1.mabe.num_orgs = decrBy (deletes (emitted w w1)).length w.mabe.num_orgs ∧
      ((deletes (emitted w w1)).length ≤ w.mabe.num_orgs → w.mabe.num_orgs < SIZE_MOD →
        w1.mabe.num_orgs = w.mabe.num_orgs - (deletes (emitted w w1)).length) ∧
      w1.mabe.next_pop = w.mabe.next_pop := by
  obtain ⟨w1, h1, ha, hn, he, hc, -, -, -, -, -, hes⟩ := Resize_spec new_size w
  have hem := emitted_append w w1 _ he
  have hd : deletes (emitted w w1) = occupants (w.mabe.active_pop.drop new_size) := by
    rw [hem, deletes_removalEvents]
  have hdl : (deletes (emitted w w1)).length = occupied (w.mabe.active_pop.drop new_size) := by
    rw [hd, length_occupants]
  refine ⟨w1, h1, hem, ?_, hd, hes, ?_, ?_, ?_, ?_, ?_, hn⟩
  · rw [hem, onDeaths_removalEvents_active, occupiedSlots_drop]
  · rw [ha, vec_resize_length]
  · intro j hj1 hj2
    rw [ha, vec_resize_old _ _ _ _ hj1 hj2]
  · intro j hj1 hj2
    rw [ha, vec_resize_new _ _ _ _ hj1 hj2]
  · rw [hdl, hc]
  · intro hle hlt
    rw [hc, ← hdl, decrBy_of_le _ _ hle hlt]

/-- Witness for C17: the active buffer `[-, -, 7, -, -]` resized to 2 slots. -/
theorem Resize_releases_tail_witness :
    ∃ w1, Resize 2 exFive = .ok w1 ∧
      emitted exFive w1 = [.on_death 2, .Delete 7] ∧
      w1.mabe.active_pop = [none, none] ∧
      w1.mabe.num_orgs = 0 := by
  obtain ⟨w1, h1, hem, -, -, -, -, -, -, -, hc, -⟩ := Resize_releases_tail 2 exFive
  have hd : deletes (emitted exFive w1) = [7] := by rw [hem]; rfl
  refine ⟨w1, h1, hem, ?_, ?_⟩
  · have h2 : Resize 2 exFive = .ok _ := rfl
    rw [h1] at h2
    cases h2
    rfl
  · rw [hc (by rw [hd]; decide) (by simp [exFive, SIZE_MOD]), hd]
    rfl

theorem pop_sizes_wh (l : List Nat) (a b : Nat) :
    ((vec_resize l 2 0).set 0 a).set 1 b = [a, b] := by
  rcases l with _ | ⟨x, _ | ⟨y, t⟩⟩ <;> simp [vec_resize]

/-- C18: `Resize(width, height)` returns; afterwards the active buffer has `width * height`
slots (the product as a `size_t`, which is the product itself when that fits), the stored
sizes are `[width, height]`, and `GetWidth() * GetHeight()` is `GetSize()`.
`Resize(dims)` returns; afterwards the active buffer has as many slots as the product of
`dims` (whatever `emp::Product` computes, in particular the `size_t` product) and the
stored size vector is `dims`. -/
theorem Resize_structured_sizes (product : List Nat → Nat) (new_width new_height : Nat)
    (dims : List Nat) (w : Sys) :
    (∃ w1, Resize_wh new_width new_height w = .ok w1 ∧
      GetSize w1 = mul_size new_width new_height ∧
      (new_width * new_height < SIZE_MOD → GetSize w1 = new_width * new_height) ∧
      w1.mabe.pop_sizes = [new_width, new_height] ∧
      ∃ gw gh, GetWidth w1 = .ok gw ∧ GetHeight w1 = .ok gh ∧ mul_size gw gh = GetSize w1) ∧
    (∃ w1, Resize_dims product dims w = .ok w1 ∧
      GetSize w1 = product dims ∧ w1.mabe.pop_sizes = dims) ∧
    (∃ w1, Resize_dims Product dims w = .ok w1 ∧
      GetSize w1 = Product dims ∧ w1.mabe.pop_sizes = dims) := by
  have hdims : ∀ p : List Nat → Nat, ∃ w1, Resize_dims p dims w = .ok w1 ∧
      GetSize w1 = p dims ∧ w1.mabe.pop_sizes = dims := by
    intro p
    obtain ⟨w1, h1, ha, -⟩ := Resize_spec (p dims) w
    have hr : Resize_dims p dims w = .ok { w1 with mabe := { w1.mabe with pop_sizes := dims } } := by
      simp only [Resize_dims, h1]
    refine ⟨_, hr, ?_, rfl⟩
    show w1.mabe.active_pop.length = _
    rw [ha, vec_resize_length]
  refine ⟨?_, hdims product, hdims Product⟩
  obtain ⟨w1, h1, ha, -⟩ := Resize_spec (mul_size new_width new_height) w
  have hr : Resize_wh new_width new_height w = .ok { w1 with mabe := { w1.mabe with
      pop_sizes := ((vec_resize w1.mabe.pop_sizes 2 0).set 0 new_width).set 1 new_height } } := by
    simp only [Resize_wh, h1]
  have hsz : w1.mabe.active_pop.length = mul_size new_width new_height := by
    rw [ha, vec_resize_length]
  refine ⟨_, hr, hsz, ?_, pop_sizes_wh _ _ _, new_width, new_height, ?_, ?_, hsz.symm⟩
  · intro hlt
    show w1.mabe.active_pop.length = _
    rw [hsz]
    exact Nat.mod_eq_of_lt hlt
  · simp [GetWidth, pop_sizes_wh]
  · simp [GetHeight, pop_sizes_wh]

/-- Witness for C18: a fresh manager resized to 2 by 3, and to the dimensions `[2, 3]`. -/
theorem Resize_structured_sizes_witness :
    (∃ w1, Resize_wh 2 3 Sys.init = .ok w1 ∧ GetSize w1 = 6 ∧
      w1.mabe.pop_sizes = [2, 3] ∧ GetWidth w1 = .ok 2 ∧ GetHeight w1 = .ok 3) ∧
    (∃ w1, Resize_dims Product [2, 3] Sys.init = .ok w1 ∧ GetSize w1 = 6 ∧
      w1.mabe.pop_sizes = [2, 3]) := by
  obtain ⟨⟨w1, h1, -, hs, hp, gw, gh, hgw, hgh, -⟩, -, ⟨w2, h2, hs2, hp2⟩⟩ :=
    Resize_structured_sizes Product 2 3 [2, 3] Sys.init
  refine ⟨⟨w1, h1, hs (by simp [SIZE_MOD]), hp, ?_, ?_⟩, ⟨w2, h2, ?_, hp2⟩⟩
  · simp [GetWidth, hp]
  · simp [GetHeight, hp]
  · rw [hs2]; simp [Product, mul_size, SIZE_MOD]

theorem GetRandomOrgIDLoop_find (v : pop_t) :
    ∀ (draws : List Nat) (pos : Nat), (∀ d ∈ pos :: draws, d < v.length) →
      GetRandomOrgIDLoop v pos draws =
        .ok ((pos :: draws).find? (fun d => occupiedAt v d)) := by
  intro draws
  induction draws with
  | nil =>
    intro pos h
    have hp : pos < v.length := h pos (by simp)
    rcases hv : v[pos] with _ | o <;>
      simp [GetRandomOrgIDLoop, occupiedAt, List.getElem?_eq_getElem hp, hv]
  | cons d rest ih =>
    intro pos h
    have hp : pos < v.length := h pos (by simp)
    have hrest : ∀ x ∈ d :: rest, x < v.length := fun x hx => h x (List.mem_cons_of_mem _ hx)
    rcases hv : v[pos] with _ | o
    · have hocc : occupiedAt v pos = false := by
        simp [occupiedAt, List.getElem?_eq_getElem hp, hv]
      have hstep : GetRandomOrgIDLoop v pos (d :: rest) = GetRandomOrgIDLoop v d rest := by
        simp [GetRandomOrgIDLoop, List.getElem?_eq_getElem hp, hv]
      rw [hstep, ih d hrest]
      conv_rhs => rw [List.find?_cons]
      simp only [hocc]
    · have hocc : occupiedAt v pos = true := by
        simp [occupiedAt, List.getElem?_eq_getElem hp, hv]
      have hstep : GetRandomOrgIDLoop v pos (d :: rest) = .ok (some pos) := by
        simp [GetRandomOrgIDLoop, List.getElem?_eq_getElem hp, hv]
      rw [hstep]
      conv_rhs => rw [List.find?_cons]
      simp only [hocc]

theorem exists_occupied (v : pop_t) (h : 0 < occupied v) :
    ∃ i, i < v.length ∧ occupiedAt v i = true := by
  induction v with
  | nil => simp [occupied] at h
  | cons x t ih =>
    cases x with
    | some o => exact ⟨0, by simp, by simp [occupiedAt]⟩
    | none =>
      rw [occupied_cons_none] at h
      obtain ⟨i, hi, ho⟩ := ih h
      exact ⟨i + 1, by simpa using hi, by rw [occupiedAt_cons_succ]; exact ho⟩

/-- C19: `GetRandomOrgID` traps when `num_orgs` is 0.  When `num_orgs` is positive, then
for every sequence of draws from `[0, active length)` the call gives the first drawn index
whose slot is occupied (it is still drawing when no draw so far hit an occupied slot), so
every index it returns is one of the draws, in range and occupied; and when `num_orgs`
counts the occupied active slots there is an occupied slot to be drawn. -/
theorem GetRandomOrgID_first_occupied_draw (draws : List Nat) (w : Sys) :
    (w.mabe.num_orgs = 0 → GetRandomOrgID draws w = .error .assert_failed) ∧
    (0 < w.mabe.num_orgs → (∀ d ∈ draws, d < w.mabe.active_pop.length) →
      GetRandomOrgID draws w =
        .ok (draws.find? (fun d => occupiedAt w.mabe.active_pop d)) ∧
      ∀ i, GetRandomOrgID draws w = .ok (some i) →
        i ∈ draws ∧ i < w.mabe.active_pop.length ∧ occupiedAt w.mabe.active_pop i = true) ∧
    (0 < w.mabe.num_orgs → w.mabe.num_orgs = occupied w.mabe.active_pop →
      ∃ i, i < w.mabe.active_pop.length ∧ occupiedAt w.mabe.active_pop i = true ∧
        GetRandomOrgID [i] w = .ok (some i)) := by
  have hfind : 0 < w.mabe.num_orgs → ∀ ds : List Nat, (∀ d ∈ ds, d < w.mabe.active_pop.length) →
      GetRandomOrgID ds w = .ok (ds.find? (fun d => occupiedAt w.mabe.active_pop d)) := by
    intro hpos ds hds
    have hne : w.mabe.num_orgs ≠ 0 := by omega
    cases ds with
    | nil => simp [GetRandomOrgID, hne]
    | cons d rest =>
      simp only [GetRandomOrgID, hne, ↓reduceIte]
      exact GetRandomOrgIDLoop_find _ rest d hds
  refine ⟨?_, ?_, ?_⟩
  · intro h0
    simp [GetRandomOrgID, h0]
  · intro hpos hds
    refine ⟨hfind hpos draws hds, ?_⟩
    intro i hi
    rw [hfind hpos draws hds] at hi
    have hf : draws.find? (fun d => occupiedAt w.mabe.active_pop d) = some i := by
      injection hi
    have hm := List.mem_of_find?_eq_some hf
    have ho := List.find?_some hf
    exact ⟨hm, hds i hm, ho⟩
  · intro hpos hinv
    obtain ⟨i, hi, ho⟩ := exists_occupied w.mabe.active_pop (by omega)
    refine ⟨i, hi, ho, ?_⟩
    rw [hfind hpos [i] (by simpa using hi)]
    simp [List.find?_cons, ho]

/-- Witness for C19, the scenario of the spec: after `Resize(5)` and `AddOrgAt` at the
active indices 0 to 4, `num_orgs` is 5 and the draws 3, 1, 4 give index 3. -/
theorem GetRandomOrgID_first_occupied_draw_witness :
    (∃ w, runOps exPolicies exFillOps Sys.init = .ok w ∧ w.mabe = exFull.mabe) ∧
    exFull.mabe.num_orgs = 5 ∧ exFull.mabe.num_orgs = occupied exFull.mabe.active_pop ∧
    GetRandomOrgID [3, 1, 4] exFull = .ok (some 3) ∧
    GetRandomOrgID [3, 1, 4] { exFull with mabe := { exFull.mabe with num_orgs := 0 } }
      = .error .assert_failed :=
  ⟨⟨_, rfl, rfl⟩, rfl, rfl,
   ((GetRandomOrgID_first_occupied_draw [3, 1, 4] exFull).2.1 (by decide) (by decide)).1,
   (GetRandomOrgID_first_occupied_draw [3, 1, 4]
      { exFull with mabe := { exFull.mabe with num_orgs := 0 } }).1 rfl⟩

/-- C20, counterexample: caching is on and the cache holds the values 5 and 3.
`RemoveOrgAt` empties active slot 0 and `AddOrgAt` fills active slot 1, and both leave the
cache entry at the index of the changed slot as it was instead of resetting it to 0. -/
theorem fit_cache_entry_survives_slot_change :
    exCached.mabe.cache_on = true ∧
    (∃ w1, RemoveOrgAt (.mk 0 .active) exCached = .ok w1 ∧
      exCached.mabe.active_pop[0]? = some (some 7) ∧ w1.mabe.active_pop[0]? = some none ∧
      w1.mabe.fit_cache[0]? = some 5) ∧
    (∃ w1, AddOrgAt (some 9) (.mk 1 .active) .invalid exCached = .ok w1 ∧
      exCached.mabe.active_pop[1]? = some none ∧ w1.mabe.active_pop[1]? = some (some 9) ∧
      w1.mabe.fit_cache[1]? = some 3) :=
  ⟨rfl, ⟨_, rfl, rfl, rfl, rfl⟩, ⟨_, rfl, rfl, rfl, rfl⟩⟩

/-- C20, as amended: `AddOrgAt` and `RemoveOrgAt` never change the fitness cache: for
every state (caching on or off), handle and position, every cache entry and the `cache_on`
flag are the same after the call as before. -/
theorem fit_cache_untouched (w : Sys) (org : Org) (id : Nat) (pop : PopSel)
    (p_pos : WorldPosition) :
    (∃ w1, AddOrgAt (some org) (.mk id pop) p_pos w = .ok w1 ∧
      w1.mabe.fit_cache = w.mabe.fit_cache ∧ w1.mabe.cache_on = w.mabe.cache_on) ∧
    (∃ w1, RemoveOrgAt (.mk id pop) w = .ok w1 ∧
      w1.mabe.fit_cache = w.mabe.fit_cache ∧ w1.mabe.cache_on = w.mabe.cache_on) := by
  obtain ⟨w1, h1, -, -, -, -, -, -, -, hf1, hc1⟩ := AddOrgAt_spec w org id pop p_pos
  obtain ⟨w2, h2, -, -, -, -, -, -, -, hf2, hc2⟩ := RemoveOrgAt_spec w id pop
  exact ⟨⟨w1, h1, hf1, hc1⟩, ⟨w2, h2, hf2, hc2⟩⟩

/-- C11, evaluation at a failing input: on an empty store, `Resize(2)` and then
`Inject(7, 2)` with a policy that returns the lowest-index empty active slot.  The handle
is fresh, no copy is made, and both passes place the one handle: slots 0 and 1 of the
active buffer hold organism 7 at the same time. -/
theorem Inject_two_copies_share_one_handle :
    ∃ w0 w1, runOps exPlacingPolicies [.Resize 2] Sys.init = .ok w0 ∧
      w0.allOccupants = [] ∧
      runOps exPlacingPolicies [.Inject (some 7) 2] w0 = .ok w1 ∧
      w1.mabe.active_pop = [some 7, some 7] ∧
      w1.allOccupants.count 7 = 2 ∧
      w1.events.countP Event.isClone = 0 :=
  ⟨_, _, rfl, rfl, rfl, rfl, rfl, rfl⟩

theorem RemoveOrgAt_log_extends (pos : WorldPosition) (m : MABEBase) (l : List Entry) (h : Nat) :
    RemoveOrgAt pos ⟨m, l, h⟩ =
      (RemoveOrgAt pos ⟨m, [], h⟩).map (fun r => { r with log := l ++ r.log }) := by
  cases pos with
  | invalid => rfl
  | mk id pop =>
    cases pop
    · rcases hs : m.active_pop[id]? with _ | (_ | o) <;>
        simp [RemoveOrgAt, Sys.pops, hs, Except.map, WorldPosition.IsActive, Trigger, Delete,
          Sys.record, Sys.setPop]
    · rcases hs : m.next_pop[id]? with _ | (_ | o) <;>
        simp [RemoveOrgAt, Sys.pops, hs, Except.map, WorldPosition.IsActive, Trigger, Delete,
          Sys.record, Sys.setPop]

theorem AddOrgAt_log_extends (new_org : org_ptr_t) (pos p_pos : WorldPosition) (m : MABEBase)
    (l : List Entry) (h : Nat) :
    AddOrgAt new_org pos p_pos ⟨m, l, h⟩ =
      (AddOrgAt new_org pos p_pos ⟨m, [], h⟩).map (fun r => { r with log := l ++ r.log }) := by
  cases new_org with
  | none => rfl
  | some org =>
    cases pos with
    | invalid => rfl
    | mk id pop =>
      cases pop
      · rcases hs : m.active_pop[id]? with _ | (_ | o) <;>
          simp [AddOrgAt, RemoveOrgAt, Sys.pops, hs, Except.map, WorldPosition.IsActive, Trigger,
            Delete, Sys.record, Sys.setPop, MakeValid] <;>
          split <;> simp
      · rcases hs : m.next_pop[id]? with _ | (_ | o) <;>
          simp [AddOrgAt, RemoveOrgAt, Sys.pops, hs, Except.map, WorldPosition.IsActive, Trigger,
            Delete, Sys.record, Sys.setPop, MakeValid] <;>
          split <;> simp

/-- C21: for every state, handle and valid position `pos`, `InjectAt(handle, pos)` and
`Inject(handle, 1)` with a find-inject-position policy that returns `pos` both return, with
the same data members and the same signal triggers, each seen in the same state:
`inject_ready` first, then what `AddOrgAt` logs.  The two logs differ only in the entry of
the policy query, which `InjectAt` does not make.  On a null handle both trap alike. -/
theorem InjectAt_same_as_Inject_once (w : Sys) (org : Org) (id : Nat) (pop : PopSel)
    (birth : Option (Sys → org_ptr_t → WorldPosition → WorldPosition)) :
    (∃ w1 w2 rest, InjectAt (some org) (.mk id pop) w = .ok w1 ∧
      Inject ⟨some (fixedInjectPos (.mk id pop)), birth⟩ (some org) 1 w = .ok w2 ∧
      w2.mabe = w1.mabe ∧ w2.heap = w1.heap ∧
      signalEntries w2.log = signalEntries w1.log ∧
      w1.log = w.log ++ ⟨.inject_ready org, w.mabe⟩ :: rest ∧
      w2.log = w.log ++ ⟨.inject_ready org, w.mabe⟩ :: ⟨.find_inject_pos org, w.mabe⟩ :: rest) ∧
    InjectAt none (.mk id pop) w = .error .null_deref ∧
    Inject ⟨some (fixedInjectPos (.mk id pop)), birth⟩ none 1 w = .error .null_deref := by
  refine ⟨?_, rfl, rfl⟩
  obtain ⟨r, hr, -⟩ := AddOrgAt_spec ⟨w.mabe, [], w.heap⟩ org id pop .invalid
  have h1 : InjectAt (some org) (.mk id pop) w =
      .ok { r with log := (w.log ++ [⟨.inject_ready org, w.mabe⟩]) ++ r.log } := by
    simp only [InjectAt, WorldPosition.IsValid, ↓reduceIte, Trigger, Sys.record]
    rw [AddOrgAt_log_extends, hr]
    rfl
  have h2 : Inject ⟨some (fixedInjectPos (.mk id pop)), birth⟩ (some org) 1 w =
      .ok { r with log := (w.log ++ [⟨.inject_ready org, w.mabe⟩,
        ⟨.find_inject_pos org, w.mabe⟩]) ++ r.log } := by
    simp only [Inject, InjectStep, fixedInjectPos, WorldPosition.IsValid, ↓reduceIte, Trigger,
      Sys.record]
    rw [AddOrgAt_log_extends, hr]
    simp [Except.map]
  refine ⟨_, _, r.log, h1, h2, rfl, rfl, ?_, ?_, ?_⟩
  · simp [signalEntries, List.filter_append, Event.isSignal]
  · simp
  · simp

/-- Witness for C21: organism 9 injected at slot 1 of the active buffer `[7, empty]`. -/
theorem InjectAt_same_as_Inject_once_witness :
    ∃ w1 w2, InjectAt (some 9) (.mk 1 .active) exTwo = .ok w1 ∧
      Inject ⟨some (fixedInjectPos (.mk 1 .active)), none⟩ (some 9) 1 exTwo = .ok w2 ∧
      w2.mabe = w1.mabe ∧ signalEntries w2.log = signalEntries w1.log ∧
      w1.events = [.inject_ready 9, .before_placement 9 1, .on_placement 1] ∧
      w1.mabe.active_pop = [some 7, some 9] := by
  obtain ⟨⟨w1, w2, rest, h1, h2, hm, -, hs, -, -⟩, -⟩ :=
    InjectAt_same_as_Inject_once exTwo 9 1 .active none
  have e1 : InjectAt (some 9) (.mk 1 .active) exTwo = .ok _ := rfl
  rw [h1] at e1
  cases e1
  exact ⟨_, w2, rfl, h2, hm, hs, rfl, rfl⟩

/-- C22: `DoDeath(pos)` is `RemoveOrgAt(pos)`: for every state and position the two give
the same result, that is the same final state with the same log, or the same trap. -/
theorem DoDeath_is_RemoveOrgAt (pos : WorldPosition) (w : Sys) :
    DoDeath pos w = RemoveOrgAt pos w := rfl

theorem DoBirthLoop_rejected (inj : Option (Sys → org_ptr_t → WorldPosition)) (parent : Org)
    (pp : Nat) :
    ∀ (k : Nat) (pos0 : WorldPosition) (w : Sys),
      ∃ w1, DoBirthLoop ⟨inj, some rejectBirthPos⟩ (some parent) pp k pos0 w
          = .ok (if k = 0 then pos0 else .invalid, w1) ∧
        w1.mabe = w.mabe ∧ w1.heap = w.heap + k ∧
        w1.events = w.events ++ rejectedBirthEvents parent pp w.heap k := by
  intro k
  induction k with
  | zero =>
    intro pos0 w
    exact ⟨w, rfl, rfl, rfl, by simp [rejectedBirthEvents]⟩
  | succ n ih =>
    intro pos0 w
    have hstep : DoBirthStep ⟨inj, some rejectBirthPos⟩ (some parent) pp w =
        .ok (.invalid, Delete w.heap
          ((Trigger (.offspring_ready w.heap pp) (Clone parent w).2).record
            (.find_birth_pos w.heap (WorldPosition.ofIndex pp)))) := by
      simp [DoBirthStep, rejectBirthPos, WorldPosition.IsValid, Clone]
    obtain ⟨w2, h2, hm2, hh2, he2⟩ := ih .invalid (Delete w.heap
      ((Trigger (.offspring_ready w.heap pp) (Clone parent w).2).record
        (.find_birth_pos w.heap (WorldPosition.ofIndex pp))))
    refine ⟨w2, ?_, ?_, ?_, ?_⟩
    · simp only [DoBirthLoop, hstep, h2]
      cases n <;> simp
    · rw [hm2]; rfl
    · rw [hh2]
      simp only [Delete, Sys.record, Trigger, Clone]
      omega
    · rw [he2]
      simp [Delete, Sys.record, Trigger, Clone, Sys.events, rejectedBirthEvents]

theorem rejectedBirthEvents_facts (parent : Org) (pp : Nat) :
    ∀ (k h : Nat),
      deletes (rejectedBirthEvents parent pp h k) = List.range' h k ∧
      clones (rejectedBirthEvents parent pp h k) = List.range' h k ∧
      (rejectedBirthEvents parent pp h k).countP Event.isPlacementSignal = 0 := by
  intro k
  induction k with
  | zero => intro h; exact ⟨rfl, rfl, rfl⟩
  | succ n ih =>
    intro h
    obtain ⟨i1, i2, i3⟩ := ih (h + 1)
    refine ⟨?_, ?_, ?_⟩
    · simp only [rejectedBirthEvents, deletes_append, i1]
      simp [deletes, List.range'_succ]
    · have : clones (rejectedBirthEvents parent pp (h + 1) n) = List.range' (h + 1) n := i2
      simp only [rejectedBirthEvents, clones, List.filterMap_append] at this ⊢
      rw [this]
      simp [List.range'_succ]
    · simp only [rejectedBirthEvents, List.countP_append, i3]
      simp [List.countP_cons, Event.isPlacementSignal]

/-- C23: with a birth-position policy that always returns invalid, `DoBirth` returns the
invalid position for every copy_count; the data members (both buffers and `num_orgs`
among them) are as before; the log is `before_repro` followed, for each copy, by clone,
`offspring_ready`, query and release of that clone: every clone made is released, and no
`before_placement`, `on_placement` or `on_death` fires. -/
theorem DoBirth_all_rejected (inj : Option (Sys → org_ptr_t → WorldPosition)) (parent : Org)
    (parent_pos copy_count : Nat) (w : Sys) :
    ∃ w1, DoBirth ⟨inj, some rejectBirthPos⟩ (some parent) parent_pos copy_count w
        = .ok (.invalid, w1) ∧
      w1.mabe = w.mabe ∧
      emitted w w1 = Event.before_repro parent_pos ::
        rejectedBirthEvents parent parent_pos w.heap copy_count ∧
      clones (emitted w w1) = List.range' w.heap copy_count ∧
      deletes (emitted w w1) = clones (emitted w w1) ∧
      (emitted w w1).countP Event.isPlacementSignal = 0 ∧
      placements (emitted w w1) = [] := by
  obtain ⟨w1, h1, hm, -, he⟩ := DoBirthLoop_rejected inj parent parent_pos copy_count .invalid
    (Trigger (.before_repro parent_pos) w)
  obtain ⟨i1, i2, i3⟩ := rejectedBirthEvents_facts parent parent_pos copy_count w.heap
  have hem : emitted w w1 = Event.before_repro parent_pos ::
      rejectedBirthEvents parent parent_pos w.heap copy_count := by
    apply emitted_append
    rw [he]; simp
  have hcl : clones (emitted w w1) = List.range' w.heap copy_count := by
    rw [hem, ← i2]; simp [clones]
  have hdl : deletes (emitted w w1) = List.range' w.heap copy_count := by
    rw [hem, ← i1]; simp [deletes]
  have hps : (emitted w w1).countP Event.isPlacementSignal = 0 := by
    rw [hem, List.countP_cons, i3]; simp [Event.isPlacementSignal]
  refine ⟨w1, ?_, hm, hem, hcl, hdl.trans hcl.symm, hps, ?_⟩
  · have : DoBirth ⟨inj, some rejectBirthPos⟩ (some parent) parent_pos copy_count w =
        .ok (if copy_count = 0 then .invalid else .invalid, w1) := h1
    simpa using this
  · rw [List.countP_eq_zero] at hps
    simp only [placements, List.filterMap_eq_nil_iff]
    intro e he1
    have := hps e he1
    cases e <;> simp_all [Event.isPlacementSignal]

/-- Witness for C23: the parent at slot 2 of `[-, -, 7, -, -]`, copy_count 2. -/
theorem DoBirth_all_rejected_witness :
    ∃ w1, DoBirth ⟨none, some rejectBirthPos⟩ (some 7) 2 2 exFive = .ok (.invalid, w1) ∧
      w1.mabe = exFive.mabe ∧
      emitted exFive w1 = [.before_repro 2,
        .Clone 7 8, .offspring_ready 8 2, .find_birth_pos 8 (.mk 2 .active), .Delete 8,
        .Clone 7 9, .offspring_ready 9 2, .find_birth_pos 9 (.mk 2 .active), .Delete 9] := by
  obtain ⟨w1, h1, hm, he, -⟩ := DoBirth_all_rejected none 7 2 2 exFive
  exact ⟨w1, h1, hm, he⟩

/-- C24: `AddOrgAt` traps exactly when the handle is null or the position is invalid, and
then it traps on its entry assertion, before any trigger or assignment, whatever the state
is; otherwise it returns.  `InjectAt` on an invalid position traps on its own entry
assertion, before `inject_ready`, whatever the handle is. -/
theorem AddOrgAt_traps_iff (new_org : org_ptr_t) (pos p_pos : WorldPosition) (w : Sys) :
    (AddOrgAt new_org pos p_pos w = .error .assert_failed ↔
      (new_org = none ∨ pos.IsValid = false)) ∧
    ((∃ w1, AddOrgAt new_org pos p_pos w = .ok w1) ↔
      (new_org ≠ none ∧ pos.IsValid = true)) ∧
    (∀ e, AddOrgAt new_org pos p_pos w = .error e → e = .assert_failed) ∧
    (pos.IsValid = false → InjectAt new_org pos w = .error .assert_failed) := by
  cases new_org with
  | none =>
    refine ⟨by simp [AddOrgAt], by simp [AddOrgAt], ?_, ?_⟩
    · intro e he; simp [AddOrgAt] at he; exact he.symm
    · intro hp; simp [InjectAt, hp]
  | some org =>
    cases pos with
    | invalid =>
      refine ⟨by simp [AddOrgAt, WorldPosition.IsValid],
        by simp [AddOrgAt, WorldPosition.IsValid], ?_, ?_⟩
      · intro e he; simp [AddOrgAt] at he; exact he.symm
      · intro _; simp [InjectAt, WorldPosition.IsValid]
    | mk id pop =>
      obtain ⟨w1, h1, -⟩ := AddOrgAt_spec w org id pop p_pos
      refine ⟨?_, ?_, ?_, ?_⟩
      · rw [h1]; simp [WorldPosition.IsValid]
      · rw [h1]; simp [WorldPosition.IsValid]
      · intro e he; rw [h1] at he; cases he
      · intro hp; simp [WorldPosition.IsValid] at hp

/-- Witness for C24: a null handle at a valid position, and a handle at the invalid
position, on a freshly constructed manager. -/
theorem AddOrgAt_traps_iff_witness :
    AddOrgAt none (.mk 0 .active) .invalid Sys.init = .error .assert_failed ∧
    AddOrgAt (some 7) .invalid .invalid Sys.init = .error .assert_failed ∧
    InjectAt (some 7) .invalid Sys.init = .error .assert_failed ∧
    (∃ w1, AddOrgAt (some 7) (.mk 0 .active) .invalid Sys.init = .ok w1) :=
  ⟨(AddOrgAt_traps_iff none (.mk 0 .active) .invalid Sys.init).1.2 (Or.inl rfl),
   (AddOrgAt_traps_iff (some 7) .invalid .invalid Sys.init).1.2 (Or.inr rfl),
   (AddOrgAt_traps_iff (some 7) .invalid .invalid Sys.init).2.2.2 rfl,
   (AddOrgAt_traps_iff (some 7) (.mk 0 .active) .invalid Sys.init).2.1.2 ⟨by simp, rfl⟩⟩

/-- C25: with a handle in hand, `Inject` with copy_count at least 1 and no
find-inject-position policy configured, and `DoBirth` with copy_count at least 1 and no
find-birth-position policy configured, trap on the call of the empty policy in their first
pass, whatever the state: before that call only signals have been triggered (and the
parent cloned), nothing has been placed or released, and no buffer or counter has been
assigned.  With copy_count 0 no policy is called and both return. -/
theorem unconfigured_policy_is_fatal (w : Sys) (org : Org) (parent_pos copy_count : Nat)
    (birth : Option (Sys → org_ptr_t → WorldPosition → WorldPosition))
    (inj : Option (Sys → org_ptr_t → WorldPosition)) :
    Inject ⟨none, birth⟩ (some org) (copy_count + 1) w = .error .bad_function_call ∧
    DoBirth ⟨inj, none⟩ (some org) parent_pos (copy_count + 1) w = .error .bad_function_call ∧
    Inject ⟨none, birth⟩ (some org) 0 w = .ok w ∧
    DoBirth ⟨inj, none⟩ (some org) parent_pos 0 w
      = .ok (.invalid, Trigger (.before_repro parent_pos) w) ∧
    (Trigger (.inject_ready org) w).mabe = w.mabe ∧
    (Trigger (.offspring_ready w.heap parent_pos)
      (Clone org (Trigger (.before_repro parent_pos) w)).2).mabe = w.mabe := by
  refine ⟨?_, ?_, rfl, rfl, rfl, rfl⟩
  · simp [Inject, InjectStep]
  · simp [DoBirth, DoBirthLoop, DoBirthStep]

/-- C26: `IsOccupied(pos)` is true exactly when the index of `pos` lies within the
addressed buffer and that slot holds an organism; so it is false for every index at or
beyond the length of the buffer, true for `pos` right after `AddOrgAt(org, pos)`, and false
for `pos` right after `RemoveOrgAt(pos)`. -/
theorem IsOccupied_iff (w : Sys) (id : Nat) (pop : PopSel) :
    (IsOccupied (.mk id pop) w = .ok true ↔
      (id < (w.pops pop).length ∧ ∃ o, (w.pops pop)[id]? = some (some o))) ∧
    (IsOccupied (.mk id pop) w = .ok true ∨ IsOccupied (.mk id pop) w = .ok false) ∧
    ((w.pops pop).length ≤ id → IsOccupied (.mk id pop) w = .ok false) ∧
    (∀ org p_pos, ∃ w1, AddOrgAt (some org) (.mk id pop) p_pos w = .ok w1 ∧
      IsOccupied (.mk id pop) w1 = .ok true) ∧
    (∃ w1, RemoveOrgAt (.mk id pop) w = .ok w1 ∧ IsOccupied (.mk id pop) w1 = .ok false) := by
  refine ⟨?_, ?_, ?_, ?_, ?_⟩
  · rcases hs : (w.pops pop)[id]? with _ | (_ | o)
    · have hlen : (w.pops pop).length ≤ id := by simpa using hs
      simp [IsOccupied, hs]
    · simp [IsOccupied, hs]
    · have hlt : id < (w.pops pop).length := by
        rcases Nat.lt_or_ge id (w.pops pop).length with h | h
        · exact h
        · rw [List.getElem?_eq_none h] at hs; cases hs
      simp [IsOccupied, hs, hlt]
  · rcases hs : (w.pops pop)[id]? with _ | (_ | o) <;> simp [IsOccupied, hs]
  · intro hlen
    simp [IsOccupied, List.getElem?_eq_none hlen]
  · intro org p_pos
    obtain ⟨w1, h1, hp, -⟩ := AddOrgAt_spec w org id pop p_pos
    have hl := grown_length (w.pops pop) id
    have hslot : (w1.pops pop)[id]? = some (some org) := by
      rw [hp, List.getElem?_set_self (by omega)]
    exact ⟨w1, h1, by simp [IsOccupied, hslot]⟩
  · obtain ⟨w1, h1, hp, -⟩ := RemoveOrgAt_spec w id pop
    refine ⟨w1, h1, ?_⟩
    rcases hs : (w.pops pop)[id]? with _ | s
    · have : (w1.pops pop)[id]? = none := by
        rw [hp]; simpa using hs
      simp [IsOccupied, this]
    · have hlt : id < (w.pops pop).length := by
        rcases Nat.lt_or_ge id (w.pops pop).length with h | h
        · exact h
        · rw [List.getElem?_eq_none h] at hs; cases hs
      have : (w1.pops pop)[id]? = some none := by
        rw [hp, List.getElem?_set_self hlt]
      simp [IsOccupied, this]

/-- Witness for C26: slot 0 (occupied) and slot 5 (out of range) of the active buffer
`[7, empty]`. -/
theorem IsOccupied_iff_witness :
    IsOccupied (.mk 0 .active) exTwo = .ok true ∧
    IsOccupied (.mk 5 .active) exTwo = .ok false ∧
    (∃ w1, RemoveOrgAt (.mk 0 .active) exTwo = .ok w1 ∧
      IsOccupied (.mk 0 .active) w1 = .ok false) :=
  ⟨(IsOccupied_iff exTwo 0 .active).1.2 ⟨by decide, 7, rfl⟩,
   (IsOccupied_iff exTwo 5 .active).2.2.1 (by decide),
   (IsOccupied_iff exTwo 0 .active).2.2.2.2⟩

theorem incr_decr (n : Nat) (h : n < SIZE_MOD) : incr (decr n) = n := by
  unfold incr decr
  have hpos : 0 < SIZE_MOD := by omega
  rw [Nat.mod_add_mod]
  have e : n + (SIZE_MOD - 1) + 1 = n + SIZE_MOD := by omega
  rw [e, Nat.add_mod_right, Nat.mod_eq_of_lt h]

theorem grown_old_slot (v : pop_t) (id j : Nat) (h : j < v.length) :
    (grown v id)[j]? = v[j]? := by
  unfold grown
  split_ifs with hc
  · rfl
  · exact vec_resize_old v (id + 1) j none (by omega) h

/-- C36: for every state and every position `pos`, `AddOrgAt(org, pos)` returns, leaves every
other slot that existed as it was, leaves the slots that growth of the addressed buffer
added (other than `pos`) empty, and changes neither the other buffer nor the time-step
counter; on an active `pos` it leaves `num_orgs` as it was when the slot was occupied and
adds one when it was empty (`num_orgs` being a `size_t`).  `RemoveOrgAt(pos)` returns,
keeps the length of the addressed buffer and every slot other than `pos`, and changes
neither the other buffer nor the time-step counter. -/
theorem AddOrgAt_RemoveOrgAt_frame (w : Sys) (org : Org) (id : Nat) (pop : PopSel)
    (p_pos : WorldPosition) :
    (∃ w1, AddOrgAt (some org) (.mk id pop) p_pos w = .ok w1 ∧
      (∀ j, j ≠ id → j < (w.pops pop).length → (w1.pops pop)[j]? = (w.pops pop)[j]?) ∧
      (∀ j, j ≠ id → (w.pops pop).length ≤ j → j < (w1.pops pop).length →
        (w1.pops pop)[j]? = some none) ∧
      (∀ q, q ≠ pop → w1.pops q = w.pops q) ∧
      w1.mabe.update = w.mabe.update ∧
      (pop = .active → w.mabe.num_orgs < SIZE_MOD → occupiedAt (w.pops pop) id = true →
        w1.mabe.num_orgs = w.mabe.num_orgs) ∧
      (pop = .active → w.mabe.num_orgs + 1 < SIZE_MOD → occupiedAt (w.pops pop) id = false →
        w1.mabe.num_orgs = w.mabe.num_orgs + 1) ∧
      (pop = .next → w1.mabe.num_orgs = w.mabe.num_orgs)) ∧
    (∃ w1, RemoveOrgAt (.mk id pop) w = .ok w1 ∧
      (w1.pops pop).length = (w.pops pop).length ∧
      (∀ j, j ≠ id → (w1.pops pop)[j]? = (w.pops pop)[j]?) ∧
      (∀ q, q ≠ pop → w1.pops q = w.pops q) ∧
      w1.mabe.update = w.mabe.update) := by
  constructor
  · obtain ⟨w1, h1, hp, hq, -, hn, -, hu, -⟩ := AddOrgAt_spec w org id pop p_pos
    refine ⟨w1, h1, ?_, ?_, hq, hu, ?_, ?_, ?_⟩
    · intro j hj hlt
      rw [hp, List.getElem?_set_ne (Ne.symm hj)]
      exact grown_old_slot _ id j hlt
    · intro j hj hle hlt
      rw [hp] at hlt ⊢
      rw [List.length_set] at hlt
      rw [List.getElem?_set_ne (Ne.symm hj)]
      exact grown_new_slot _ id j hle hlt
    · intro ha hlt hocc
      rw [hn, if_pos ha, if_pos hocc]
      exact incr_decr _ hlt
    · intro ha hlt hocc
      rw [hn, if_pos ha, if_neg (by simp [hocc])]
      unfold incr
      exact Nat.mod_eq_of_lt hlt
    · intro hx
      rw [hn, if_neg (by simp [hx])]
  · obtain ⟨w1, h1, hp, hq, -, -, -, hu, -⟩ := RemoveOrgAt_spec w id pop
    refine ⟨w1, h1, ?_, ?_, hq, hu⟩
    · rw [hp, List.length_set]
    · intro j hj
      rw [hp, List.getElem?_set_ne (Ne.symm hj)]

/-- Witness for C36: in the five-slot manager with organism 7 at index 2, placing organism
9 at index 2 keeps `num_orgs` at 1, and placing it at index 6 grows the buffer, makes
`num_orgs` 2 and leaves the new slot 5 empty. -/
theorem AddOrgAt_RemoveOrgAt_frame_witness :
    (∃ w1, AddOrgAt (some 9) (.mk 2 .active) .invalid exFive = .ok w1 ∧
      w1.mabe.num_orgs = 1 ∧ (w1.pops .active)[1]? = (exFive.pops .active)[1]?) ∧
    (∃ w1, AddOrgAt (some 9) (.mk 6 .active) .invalid exFive = .ok w1 ∧
      w1.mabe.num_orgs = 2 ∧ (w1.pops .active)[5]? = some none ∧
      w1.pops .next = exFive.pops .next ∧ w1.mabe.update = exFive.mabe.update) := by
  obtain ⟨⟨w1, h1, a1, -, -, -, a5, -, -⟩, -⟩ :=
    AddOrgAt_RemoveOrgAt_frame exFive 9 2 .active .invalid
  obtain ⟨⟨w2, h2, -, b2, b3, b4, -, b6, -⟩, -⟩ :=
    AddOrgAt_RemoveOrgAt_frame exFive 9 6 .active .invalid
  have hl : (w2.pops .active).length = 7 := by
    cases h2.symm.trans (rfl : AddOrgAt (some 9) (.mk 6 .active) .invalid exFive = .ok _)
    rfl
  refine ⟨⟨w1, h1, a5 rfl (by simp [exFive, SIZE_MOD]) rfl, a1 1 (by decide) (by decide)⟩,
    ⟨w2, h2, b6 rfl (by simp [exFive, SIZE_MOD]) rfl, b2 5 (by decide) (by decide) ?_,
      b3 .next (by decide), b4⟩⟩
  rw [hl]
  decide

/-- C37, evaluation at a failing input: the one-slot manager with the parent (organism 7)
at index 0, a birth-position policy that returns the position of the parent, copy_count 2.
The first offspring (organism 8) replaces the parent, which is released; the second pass
then clones the released parent. -/
theorem DoBirth_clones_released_parent :
    ∃ w1, DoBirth exParentPolicies (some 7) 0 2 exOneOrg = .ok (.mk 0 .active, w1) ∧
      exOneOrg.mabe.active_pop[0]? = some (some 7) ∧
      emitted exOneOrg w1 =
        [.before_repro 0,
         .Clone 7 8, .offspring_ready 8 0, .find_birth_pos 8 (.mk 0 .active),
         .before_placement 8 0, .on_death 0, .Delete 7, .on_placement 0,
         .Clone 7 9, .offspring_ready 9 0, .find_birth_pos 9 (.mk 0 .active),
         .before_placement 9 0, .on_death 0, .Delete 8, .on_placement 0] ∧
      cloneOfReleased [] (emitted exOneOrg w1) = true ∧
      w1.mabe.active_pop = [some 9] :=
  ⟨_, rfl, rfl, rfl, rfl, rfl⟩

/-- C38, counterexample: on a fresh manager the stored dimensions are `[0]` and the active
buffer is empty, so their product is the length; `Resize(5)` and `AddOrgAt` at index 0
leave the stored dimensions `[0]` while the active buffer gets 5 slots, or 1 slot. -/
theorem pop_sizes_product_lost :
    Product Sys.init.mabe.pop_sizes = GetSize Sys.init ∧
    (∃ w1, Resize 5 Sys.init = .ok w1 ∧ w1.mabe.pop_sizes = [0] ∧
      Product w1.mabe.pop_sizes = 0 ∧ GetSize w1 = 5) ∧
    (∃ w1, AddOrgAt (some 1) (.mk 0 .active) .invalid Sys.init = .ok w1 ∧
      w1.mabe.pop_sizes = [0] ∧ Product w1.mabe.pop_sizes = 0 ∧ GetSize w1 = 1) :=
  ⟨rfl, ⟨_, rfl, rfl, rfl, rfl⟩, ⟨_, rfl, rfl, rfl, rfl⟩⟩

/-- C38, amended: `Resize(new_size)` and `AddOrgAt` return and leave the stored
size-per-dimension vector as it was; the active buffer then has `new_size` slots, or (after
`AddOrgAt` at an active index) the larger of its old length and `id + 1`.  So when the
product of the stored dimensions was the active length before, it is the active length
afterwards exactly when that length did not change. -/
theorem Resize_AddOrgAt_keep_pop_sizes (w : Sys) (new_size : Nat) (org : Org) (id : Nat)
    (pop : PopSel) (p_pos : WorldPosition) :
    (∃ w1, Resize new_size w = .ok w1 ∧
      w1.mabe.pop_sizes = w.mabe.pop_sizes ∧ GetSize w1 = new_size ∧
      (Product w.mabe.pop_sizes = GetSize w →
        (Product w1.mabe.pop_sizes = GetSize w1 ↔ new_size = GetSize w))) ∧
    (∃ w1, AddOrgAt (some org) (.mk id pop) p_pos w = .ok w1 ∧
      w1.mabe.pop_sizes = w.mabe.pop_sizes ∧
      GetSize w1 = (if pop = .active then max (GetSize w) (id + 1) else GetSize w) ∧
      (Product w.mabe.pop_sizes = GetSize w →
        (Product w1.mabe.pop_sizes = GetSize w1 ↔ (pop = .next ∨ id < GetSize w)))) := by
  constructor
  · obtain ⟨w1, h1, ha, -, -, -, -, -, hp, -⟩ := Resize_spec new_size w
    have hs : GetSize w1 = new_size := by
      unfold GetSize
      rw [ha, vec_resize_length]
    refine ⟨w1, h1, hp, hs, ?_⟩
    intro hprod
    rw [hp, hs, hprod]
    exact eq_comm
  · obtain ⟨w1, h1, hpop, hq, -, -, -, -, hp, -⟩ := AddOrgAt_spec w org id pop p_pos
    have hs : GetSize w1 = (if pop = .active then max (GetSize w) (id + 1) else GetSize w) := by
      cases pop
      · have := congrArg List.length hpop
        rw [List.length_set, grown_length] at this
        simpa [GetSize, Sys.pops] using this
      · have := hq .active (by decide)
        simp only [Sys.pops] at this
        simp [GetSize, this]
    refine ⟨w1, h1, hp, hs, ?_⟩
    intro hprod
    rw [hp, hs, hprod]
    cases pop
    · simp only [if_true, false_or, reduceCtorEq]
      omega
    · simp

/-- Witness for the amended C38: the two-slot manager with stored dimensions `[2]`;
`Resize(2)` and `AddOrgAt` at index 1 keep the product equal to the length. -/
theorem Resize_AddOrgAt_keep_pop_sizes_witness :
    Product exCached.mabe.pop_sizes = GetSize exCached ∧
    (∃ w1, Resize 2 exCached = .ok w1 ∧ w1.mabe.pop_sizes = [2] ∧
      Product w1.mabe.pop_sizes = GetSize w1) ∧
    (∃ w1, AddOrgAt (some 9) (.mk 1 .active) .invalid exCached = .ok w1 ∧
      w1.mabe.pop_sizes = [2] ∧ Product w1.mabe.pop_sizes = GetSize w1) := by
  obtain ⟨⟨w1, h1, a1, -, a3⟩, ⟨w2, h2, b1, -, b3⟩⟩ :=
    Resize_AddOrgAt_keep_pop_sizes exCached 2 9 1 .active .invalid
  exact ⟨rfl, ⟨w1, h1, a1, (a3 rfl).2 rfl⟩, ⟨w2, h2, b1, (b3 rfl).2 (Or.inr (by decide))⟩⟩

theorem perm_set_cons {α : Type} : ∀ (t : List α) (k : Nat) (x a : α), t[k]? = some a →
    (a :: t.set k x).Perm (x :: t) := by
  intro t
  induction t with
  | nil => intro k x a h; simp at h
  | cons y s ih =>
    intro k x a h
    cases k with
    | zero =>
      simp only [List.getElem?_cons_zero, Option.some.injEq] at h
      subst h
      simp only [List.set_cons_zero]
      exact List.Perm.swap _ _ _
    | succ k =>
      simp only [List.getElem?_cons_succ] at h
      simp only [List.set_cons_succ]
      exact ((List.Perm.swap y a _).trans ((ih k x a h).cons y)).trans (List.Perm.swap x y s)

theorem perm_swap_two {α : Type} (u v : List α) (i j : Nat) (a b : α) (ha : u[i]? = some a)
    (hb : v[j]? = some b) : (u.set i b ++ v.set j a).Perm (u ++ v) := by
  have h1 := perm_set_cons u i b a ha
  have h2 := perm_set_cons v j a b hb
  have h3 : (a :: b :: (u.set i b ++ v.set j a)).Perm (a :: b :: (u ++ v)) := by
    have e1 : (a :: b :: (u.set i b ++ v.set j a)).Perm ((a :: u.set i b) ++ (b :: v.set j a)) := by
      simp only [List.cons_append]
      exact (List.perm_middle.symm).cons a
    have e2 : ((b :: u) ++ (a :: v)).Perm (a :: b :: (u ++ v)) := by
      simp only [List.cons_append]
      exact (List.perm_middle.cons b).trans (List.Perm.swap a b _)
    exact e1.trans ((h1.append h2).trans e2)
  exact (List.Perm.cons_inv (List.Perm.cons_inv h3))

theorem perm_swap_same {α : Type} (v : List α) (i j : Nat) (a b : α) (ha : v[i]? = some a)
    (hb : v[j]? = some b) : ((v.set i b).set j a).Perm v := by
  by_cases hij : i = j
  · subst hij
    rw [List.set_set]
    have : v.set i a = v := by
      apply List.ext_getElem?
      intro k
      by_cases hk : i = k
      · subst hk
        rw [ha]
        have hlt : i < v.length := by
          rcases Nat.lt_or_ge i v.length with h | h
          · exact h
          · rw [List.getElem?_eq_none h] at ha; cases ha
        simp [List.getElem?_set_self, hlt]
      · rw [List.getElem?_set_ne hk]
    rw [this]
  · have h1 := perm_set_cons v i b a ha
    have hb2 : (v.set i b)[j]? = some b := by rw [List.getElem?_set_ne hij]; exact hb
    have h2 := perm_set_cons (v.set i b) j a b hb2
    exact List.Perm.cons_inv (h2.trans h1)

theorem Swap_result (w : Sys) (i1 i2 : Nat) (p1 p2 : PopSel) (a b : org_ptr_t)
    (ha : (w.pops p1)[i1]? = some a) (hb : (w.pops p2)[i2]? = some b) :
    Swap (.mk i1 p1) (.mk i2 p2) w =
      .ok (Trigger (.on_swap (.mk i1 p1) (.mk i2 p2))
        ((w.setPop p1 ((w.pops p1).set i1 b)).setPop p2
          (((w.setPop p1 ((w.pops p1).set i1 b)).pops p2).set i2 a))) := by
  simp only [Swap, ha, hb]

/-- C39: for every two in-bounds positions `Swap` returns, leaves `num_orgs` as it was, and
keeps the slots of the two buffers taken together, hence the organism handles they hold, up
to order; when both positions address the same buffer each buffer keeps its slots up to
order, so the number of non-empty active slots is kept as well. -/
theorem Swap_keeps_handles (w : Sys) (i1 i2 : Nat) (p1 p2 : PopSel)
    (h1 : inBounds (.mk i1 p1) w = true) (h2 : inBounds (.mk i2 p2) w = true) :
    ∃ w1, Swap (.mk i1 p1) (.mk i2 p2) w = .ok w1 ∧
      w1.mabe.num_orgs = w.mabe.num_orgs ∧
      w1.allSlots.Perm w.allSlots ∧
      w1.allOccupants.Perm w.allOccupants ∧
      (p1 = p2 → w1.mabe.active_pop.Perm w.mabe.active_pop ∧
        w1.mabe.next_pop.Perm w.mabe.next_pop ∧
        occupied w1.mabe.active_pop = occupied w.mabe.active_pop) := by
  simp only [inBounds, decide_eq_true_eq] at h1 h2
  have ga : (w.pops p1)[i1]? = some (w.pops p1)[i1] := List.getElem?_eq_getElem h1
  have gb : (w.pops p2)[i2]? = some (w.pops p2)[i2] := List.getElem?_eq_getElem h2
  have key : ∀ w1 : Sys, w1.allSlots.Perm w.allSlots →
      w1.allOccupants.Perm w.allOccupants := by
    intro w1 hp
    have := hp.filterMap id
    simpa [Sys.allSlots, Sys.allOccupants, occupants, List.filterMap_append] using this
  have hsw := Swap_result w i1 i2 p1 p2 _ _ ga gb
  cases p1 <;> cases p2
  · have hp : ((w.mabe.active_pop.set i1 w.mabe.active_pop[i2]).set i2
        w.mabe.active_pop[i1]).Perm w.mabe.active_pop :=
      perm_swap_same w.mabe.active_pop i1 i2 _ _ ga gb
    have hall : ((w.mabe.active_pop.set i1 w.mabe.active_pop[i2]).set i2
        w.mabe.active_pop[i1] ++ w.mabe.next_pop).Perm (w.mabe.active_pop ++ w.mabe.next_pop) :=
      hp.append_right w.mabe.next_pop
    exact ⟨_, hsw, rfl, hall, key _ hall, fun _ => ⟨hp, List.Perm.refl _, hp.countP_eq _⟩⟩
  · have hp : (w.mabe.active_pop.set i1 w.mabe.next_pop[i2] ++
        w.mabe.next_pop.set i2 w.mabe.active_pop[i1]).Perm
          (w.mabe.active_pop ++ w.mabe.next_pop) :=
      perm_swap_two w.mabe.active_pop w.mabe.next_pop i1 i2 _ _ ga gb
    exact ⟨_, hsw, rfl, hp, key _ hp, fun h => by cases h⟩
  · have hp : (w.mabe.active_pop.set i2 w.mabe.next_pop[i1] ++
        w.mabe.next_pop.set i1 w.mabe.active_pop[i2]).Perm
          (w.mabe.active_pop ++ w.mabe.next_pop) :=
      perm_swap_two w.mabe.active_pop w.mabe.next_pop i2 i1 _ _ gb ga
    exact ⟨_, hsw, rfl, hp, key _ hp, fun h => by cases h⟩
  · have hp : ((w.mabe.next_pop.set i1 w.mabe.next_pop[i2]).set i2
        w.mabe.next_pop[i1]).Perm w.mabe.next_pop :=
      perm_swap_same w.mabe.next_pop i1 i2 _ _ ga gb
    have hall : (w.mabe.active_pop ++ (w.mabe.next_pop.set i1 w.mabe.next_pop[i2]).set i2
        w.mabe.next_pop[i1]).Perm (w.mabe.active_pop ++ w.mabe.next_pop) :=
      hp.append_left w.mabe.active_pop
    exact ⟨_, hsw, rfl, hall, key _ hall, fun _ => ⟨List.Perm.refl _, hp, rfl⟩⟩

/-- Witness for C39: in the five-slot manager with organism 7 at index 2, swapping the
active slots 2 and 4. -/
theorem Swap_keeps_handles_witness :
    inBounds (.mk 2 .active) exFive = true ∧ inBounds (.mk 4 .active) exFive = true ∧
    ∃ w1, Swap (.mk 2 .active) (.mk 4 .active) exFive = .ok w1 ∧
      w1.mabe.num_orgs = 1 ∧ w1.allOccupants.Perm [7] ∧
      occupied w1.mabe.active_pop = 1 := by
  obtain ⟨w1, h1, a1, -, a3, a4⟩ := Swap_keeps_handles exFive 2 4 .active .active rfl rfl
  exact ⟨rfl, rfl, w1, h1, a1, a3, (a4 rfl).2.2⟩

end mabe

/-! ## Facts about graphs -/

namespace emp

theorem AddEdgePair_ok (g : Graph) (a b : Nat) (ha : a < g.size) (hb : b < g.size) :
    g.AddEdgePair a b = .ok ⟨g.size, insert (b, a) (insert (a, b) g.edges)⟩ := by
  simp [Graph.AddEdgePair, ha, hb]

theorem mem_pairEdges (ps : List (Nat × Nat)) (x y : Nat) :
    (x, y) ∈ pairEdges ps ↔ (x, y) ∈ ps ∨ (y, x) ∈ ps := by
  simp [pairEdges]

theorem pairEdges_cons (p : Nat × Nat) (ps : List (Nat × Nat)) :
    pairEdges (p :: ps) = insert p.swap (insert p (pairEdges ps)) := by
  ext ⟨x, y⟩
  rcases p with ⟨a, b⟩
  simp only [mem_pairEdges, Finset.mem_insert, List.mem_cons, Prod.swap, Prod.mk.injEq]
  tauto

theorem addPairs_eq : ∀ (ps : List (Nat × Nat)) (g : Graph),
    (∀ p ∈ ps, p.1 < g.size ∧ p.2 < g.size) →
    addPairs ps g = .ok ⟨g.size, g.edges ∪ pairEdges ps⟩ := by
  intro ps
  induction ps with
  | nil => intro g _; simp [addPairs, pairEdges]
  | cons p ps ih =>
    intro g h
    rcases p with ⟨a, b⟩
    have hab := h (a, b) (by simp)
    have hrest : ∀ p ∈ ps, p.1 < g.size ∧ p.2 < g.size := fun p hp => h p (by simp [hp])
    simp only [addPairs, AddEdgePair_ok g a b hab.1 hab.2]
    rw [ih ⟨g.size, insert (b, a) (insert (a, b) g.edges)⟩ hrest]
    congr 2
    rw [pairEdges_cons]
    ext ⟨x, y⟩
    simp only [Finset.mem_union, Finset.mem_insert, Prod.swap, Prod.mk.injEq]
    tauto

theorem addPairs_append : ∀ (l1 l2 : List (Nat × Nat)) (g : Graph),
    addPairs (l1 ++ l2) g =
      match addPairs l1 g with
      | .error e => .error e
      | .ok g1 => addPairs l2 g1 := by
  intro l1
  induction l1 with
  | nil => intro l2 g; simp [addPairs]
  | cons p l1 ih =>
    intro l2 g
    rcases p with ⟨a, b⟩
    simp only [List.cons_append, addPairs]
    rcases g.AddEdgePair a b with e | g1
    · rfl
    · exact ih l2 g1

theorem foldlM_addPairs {α : Type} (f : α → List (Nat × Nat)) : ∀ (l : List α) (g : Graph),
    l.foldlM (fun graph i => addPairs (f i) graph) g = addPairs (l.flatMap f) g := by
  intro l
  induction l with
  | nil => intro g; simp [addPairs]; rfl
  | cons a l ih =>
    intro g
    simp only [List.foldlM_cons, List.flatMap_cons, addPairs_append]
    rcases addPairs (f a) g with e | g1
    · rfl
    · exact ih g1

theorem IsShuffle.length {n : Nat} {v : List Nat} (h : IsShuffle n v) : v.length = n := by
  have := List.Perm.length_eq h
  simpa using this

theorem vmap_eq (v : List Nat) (i : Nat) (h : i < v.length) : vmap v i = v[i] := by
  simp [vmap, List.getD_eq_getElem, h]

theorem vec_at_ok (v : List Nat) (i : Nat) (h : i < v.length) : vec_at v i = .ok (vmap v i) := by
  simp [vec_at, vmap, List.getElem?_eq_getElem h, List.getD_eq_getElem, h]

theorem IsShuffle.lt {n : Nat} {v : List Nat} (h : IsShuffle n v) (i : Nat) (hi : i < n) :
    vmap v i < n := by
  have hl : i < v.length := by rw [h.length]; exact hi
  rw [vmap_eq v i hl]
  have hm : v[i] ∈ List.range n := (List.Perm.mem_iff h).1 (List.getElem_mem hl)
  exact List.mem_range.1 hm

theorem IsShuffle.inj {n : Nat} {v : List Nat} (h : IsShuffle n v) (i j : Nat) (hi : i < n)
    (hj : j < n) (he : vmap v i = vmap v j) : i = j := by
  have hli : i < v.length := by rw [h.length]; exact hi
  have hlj : j < v.length := by rw [h.length]; exact hj
  rw [vmap_eq v i hli, vmap_eq v j hlj] at he
  have hnd : v.Nodup := (List.Perm.nodup_iff h).2 (List.nodup_range n)
  exact (List.Nodup.getElem_inj_iff hnd).1 he

theorem IsShuffle.surj {n : Nat} {v : List Nat} (h : IsShuffle n v) (a : Nat) (ha : a < n) :
    ∃ i, i < n ∧ vmap v i = a := by
  have hm : a ∈ v := (List.Perm.mem_iff h).2 (List.mem_range.2 ha)
  obtain ⟨i, hi, he⟩ := List.mem_iff_getElem.1 hm
  exact ⟨i, by rw [← h.length]; exact hi, by rw [vmap_eq v i hi]; exact he⟩

theorem addMapped_ok (v : List Nat) (a b : Nat) (g : Graph) (ha : a < v.length)
    (hb : b < v.length) :
    addMapped v a b g = addPairs [(vmap v a, vmap v b)] g := by
  simp only [addMapped, vec_at_ok v a ha, vec_at_ok v b hb, addPairs]
  rcases g.AddEdgePair (vmap v a) (vmap v b) with e | g1 <;> rfl

theorem foldlM_addMapped (v : List Nat) (fa fb : Nat → Nat) : ∀ (l : List Nat) (g : Graph),
    (∀ i ∈ l, fa i < v.length ∧ fb i < v.length) →
    l.foldlM (fun graph i => addMapped v (fa i) (fb i) graph) g =
      addPairs (l.map (fun i => (vmap v (fa i), vmap v (fb i)))) g := by
  intro l
  induction l with
  | nil => intro g _; simp [addPairs]; rfl
  | cons i l ih =>
    intro g h
    have hi := h i (by simp)
    have hrest : ∀ j ∈ l, fa j < v.length ∧ fb j < v.length := fun j hj => h j (by simp [hj])
    simp only [List.foldlM_cons, List.map_cons, addMapped_ok v _ _ g hi.1 hi.2, addPairs]
    rcases g.AddEdgePair (vmap v (fa i)) (vmap v (fb i)) with e | g1
    · rfl
    · exact ih g1 hrest

theorem mem_mappedEdges_of {n : Nat} {v : List Nat} (_ : IsShuffle n v) (qs : List (Nat × Nat))
    (hr : ∀ q ∈ qs, q.1 < n ∧ q.2 < n) (x y : Nat) (hxy : (x, y) ∈ mappedEdges v qs) :
    ∃ i j, i < n ∧ j < n ∧ x = vmap v i ∧ y = vmap v j ∧ ((i, j) ∈ qs ∨ (j, i) ∈ qs) := by
  simp only [mappedEdges, mem_pairEdges, List.mem_map, Prod.mk.injEq] at hxy
  rcases hxy with ⟨q, hq, h1, h2⟩ | ⟨q, hq, h1, h2⟩
  · exact ⟨q.1, q.2, (hr q hq).1, (hr q hq).2, h1.symm, h2.symm, Or.inl hq⟩
  · exact ⟨q.2, q.1, (hr q hq).2, (hr q hq).1, h2.symm, h1.symm, Or.inr hq⟩

theorem mem_mappedEdges {n : Nat} {v : List Nat} (h : IsShuffle n v) (qs : List (Nat × Nat))
    (hr : ∀ q ∈ qs, q.1 < n ∧ q.2 < n) (i j : Nat) (hi : i < n) (hj : j < n) :
    (vmap v i, vmap v j) ∈ mappedEdges v qs ↔ (i, j) ∈ qs ∨ (j, i) ∈ qs := by
  constructor
  · intro hm
    obtain ⟨a, b, ha, hb, h1, h2, hab⟩ := mem_mappedEdges_of h qs hr _ _ hm
    have e1 := h.inj i a hi ha h1
    have e2 := h.inj j b hj hb h2
    subst e1; subst e2
    exact hab
  · intro hm
    simp only [mappedEdges, mem_pairEdges, List.mem_map, Prod.mk.injEq]
    rcases hm with hm | hm
    · exact Or.inl ⟨(i, j), hm, rfl, rfl⟩
    · exact Or.inr ⟨(j, i), hm, rfl, rfl⟩

theorem mappedEdges_symm (v : List Nat) (qs : List (Nat × Nat)) (x y : Nat)
    (hxy : (x, y) ∈ mappedEdges v qs) : (y, x) ∈ mappedEdges v qs := by
  simp only [mappedEdges, mem_pairEdges] at *
  exact hxy.symm

theorem mappedEdges_irrefl {n : Nat} {v : List Nat} (h : IsShuffle n v) (qs : List (Nat × Nat))
    (hr : ∀ q ∈ qs, q.1 < n ∧ q.2 < n) (hne : ∀ q ∈ qs, q.1 ≠ q.2) (x : Nat) :
    (x, x) ∉ mappedEdges v qs := by
  intro hm
  obtain ⟨a, b, ha, hb, h1, h2, hab⟩ := mem_mappedEdges_of h qs hr _ _ hm
  have e := h.inj a b ha hb (h1.symm.trans h2)
  subst e
  rcases hab with hq | hq <;> exact hne _ hq rfl

theorem card_mappedEdges {n : Nat} {v : List Nat} (h : IsShuffle n v) (qs : List (Nat × Nat))
    (hr : ∀ q ∈ qs, q.1 < n ∧ q.2 < n) (hasym : ∀ q ∈ qs, q.swap ∉ qs) :
    (mappedEdges v qs).card = 2 * qs.toFinset.card := by
  have heq : mappedEdges v qs =
      (qs.toFinset ∪ qs.toFinset.image Prod.swap).image
        (fun q => (vmap v q.1, vmap v q.2)) := by
    ext ⟨x, y⟩
    simp only [mappedEdges, mem_pairEdges, List.mem_map, Prod.mk.injEq, Finset.mem_image,
      Finset.mem_union, List.mem_toFinset]
    constructor
    · rintro (⟨q, hq, h1, h2⟩ | ⟨q, hq, h1, h2⟩)
      · exact ⟨q, Or.inl hq, h1, h2⟩
      · exact ⟨q.swap, Or.inr ⟨q, hq, rfl⟩, h2, h1⟩
    · rintro ⟨q, hq | ⟨p, hp, rfl⟩, h1, h2⟩
      · exact Or.inl ⟨q, hq, h1, h2⟩
      · exact Or.inr ⟨p, hp, h2, h1⟩
  rw [heq, Finset.card_image_of_injOn, Finset.card_union_of_disjoint,
    Finset.card_image_of_injective _ Prod.swap_injective]
  · omega
  · rw [Finset.disjoint_left]
    intro q hq hq2
    simp only [List.mem_toFinset, Finset.mem_image] at hq hq2
    obtain ⟨p, hp, rfl⟩ := hq2
    exact hasym p hp hq
  · intro p hp q hq hpq
    have hin : ∀ q : Nat × Nat, q ∈ ((qs.toFinset ∪ qs.toFinset.image Prod.swap : Finset _) :
        Set (Nat × Nat)) → q.1 < n ∧ q.2 < n := by
      intro q hq
      simp only [Finset.coe_union, Finset.coe_image, Set.mem_union, Finset.mem_coe,
        List.mem_toFinset, Set.mem_image] at hq
      rcases hq with hq | ⟨p, hp, rfl⟩
      · exact hr q hq
      · exact ⟨(hr p hp).2, (hr p hp).1⟩
    simp only [Prod.mk.injEq] at hpq
    exact Prod.ext (h.inj _ _ (hin p hp).1 (hin q hq).1 hpq.1)
      (h.inj _ _ (hin p hp).2 (hin q hq).2 hpq.2)

theorem treePairs_mem (n : Nat) (draw : Nat → Nat) (q : Nat × Nat) :
    q ∈ treePairs n draw ↔ 1 ≤ q.1 ∧ q.1 < n ∧ q.2 = draw q.1 := by
  rcases q with ⟨a, b⟩
  simp only [treePairs, List.mem_map, List.mem_range', Prod.mk.injEq]
  constructor
  · rintro ⟨i, ⟨k, hk, rfl⟩, rfl, rfl⟩
    exact ⟨by omega, by omega, rfl⟩
  · rintro ⟨h1, h2, h3⟩
    exact ⟨a, ⟨a - 1, by omega, by omega⟩, rfl, h3.symm⟩

theorem treePairs_nodup (n : Nat) (draw : Nat → Nat) : (treePairs n draw).Nodup := by
  unfold treePairs
  refine List.Nodup.map ?_ (List.nodup_range' 1 (n - 1))
  intro a b hab
  exact (Prod.mk.inj hab).1

theorem treePairs_length (n : Nat) (draw : Nat → Nat) : (treePairs n draw).length = n - 1 := by
  simp [treePairs]

theorem build_graph_tree_eq (n : Nat) (v : List Nat) (draw : Nat → Nat) (hs : IsShuffle n v)
    (hd : IsDraw draw) :
    build_graph_tree n v draw = .ok ⟨n, mappedEdges v (treePairs n draw)⟩ := by
  have hl := hs.length
  unfold build_graph_tree
  rw [foldlM_addMapped v (fun i => i) draw]
  · rw [addPairs_eq]
    · simp [Graph.init, mappedEdges, treePairs, List.map_map, Function.comp_def]
    · intro p hp
      simp only [List.mem_map, List.mem_range'] at hp
      obtain ⟨i, ⟨k, hk, rfl⟩, rfl⟩ := hp
      have := hd (1 + 1 * k) (by omega)
      exact ⟨hs.lt _ (by omega), hs.lt _ (by omega)⟩
  · intro i hi
    simp only [List.mem_range'] at hi
    obtain ⟨k, hk, rfl⟩ := hi
    have := hd (1 + 1 * k) (by omega)
    rw [hl]
    exact ⟨by omega, by omega⟩

theorem treePairs_range (n : Nat) (draw : Nat → Nat) (hd : IsDraw draw) :
    ∀ q ∈ treePairs n draw, q.1 < n ∧ q.2 < n := by
  intro q hq
  obtain ⟨h1, h2, h3⟩ := (treePairs_mem n draw q).1 hq
  have := hd q.1 (by omega)
  exact ⟨h2, by omega⟩

theorem treePairs_asym (n : Nat) (draw : Nat → Nat) (hd : IsDraw draw) :
    ∀ q ∈ treePairs n draw, q.swap ∉ treePairs n draw := by
  intro q hq hq2
  obtain ⟨h1, h2, h3⟩ := (treePairs_mem n draw q).1 hq
  obtain ⟨k1, k2, k3⟩ := (treePairs_mem n draw q.swap).1 hq2
  simp only [Prod.fst_swap, Prod.snd_swap] at k1 k2 k3
  have a1 := hd q.1 (by omega)
  have a2 := hd q.2 (by omega)
  omega

theorem tree_reaches_root (n : Nat) (v : List Nat) (draw : Nat → Nat) (hd : IsDraw draw)
    (g : Graph) (hg : ∀ i, 1 ≤ i → i < n → (vmap v i, vmap v (draw i)) ∈ g.edges) :
    ∀ i, i < n → Relation.ReflTransGen g.Adj (vmap v i) (vmap v 0) := by
  intro i
  induction i using Nat.strong_induction_on with
  | _ i ih =>
    intro hi
    rcases Nat.eq_zero_or_pos i with h0 | hpos
    · subst h0; exact Relation.ReflTransGen.refl
    · have hlt := hd i hpos
      exact Relation.ReflTransGen.head (hg i hpos hi) (ih (draw i) hlt (by omega))

theorem connected_of_root (n : Nat) (v : List Nat) (hs : IsShuffle n v) (g : Graph)
    (hsize : g.size = n) (hsym : g.Symmetric)
    (hroot : ∀ i, i < n → Relation.ReflTransGen g.Adj (vmap v i) (vmap v 0)) :
    g.Connected := by
  intro a b ha hb
  rw [hsize] at ha hb
  obtain ⟨i, hi, rfl⟩ := hs.surj a ha
  obtain ⟨j, hj, rfl⟩ := hs.surj b hb
  have hsymm : Symmetric g.Adj := fun x y hxy => hsym x y hxy
  exact (hroot i hi).trans (Relation.ReflTransGen.symmetric hsymm (hroot j hj))

theorem tree_facts (n : Nat) (v : List Nat) (draw : Nat → Nat) (hs : IsShuffle n v)
    (hd : IsDraw draw) (g : Graph) (hsize : g.size = n)
    (hedges : g.edges = mappedEdges v (treePairs n draw)) :
    g.GetEdgeCount = 2 * (n - 1) ∧ g.Symmetric ∧ g.NoSelfLoop ∧ g.InRange ∧ g.Connected := by
  have hr := treePairs_range n draw hd
  have hsym : g.Symmetric := by
    intro a b hab
    rw [hedges] at hab ⊢
    exact mappedEdges_symm _ _ a b hab
  refine ⟨?_, hsym, ?_, ?_, ?_⟩
  · rw [Graph.GetEdgeCount, hedges, card_mappedEdges hs _ hr (treePairs_asym n draw hd),
      List.toFinset_card_of_nodup (treePairs_nodup n draw), treePairs_length]
  · intro a
    rw [hedges]
    refine mappedEdges_irrefl hs _ hr ?_ a
    intro q hq
    obtain ⟨h1, h2, h3⟩ := (treePairs_mem n draw q).1 hq
    have := hd q.1 (by omega)
    omega
  · intro e he
    rw [hedges] at he
    obtain ⟨i, j, hi, hj, h1, h2, -⟩ := mem_mappedEdges_of hs _ hr e.1 e.2 he
    rw [hsize, h1, h2]
    exact ⟨hs.lt i hi, hs.lt j hj⟩
  · refine connected_of_root n v hs g hsize hsym ?_
    refine tree_reaches_root n v draw hd g ?_
    intro i h1 hi
    have := hd i (by omega)
    rw [hedges]
    exact (mem_mappedEdges hs _ hr i (draw i) hi (by omega)).2
      (Or.inl ((treePairs_mem n draw (i, draw i)).2 ⟨h1, hi, rfl⟩))

/-- C27: for every `v_count` (in particular every `v_count >= 1`), every outcome of the
shuffle (an ordering `v_map` of `0 .. v_count-1`) and all draws (`draw i < i`),
`build_graph_tree` returns a graph on `v_count` vertices with `v_count - 1` undirected edges
(each stored in both directions, so `2 * (v_count - 1)` directed ones), namely `v_map[i]`
joined to `v_map[draw i]`, without self-loop, and connected. -/
theorem build_graph_tree_is_tree (v_count : Nat) (v_map : List Nat) (draw : Nat → Nat)
    (hs : IsShuffle v_count v_map) (hd : IsDraw draw) :
    ∃ g, build_graph_tree v_count v_map draw = .ok g ∧
      g.GetSize = v_count ∧
      g.edges = mappedEdges v_map (treePairs v_count draw) ∧
      g.GetEdgeCount = 2 * (v_count - 1) ∧
      g.undirectedEdges = v_count - 1 ∧
      g.Symmetric ∧ g.NoSelfLoop ∧ g.InRange ∧ g.Connected := by
  obtain ⟨hcard, hsym, hirr, hin, hconn⟩ :=
    tree_facts v_count v_map draw hs hd ⟨v_count, mappedEdges v_map (treePairs v_count draw)⟩
      rfl rfl
  refine ⟨_, build_graph_tree_eq v_count v_map draw hs hd, rfl, rfl, hcard, ?_, hsym, hirr,
    hin, hconn⟩
  simp only [Graph.undirectedEdges, hcard]
  omega

/-- Witness for C27: three vertices shuffled to `[2, 0, 1]`, every draw 0. -/
theorem build_graph_tree_is_tree_witness :
    IsShuffle 3 [2, 0, 1] ∧ IsDraw (fun _ => 0) ∧
    ∃ g, build_graph_tree 3 [2, 0, 1] (fun _ => 0) = .ok g ∧ g.GetSize = 3 ∧
      g.GetEdgeCount = 4 ∧ g.undirectedEdges = 2 ∧ g.Symmetric ∧ g.NoSelfLoop ∧
      g.Connected := by
  have hs : IsShuffle 3 [2, 0, 1] := by unfold IsShuffle; decide
  have hd : IsDraw (fun _ => 0) := fun i hi => hi
  obtain ⟨g, h1, h2, -, h4, h5, h6, h7, -, h9⟩ :=
    build_graph_tree_is_tree 3 [2, 0, 1] (fun _ => 0) hs hd
  exact ⟨hs, hd, g, h1, h2, h4, h5, h6, h7, h9⟩

theorem ringPairs_mem (n : Nat) (q : Nat × Nat) :
    q ∈ ringPairs n ↔ (1 ≤ q.1 ∧ q.1 < n ∧ q.2 = q.1 - 1) ∨ (q.1 = 0 ∧ q.2 = n - 1) := by
  rcases q with ⟨a, b⟩
  simp only [ringPairs, List.mem_append, List.mem_map, List.mem_range', Prod.mk.injEq,
    List.mem_singleton]
  constructor
  · rintro (⟨i, ⟨k, hk, rfl⟩, rfl, rfl⟩ | ⟨rfl, rfl⟩)
    · exact Or.inl ⟨by omega, by omega, rfl⟩
    · exact Or.inr ⟨rfl, rfl⟩
  · rintro (⟨h1, h2, h3⟩ | ⟨h1, h2⟩)
    · exact Or.inl ⟨a, ⟨a - 1, by omega, by omega⟩, rfl, h3.symm⟩
    · exact Or.inr ⟨h1, h2⟩

theorem ringPairs_range (n : Nat) (hn : 1 ≤ n) : ∀ q ∈ ringPairs n, q.1 < n ∧ q.2 < n := by
  intro q hq
  rcases (ringPairs_mem n q).1 hq with ⟨h1, h2, h3⟩ | ⟨h1, h2⟩ <;> omega

theorem ringPairs_length (n : Nat) (hn : 1 ≤ n) : (ringPairs n).length = n := by
  simp [ringPairs]
  omega

theorem ringPairs_nodup (n : Nat) : (ringPairs n).Nodup := by
  unfold ringPairs
  rw [List.nodup_append]
  refine ⟨?_, List.nodup_singleton _, ?_⟩
  · refine List.Nodup.map ?_ (List.nodup_range' 1 (n - 1))
    intro a b hab
    exact (Prod.mk.inj hab).1
  · intro q h1 h2
    simp only [List.mem_map, List.mem_range', List.mem_singleton] at h1 h2
    obtain ⟨i, ⟨k, hk, rfl⟩, rfl⟩ := h1
    have := (Prod.mk.inj h2).1
    omega

theorem ringPairs_asym (n : Nat) (hn : 3 ≤ n) : ∀ q ∈ ringPairs n, q.swap ∉ ringPairs n := by
  intro q hq hq2
  have a := (ringPairs_mem n q).1 hq
  have b := (ringPairs_mem n q.swap).1 hq2
  simp only [Prod.fst_swap, Prod.snd_swap] at b
  omega

theorem ringPairs_next (n i j : Nat) (hi : i < n) (hj : j < n) :
    (i, j) ∈ ringPairs n ↔ ringNext n j = i := by
  rw [ringPairs_mem]
  simp only [ringNext]
  split_ifs <;> omega

theorem build_graph_ring_eq (n : Nat) (v : List Nat) (hn : 1 ≤ n) (hs : IsShuffle n v) :
    build_graph_ring n v = .ok ⟨n, mappedEdges v (ringPairs n)⟩ := by
  have hl := hs.length
  unfold build_graph_ring
  rw [foldlM_addMapped v (fun i => i) (fun i => i - 1)]
  · rw [addPairs_eq]
    · simp only []
      rw [addMapped_ok v 0 (n - 1) _ (by omega) (by omega), addPairs_eq]
      · simp only [Graph.init, mappedEdges, ringPairs, List.map_map, Function.comp_def,
          List.map_append, List.map_cons, List.map_nil, Finset.empty_union]
        congr 2
        ext ⟨x, y⟩
        simp only [Finset.mem_union, mem_pairEdges, List.mem_append, List.mem_singleton,
          Prod.mk.injEq]
        tauto
      · intro p hp
        simp only [List.mem_singleton] at hp
        subst hp
        exact ⟨hs.lt _ (by omega), hs.lt _ (by omega)⟩
    · intro p hp
      simp only [List.mem_map, List.mem_range'] at hp
      obtain ⟨i, ⟨k, hk, rfl⟩, rfl⟩ := hp
      exact ⟨hs.lt _ (by omega), hs.lt _ (by omega)⟩
  · intro i hi
    simp only [List.mem_range'] at hi
    obtain ⟨k, hk, rfl⟩ := hi
    rw [hl]
    exact ⟨by omega, by omega⟩

theorem ring_adj (n : Nat) (v : List Nat) (hn : 1 ≤ n) (hs : IsShuffle n v) (i j : Nat)
    (hi : i < n) (hj : j < n) :
    (vmap v i, vmap v j) ∈ mappedEdges v (ringPairs n) ↔ ringNext n i = j ∨ ringNext n j = i := by
  rw [mem_mappedEdges hs _ (ringPairs_range n hn) i j hi hj, ringPairs_next n i j hi hj,
    ringPairs_next n j i hj hi]
  tauto

theorem ring_reaches_root (n : Nat) (v : List Nat) (g : Graph)
    (hg : ∀ i, 1 ≤ i → i < n → (vmap v i, vmap v (i - 1)) ∈ g.edges) :
    ∀ i, i < n → Relation.ReflTransGen g.Adj (vmap v i) (vmap v 0) := by
  intro i
  induction i with
  | zero => intro _; exact Relation.ReflTransGen.refl
  | succ i ih =>
    intro hi
    exact Relation.ReflTransGen.head (hg (i + 1) (by omega) hi) (ih (by omega))

theorem ring_degree (n : Nat) (v : List Nat) (hn : 3 ≤ n) (hs : IsShuffle n v) (i : Nat)
    (hi : i < n) :
    ((mappedEdges v (ringPairs n)).filter (fun e => e.1 = vmap v i)).card = 2 := by
  have hnx : ringNext n i < n := by simp only [ringNext]; split_ifs <;> omega
  have hpv : ringPrev n i < n := by simp only [ringPrev]; split_ifs <;> omega
  have hne : ringNext n i ≠ ringPrev n i := by
    simp only [ringNext, ringPrev]; split_ifs <;> omega
  have heq : (mappedEdges v (ringPairs n)).filter (fun e => e.1 = vmap v i) =
      {(vmap v i, vmap v (ringNext n i)), (vmap v i, vmap v (ringPrev n i))} := by
    ext ⟨x, y⟩
    simp only [Finset.mem_filter, Finset.mem_insert, Finset.mem_singleton, Prod.mk.injEq]
    constructor
    · rintro ⟨hm, rfl⟩
      obtain ⟨a, b, ha, hb, h1, h2, -⟩ :=
        mem_mappedEdges_of hs _ (ringPairs_range n (by omega)) _ _ hm
      have e1 := hs.inj i a hi ha h1
      subst e1
      subst h2
      rcases (ring_adj n v (by omega) hs i b hi hb).1 hm with h | h
      · exact Or.inl ⟨rfl, by rw [h]⟩
      · refine Or.inr ⟨rfl, ?_⟩
        have : b = ringPrev n i := by
          simp only [ringNext] at h
          simp only [ringPrev]
          split_ifs at h ⊢ <;> omega
        rw [this]
    · rintro (⟨rfl, rfl⟩ | ⟨rfl, rfl⟩)
      · exact ⟨(ring_adj n v (by omega) hs i _ hi hnx).2 (Or.inl rfl), rfl⟩
      · refine ⟨(ring_adj n v (by omega) hs i _ hi hpv).2 (Or.inr ?_), rfl⟩
        simp only [ringNext, ringPrev]
        split_ifs <;> omega
  rw [heq, Finset.card_pair]
  intro h
  exact hne (hs.inj _ _ hnx hpv (Prod.mk.inj h).2)

/-- C29, counterexample: on two vertices `build_graph_ring` joins `v_map[1]` to `v_map[0]`
and then `v_map[0]` to `v_map[1]`, the same edge again, so the graph has one undirected edge
and each vertex one neighbour; on one vertex it makes a self-loop. -/
theorem build_graph_ring_small :
    (IsShuffle 2 [0, 1] ∧ ∃ g, build_graph_ring 2 [0, 1] = .ok g ∧ g.GetSize = 2 ∧
      g.edges = {(0, 1), (1, 0)} ∧ g.GetEdgeCount = 2 ∧ g.undirectedEdges = 1 ∧
      g.degree 0 = 1 ∧ g.degree 1 = 1) ∧
    (IsShuffle 1 [0] ∧ ∃ g, build_graph_ring 1 [0] = .ok g ∧ g.GetSize = 1 ∧
      g.edges = {(0, 0)} ∧ g.GetEdgeCount = 1 ∧ g.degree 0 = 1 ∧ ¬ g.NoSelfLoop) := by
  have hs2 : IsShuffle 2 [0, 1] := by unfold IsShuffle; decide
  have hs1 : IsShuffle 1 [0] := by unfold IsShuffle; decide
  refine ⟨⟨hs2, _, build_graph_ring_eq 2 [0, 1] (by decide) hs2, rfl, ?_, ?_, ?_, ?_, ?_⟩,
    ⟨hs1, _, build_graph_ring_eq 1 [0] (by decide) hs1, rfl, ?_, ?_, ?_, ?_⟩⟩
  · decide
  · decide
  · decide
  · decide
  · decide
  · decide
  · decide
  · decide
  · intro h
    exact h 0 (by decide)

/-- C29, amended: for every `n >= 3` and every outcome of the shuffle, `build_graph_ring`
returns a graph on `n` vertices with `n` undirected edges (each stored in both directions),
without self-loop, in which every vertex has exactly two neighbours: `v_map[i]` and
`v_map[j]` are joined exactly when `i` and `j` follow each other on the cycle
`0, 1, .., n-1, 0`; the graph is connected. -/
theorem build_graph_ring_is_cycle (n : Nat) (v_map : List Nat) (hn : 3 ≤ n)
    (hs : IsShuffle n v_map) :
    ∃ g, build_graph_ring n v_map = .ok g ∧
      g.GetSize = n ∧
      g.GetEdgeCount = 2 * n ∧
      g.undirectedEdges = n ∧
      g.Symmetric ∧ g.NoSelfLoop ∧ g.InRange ∧
      (∀ a, a < n → g.degree a = 2) ∧
      (∀ i j, i < n → j < n →
        (g.Adj (vmap v_map i) (vmap v_map j) ↔ ringNext n i = j ∨ ringNext n j = i)) ∧
      g.Connected := by
  have h1 : 1 ≤ n := by omega
  have hr := ringPairs_range n h1
  have hcard : (mappedEdges v_map (ringPairs n)).card = 2 * n := by
    rw [card_mappedEdges hs _ hr (ringPairs_asym n hn),
      List.toFinset_card_of_nodup (ringPairs_nodup n), ringPairs_length n h1]
  have hsym : Graph.Symmetric ⟨n, mappedEdges v_map (ringPairs n)⟩ :=
    fun a b hab => mappedEdges_symm _ _ a b hab
  refine ⟨_, build_graph_ring_eq n v_map h1 hs, rfl, hcard, ?_, hsym, ?_, ?_, ?_, ?_, ?_⟩
  · simp only [Graph.undirectedEdges, Graph.GetEdgeCount, hcard]
    omega
  · intro a
    refine mappedEdges_irrefl hs _ hr ?_ a
    intro q hq
    have := (ringPairs_mem n q).1 hq
    omega
  · intro e he
    obtain ⟨i, j, hi, hj, e1, e2, -⟩ := mem_mappedEdges_of hs _ hr e.1 e.2 he
    show e.1 < n ∧ e.2 < n
    rw [e1, e2]
    exact ⟨hs.lt i hi, hs.lt j hj⟩
  · intro a ha
    obtain ⟨i, hi, rfl⟩ := hs.surj a ha
    exact ring_degree n v_map hn hs i hi
  · intro i j hi hj
    exact ring_adj n v_map h1 hs i j hi hj
  · refine connected_of_root n v_map hs _ rfl hsym ?_
    refine ring_reaches_root n v_map _ ?_
    intro i hi1 hi
    exact (ring_adj n v_map h1 hs i (i - 1) hi (by omega)).2
      (Or.inr (by simp only [ringNext]; split_ifs <;> omega))

/-- Witness for the amended C29: four vertices shuffled to `[2, 0, 3, 1]`. -/
theorem build_graph_ring_is_cycle_witness :
    IsShuffle 4 [2, 0, 3, 1] ∧
    ∃ g, build_graph_ring 4 [2, 0, 3, 1] = .ok g ∧ g.GetSize = 4 ∧ g.GetEdgeCount = 8 ∧
      g.undirectedEdges = 4 ∧ g.NoSelfLoop ∧ (∀ a, a < 4 → g.degree a = 2) ∧
      g.Connected := by
  have hs : IsShuffle 4 [2, 0, 3, 1] := by unfold IsShuffle; decide
  obtain ⟨g, h1, h2, h3, h4, -, h6, -, h8, -, h10⟩ :=
    build_graph_ring_is_cycle 4 [2, 0, 3, 1] (by decide) hs
  exact ⟨hs, g, h1, h2, h3, h4, h6, h8, h10⟩

theorem foldlM_congr_mem {α : Type} (f f1 : Graph → α → Except Trap Graph) :
    ∀ (l : List α) (g : Graph), (∀ i ∈ l, ∀ g1, f g1 i = f1 g1 i) →
      l.foldlM f g = l.foldlM f1 g := by
  intro l
  induction l with
  | nil => intro g _; rfl
  | cons a l ih =>
    intro g h
    simp only [List.foldlM_cons]
    rw [h a (by simp)]
    rcases f1 g a with e | g1
    · rfl
    · exact ih g1 (fun i hi => h i (by simp [hi]))

theorem cell_inj (w x y x1 y1 : Nat) (hx : x < w) (hx1 : x1 < w)
    (h : y * w + x = y1 * w + x1) : x = x1 ∧ y = y1 := by
  have hw : 0 < w := by omega
  have e1 : (y * w + x) % w = x := by
    rw [Nat.add_comm, Nat.add_mul_mod_self_right, Nat.mod_eq_of_lt hx]
  have e2 : (y1 * w + x1) % w = x1 := by
    rw [Nat.add_comm, Nat.add_mul_mod_self_right, Nat.mod_eq_of_lt hx1]
  have e3 : (y * w + x) / w = y := by
    rw [Nat.add_comm, Nat.add_mul_div_right _ _ hw, Nat.div_eq_of_lt hx, Nat.zero_add]
  have e4 : (y1 * w + x1) / w = y1 := by
    rw [Nat.add_comm, Nat.add_mul_div_right _ _ hw, Nat.div_eq_of_lt hx1, Nat.zero_add]
  rw [h] at e1 e3
  exact ⟨e1.symm.trans e2, e3.symm.trans e4⟩

theorem cell_lt (w h x y : Nat) (hx : x < w) (hy : y < h) : y * w + x < w * h := by
  have h1 : (y + 1) * w ≤ h * w := Nat.mul_le_mul_right w hy
  rw [Nat.add_mul, Nat.one_mul, Nat.mul_comm h w] at h1
  omega

theorem gridPairs_mem (w h : Nat) (q : Nat × Nat) :
    q ∈ gridPairs w h ↔ ∃ x y, x < w ∧ y < h ∧ q.1 = y * w + x ∧
      ((x ≠ w - 1 ∧ q.2 = y * w + x + 1) ∨ (y ≠ h - 1 ∧ q.2 = y * w + x + w)) := by
  rcases q with ⟨a, b⟩
  simp only [gridPairs, gridCellPairs, List.mem_flatMap, List.mem_range, List.mem_append]
  constructor
  · rintro ⟨x, hx, y, hy, hm | hm⟩
    · by_cases hc : x ≠ w - 1
      · rw [if_pos hc] at hm
        simp only [List.mem_singleton, Prod.mk.injEq] at hm
        exact ⟨x, y, hx, hy, hm.1, Or.inl ⟨hc, hm.2⟩⟩
      · rw [if_neg hc] at hm
        simp at hm
    · by_cases hc : y ≠ h - 1
      · rw [if_pos hc] at hm
        simp only [List.mem_singleton, Prod.mk.injEq] at hm
        exact ⟨x, y, hx, hy, hm.1, Or.inr ⟨hc, hm.2⟩⟩
      · rw [if_neg hc] at hm
        simp at hm
  · rintro ⟨x, y, hx, hy, h1, ⟨hc, h2⟩ | ⟨hc, h2⟩⟩
    · refine ⟨x, hx, y, hy, Or.inl ?_⟩
      rw [if_pos hc]
      simp only [List.mem_singleton, Prod.mk.injEq]
      exact ⟨h1, h2⟩
    · refine ⟨x, hx, y, hy, Or.inr ?_⟩
      rw [if_pos hc]
      simp only [List.mem_singleton, Prod.mk.injEq]
      exact ⟨h1, h2⟩

theorem gridPairs_lt (w h : Nat) : ∀ q ∈ gridPairs w h, q.1 < q.2 ∧ q.2 < w * h := by
  intro q hq
  obtain ⟨x, y, hx, hy, h1, ⟨hc, h2⟩ | ⟨hc, h2⟩⟩ := (gridPairs_mem w h q).1 hq
  · have := cell_lt w h (x + 1) y (by omega) hy
    omega
  · have := cell_lt w h x (y + 1) hx (by omega)
    rw [Nat.add_mul, Nat.one_mul] at this
    omega

theorem gridPairs_range (w h : Nat) : ∀ q ∈ gridPairs w h, q.1 < w * h ∧ q.2 < w * h := by
  intro q hq
  have := gridPairs_lt w h q hq
  omega

theorem gridPairs_asym (w h : Nat) : ∀ q ∈ gridPairs w h, q.swap ∉ gridPairs w h := by
  intro q hq hq2
  have a := gridPairs_lt w h q hq
  have b := gridPairs_lt w h q.swap hq2
  simp only [Prod.fst_swap, Prod.snd_swap] at b
  omega

theorem gridPairs_cell (w h xa ya xb yb : Nat) (hxa : xa < w) (hya : ya < h) (hxb : xb < w)
    (_ : yb < h) :
    (ya * w + xa, yb * w + xb) ∈ gridPairs w h ↔
      (ya = yb ∧ xa + 1 = xb) ∨ (xa = xb ∧ ya + 1 = yb) := by
  rw [gridPairs_mem]
  constructor
  · rintro ⟨x, y, hx, hy, h1, h2⟩
    obtain ⟨rfl, rfl⟩ := cell_inj w xa ya x y hxa hx h1
    rcases h2 with ⟨hc, h2⟩ | ⟨hc, h2⟩
    · have := cell_inj w xb yb (xa + 1) ya hxb (by omega) (by simpa [Nat.add_assoc] using h2)
      exact Or.inl ⟨this.2.symm, this.1.symm⟩
    · have e : yb * w + xb = (ya + 1) * w + xa := by
        simp only [] at h2
        rw [h2, Nat.add_mul, Nat.one_mul]
        omega
      have := cell_inj w xb yb xa (ya + 1) hxb hxa e
      exact Or.inr ⟨this.1.symm, this.2.symm⟩
  · rintro (⟨rfl, rfl⟩ | ⟨rfl, rfl⟩)
    · exact ⟨xa, ya, hxa, hya, rfl, Or.inl ⟨by omega, by simp only []; omega⟩⟩
    · refine ⟨xa, ya, hxa, hya, rfl, Or.inr ⟨by omega, ?_⟩⟩
      simp only []
      rw [Nat.add_mul, Nat.one_mul]
      omega

theorem gridPairs_card (w h : Nat) (hw : 0 < w) (hh : 0 < h) :
    (gridPairs w h).toFinset.card = (w - 1) * h + w * (h - 1) := by
  have heq : (gridPairs w h).toFinset =
      ((Finset.range (w - 1) ×ˢ Finset.range h).image
          (fun p => (p.2 * w + p.1, p.2 * w + p.1 + 1))) ∪
      ((Finset.range w ×ˢ Finset.range (h - 1)).image
          (fun p => (p.2 * w + p.1, p.2 * w + p.1 + w))) := by
    ext q
    simp only [List.mem_toFinset, gridPairs_mem, Finset.mem_union, Finset.mem_image,
      Finset.mem_product, Finset.mem_range, Prod.exists]
    constructor
    · rintro ⟨x, y, hx, hy, h1, ⟨hc, h2⟩ | ⟨hc, h2⟩⟩
      · exact Or.inl ⟨x, y, ⟨by omega, hy⟩, Prod.ext h1.symm h2.symm⟩
      · exact Or.inr ⟨x, y, ⟨hx, by omega⟩, Prod.ext h1.symm h2.symm⟩
    · rintro (⟨x, y, ⟨hx, hy⟩, rfl⟩ | ⟨x, y, ⟨hx, hy⟩, rfl⟩)
      · exact ⟨x, y, by omega, hy, rfl, Or.inl ⟨by omega, rfl⟩⟩
      · exact ⟨x, y, hx, by omega, rfl, Or.inr ⟨by omega, rfl⟩⟩
  rw [heq, Finset.card_union_of_disjoint, Finset.card_image_of_injOn,
    Finset.card_image_of_injOn]
  · simp only [Finset.card_product, Finset.card_range]
  · intro p hp q hq hpq
    simp only [Finset.coe_product, Finset.coe_range, Set.mem_prod, Set.mem_Iio] at hp hq
    simp only [Prod.mk.injEq] at hpq
    have := cell_inj w p.1 p.2 q.1 q.2 hp.1 hq.1 hpq.1
    exact Prod.ext this.1 this.2
  · intro p hp q hq hpq
    simp only [Finset.coe_product, Finset.coe_range, Set.mem_prod, Set.mem_Iio] at hp hq
    simp only [Prod.mk.injEq] at hpq
    have := cell_inj w p.1 p.2 q.1 q.2 (by omega) (by omega) hpq.1
    exact Prod.ext this.1 this.2
  · rw [Finset.disjoint_left]
    intro q h1 h2
    simp only [Finset.mem_image, Finset.mem_product, Finset.mem_range, Prod.exists] at h1 h2
    obtain ⟨x, y, ⟨hx, hy⟩, rfl⟩ := h1
    obtain ⟨x1, y1, ⟨hx1, hy1⟩, he⟩ := h2
    simp only [Prod.mk.injEq] at he
    omega

theorem grid_cell_eq (w h : Nat) (v : List Nat) (x y : Nat) (g : Graph) (hx : x < w)
    (hy : y < h) (hl : v.length = w * h) :
    grid_cell w h v true true x y g =
      addPairs ((gridCellPairs w h x y).map (fun q => (vmap v q.1, vmap v q.2))) g := by
  have hc := cell_lt w h x y hx hy
  unfold grid_cell gridCellPairs
  by_cases c1 : x ≠ w - 1 <;> by_cases c2 : y ≠ h - 1
  · have b1 := cell_lt w h (x + 1) y (by omega) hy
    have b2 := cell_lt w h x (y + 1) hx (by omega)
    rw [Nat.add_mul, Nat.one_mul] at b2
    simp only [c1, c2, ne_eq, not_false_eq_true, and_self, if_true, List.singleton_append,
      List.map_cons, List.map_nil, addPairs]
    rw [addMapped_ok v _ _ g (by omega) (by omega)]
    simp only [addPairs]
    rcases g.AddEdgePair (vmap v (y * w + x)) (vmap v (y * w + x + 1)) with e | g1
    · rfl
    · simp only []
      rw [addMapped_ok v _ _ g1 (by omega) (by omega)]
      simp only [addPairs]
  · have b1 := cell_lt w h (x + 1) y (by omega) hy
    simp only [c1, c2, ne_eq, not_false_eq_true, and_self, if_true, if_false, and_true,
      false_and, List.append_nil, List.map_cons, List.map_nil, addPairs]
    rw [addMapped_ok v _ _ g (by omega) (by omega)]
    simp only [addPairs]
    rcases g.AddEdgePair (vmap v (y * w + x)) (vmap v (y * w + x + 1)) with e | g1 <;> rfl
  · have b2 := cell_lt w h x (y + 1) hx (by omega)
    rw [Nat.add_mul, Nat.one_mul] at b2
    simp only [c1, c2, ne_eq, not_false_eq_true, and_self, if_true, if_false, and_true,
      false_and, List.nil_append, List.map_cons, List.map_nil, addPairs]
    rw [addMapped_ok v _ _ g (by omega) (by omega)]
    simp only [addPairs]
  · simp only [c1, c2, ne_eq, if_false, false_and, List.append_nil, List.map_nil, addPairs]

theorem build_graph_grid_eq (w h : Nat) (v : List Nat) (use_h use_v : Nat → Nat → Bool)
    (hw : 0 < w) (hh : 0 < h) (hfit : w * h < mabe.SIZE_MOD) (hs : IsShuffle (w * h) v)
    (huh : ∀ x y, use_h x y = true) (huv : ∀ x y, use_v x y = true) :
    build_graph_grid w h v use_h use_v = .ok ⟨w * h, mappedEdges v (gridPairs w h)⟩ := by
  have hl := hs.length
  unfold build_graph_grid
  rw [if_neg (by simp [hw, hh])]
  simp only [Nat.mod_eq_of_lt hfit]
  have hinner : ∀ x ∈ List.range w, ∀ g : Graph,
      (List.range h).foldlM
        (fun graph1 y => grid_cell w h v (use_h x y) (use_v x y) x y graph1) g =
      addPairs (((List.range h).flatMap (fun y => gridCellPairs w h x y)).map
        (fun q => (vmap v q.1, vmap v q.2))) g := by
    intro x hx g
    rw [foldlM_congr_mem _
      (fun graph1 y => addPairs ((gridCellPairs w h x y).map
        (fun q => (vmap v q.1, vmap v q.2))) graph1)]
    · rw [foldlM_addPairs, List.map_flatMap]
    · intro y hy g1
      rw [huh, huv]
      exact grid_cell_eq w h v x y g1 (List.mem_range.1 hx) (List.mem_range.1 hy) hl
  rw [foldlM_congr_mem _ _ _ _ hinner, foldlM_addPairs, addPairs_eq]
  · simp only [Graph.init, Finset.empty_union, mappedEdges, gridPairs, List.map_flatMap]
  · intro p hp
    rw [← List.map_flatMap] at hp
    simp only [List.mem_map] at hp
    obtain ⟨q, hq, rfl⟩ := hp
    have := gridPairs_range w h q hq
    exact ⟨hs.lt _ this.1, hs.lt _ this.2⟩

/-- C30: for `width, height > 0` whose product fits a `size_t`, every outcome `v_map` of the
shuffle, and every call `random.P(prob_use)` saying yes (`prob_use = 1`), `build_graph_grid`
returns a graph on `width * height` vertices with `(width-1)*height + width*(height-1)`
undirected edges (each stored in both directions), without self-loop, in which `v_map[a]` and
`v_map[b]` are joined exactly when the cells `a` and `b` (column `a % width`, row
`a / width`) are horizontal or vertical neighbours; for `height = 1` it is the chain with
`width - 1` edges joining `v_map[a]` and `v_map[a+1]`. -/
theorem build_graph_grid_full (width height : Nat) (v_map : List Nat)
    (use_h use_v : Nat → Nat → Bool) (hw : 0 < width) (hh : 0 < height)
    (hfit : width * height < mabe.SIZE_MOD) (hs : IsShuffle (width * height) v_map)
    (huh : ∀ x y, use_h x y = true) (huv : ∀ x y, use_v x y = true) :
    ∃ g, build_graph_grid width height v_map use_h use_v = .ok g ∧
      g.GetSize = width * height ∧
      g.GetEdgeCount = 2 * ((width - 1) * height + width * (height - 1)) ∧
      g.undirectedEdges = (width - 1) * height + width * (height - 1) ∧
      g.Symmetric ∧ g.NoSelfLoop ∧ g.InRange ∧
      (∀ a b, a < width * height → b < width * height →
        (g.Adj (vmap v_map a) (vmap v_map b) ↔
          gridNeighbours (a % width) (a / width) (b % width) (b / width))) ∧
      (height = 1 → g.undirectedEdges = width - 1 ∧
        ∀ a b, a < width → b < width →
          (g.Adj (vmap v_map a) (vmap v_map b) ↔ a + 1 = b ∨ b + 1 = a)) := by
  have hr := gridPairs_range width height
  have hcard : (mappedEdges v_map (gridPairs width height)).card =
      2 * ((width - 1) * height + width * (height - 1)) := by
    rw [card_mappedEdges hs _ hr (gridPairs_asym width height),
      gridPairs_card width height hw hh]
  have hund : Graph.undirectedEdges ⟨width * height, mappedEdges v_map (gridPairs width height)⟩ =
      (width - 1) * height + width * (height - 1) := by
    simp only [Graph.undirectedEdges, Graph.GetEdgeCount, hcard]
    omega
  have hadj : ∀ a b, a < width * height → b < width * height →
      ((vmap v_map a, vmap v_map b) ∈ mappedEdges v_map (gridPairs width height) ↔
        gridNeighbours (a % width) (a / width) (b % width) (b / width)) := by
    intro a b ha hb
    have hxa : a % width < width := Nat.mod_lt _ hw
    have hxb : b % width < width := Nat.mod_lt _ hw
    have hya : a / width < height := Nat.div_lt_of_lt_mul ha
    have hyb : b / width < height := Nat.div_lt_of_lt_mul hb
    have ea : a / width * width + a % width = a := Nat.div_add_mod' a width
    have eb : b / width * width + b % width = b := Nat.div_add_mod' b width
    rw [mem_mappedEdges hs _ hr a b ha hb]
    have k1 := gridPairs_cell width height _ _ _ _ hxa hya hxb hyb
    have k2 := gridPairs_cell width height _ _ _ _ hxb hyb hxa hya
    rw [ea, eb] at k1
    rw [ea, eb] at k2
    rw [k1, k2]
    unfold gridNeighbours
    omega
  refine ⟨_, build_graph_grid_eq width height v_map use_h use_v hw hh hfit hs huh huv, rfl,
    hcard, hund, fun a b hab => mappedEdges_symm _ _ a b hab, ?_, ?_, hadj, ?_⟩
  · intro a
    refine mappedEdges_irrefl hs _ hr ?_ a
    intro q hq
    have := gridPairs_lt width height q hq
    omega
  · intro e he
    obtain ⟨i, j, hi, hj, e1, e2, -⟩ := mem_mappedEdges_of hs _ hr e.1 e.2 he
    show e.1 < width * height ∧ e.2 < width * height
    rw [e1, e2]
    exact ⟨hs.lt i hi, hs.lt j hj⟩
  · intro h1
    subst h1
    refine ⟨by rw [hund]; simp, ?_⟩
    intro a b ha hb
    have := hadj a b (by omega) (by omega)
    show (vmap v_map a, vmap v_map b) ∈ mappedEdges v_map (gridPairs width 1) ↔ _
    rw [this, Nat.mod_eq_of_lt ha, Nat.mod_eq_of_lt hb, Nat.div_eq_of_lt ha,
      Nat.div_eq_of_lt hb]
    unfold gridNeighbours
    constructor
    · rintro (⟨-, h2⟩ | ⟨-, h2⟩)
      · exact h2
      · omega
    · intro h2
      exact Or.inl ⟨rfl, h2⟩

/-- Witness for C30: the 3 by 2 grid with the cells shuffled to `[4, 0, 5, 2, 1, 3]`. -/
theorem build_graph_grid_full_witness :
    IsShuffle 6 [4, 0, 5, 2, 1, 3] ∧
    ∃ g, build_graph_grid 3 2 [4, 0, 5, 2, 1, 3] (fun _ _ => true) (fun _ _ => true) = .ok g ∧
      g.GetSize = 6 ∧ g.GetEdgeCount = 14 ∧ g.undirectedEdges = 7 ∧ g.NoSelfLoop ∧
      g.Adj 4 0 ∧ g.Adj 4 2 ∧ ¬ g.Adj 4 1 := by
  have hs : IsShuffle (3 * 2) [4, 0, 5, 2, 1, 3] := by unfold IsShuffle; decide
  obtain ⟨g, h1, h2, h3, h4, -, h6, -, h8, -⟩ :=
    build_graph_grid_full 3 2 [4, 0, 5, 2, 1, 3] (fun _ _ => true) (fun _ _ => true)
      (by decide) (by decide) (by norm_num [mabe.SIZE_MOD]) hs (fun _ _ => rfl) (fun _ _ => rfl)
  refine ⟨hs, g, h1, h2, h3, h4, h6, ?_, ?_, ?_⟩
  · exact (h8 0 1 (by decide) (by decide)).2 (by unfold gridNeighbours; decide)
  · exact (h8 0 3 (by decide) (by decide)).2 (by unfold gridNeighbours; decide)
  · exact fun h => absurd ((h8 0 4 (by decide) (by decide)).1 h)
      (by unfold gridNeighbours; decide)

theorem HasEdge_ok (g : Graph) (a b : Nat) (ha : a < g.size) (hb : b < g.size) :
    g.HasEdge a b = .ok (decide ((a, b) ∈ g.edges)) := by
  simp [Graph.HasEdge, ha, hb]

theorem HasEdge_inv (g : Graph) (a b : Nat) (r : Bool) (h : g.HasEdge a b = .ok r) :
    a < g.size ∧ b < g.size ∧ (r = true ↔ (a, b) ∈ g.edges) := by
  unfold Graph.HasEdge at h
  split_ifs at h with hc
  · injection h with h
    exact ⟨hc.1, hc.2, by rw [← h]; simp⟩

theorem addPair_keeps (g : Graph) (a b k : Nat) (ha : a < g.size) (hb : b < g.size)
    (hab : a ≠ b) (hno : (a, b) ∉ g.edges) (hsym : g.Symmetric) (hirr : g.NoSelfLoop)
    (hin : g.InRange) (hcard : g.edges.card = 2 * k) :
    Graph.Symmetric ⟨g.size, insert (b, a) (insert (a, b) g.edges)⟩ ∧
    Graph.NoSelfLoop ⟨g.size, insert (b, a) (insert (a, b) g.edges)⟩ ∧
    Graph.InRange ⟨g.size, insert (b, a) (insert (a, b) g.edges)⟩ ∧
    (insert (b, a) (insert (a, b) g.edges)).card = 2 * (k + 1) := by
  refine ⟨?_, ?_, ?_, ?_⟩
  · intro x y hxy
    simp only [Finset.mem_insert, Prod.mk.injEq] at hxy ⊢
    rcases hxy with ⟨rfl, rfl⟩ | ⟨rfl, rfl⟩ | h
    · exact Or.inr (Or.inl ⟨rfl, rfl⟩)
    · exact Or.inl ⟨rfl, rfl⟩
    · exact Or.inr (Or.inr (hsym x y h))
  · intro x hx
    simp only [Finset.mem_insert, Prod.mk.injEq] at hx
    rcases hx with ⟨rfl, h⟩ | ⟨rfl, h⟩ | h
    · exact hab h.symm
    · exact hab h
    · exact hirr x h
  · intro e he
    simp only [Finset.mem_insert] at he
    rcases he with rfl | rfl | h
    · exact ⟨hb, ha⟩
    · exact ⟨ha, hb⟩
    · exact hin e h
  · have hno2 : (b, a) ∉ insert (a, b) g.edges := by
      simp only [Finset.mem_insert, Prod.mk.injEq, not_or]
      exact ⟨fun h => hab h.2, fun h => hno (hsym b a h)⟩
    rw [Finset.card_insert_of_not_mem hno2, Finset.card_insert_of_not_mem hno, hcard]
    omega

theorem random_loop_spec (e_count : Nat) : ∀ (extra : List (Nat × Nat)) (e_cur : Nat)
    (g g1 : Graph), random_loop e_count extra e_cur g = .ok (some g1) →
    g.Symmetric → g.NoSelfLoop → g.InRange → g.edges.card = 2 * e_cur → e_cur ≤ e_count →
    g1.size = g.size ∧ g1.Symmetric ∧ g1.NoSelfLoop ∧ g1.InRange ∧
      g1.edges.card = 2 * e_count ∧ g.edges ⊆ g1.edges := by
  intro extra
  induction extra with
  | nil =>
    intro e_cur g g1 h hsym hirr hin hcard hle
    unfold random_loop at h
    split_ifs at h with hc
    · injection h with h
      cases h
    · injection h with h
      injection h with h
      subst h
      have : e_cur = e_count := by omega
      subst this
      exact ⟨rfl, hsym, hirr, hin, hcard, Finset.Subset.refl _⟩
  | cons p rest ih =>
    intro e_cur g g1 h hsym hirr hin hcard hle
    rcases p with ⟨a, b⟩
    unfold random_loop at h
    split_ifs at h with hc hab
    · exact ih e_cur g g1 h hsym hirr hin hcard hle
    · rcases hhe : g.HasEdge a b with e | r
      · rw [hhe] at h
        cases h
      · rw [hhe] at h
        obtain ⟨ha, hb, hr⟩ := HasEdge_inv g a b r hhe
        rcases r with _ | _
        · have hno : (a, b) ∉ g.edges := fun hm => by simpa using hr.2 hm
          simp only [AddEdgePair_ok g a b ha hb] at h
          obtain ⟨k1, k2, k3, k4⟩ := addPair_keeps g a b e_cur ha hb hab hno hsym hirr hin hcard
          obtain ⟨r1, r2, r3, r4, r5, r6⟩ := ih (e_cur + 1) _ g1 h k1 k2 k3 k4 (by omega)
          refine ⟨r1, r2, r3, r4, r5, ?_⟩
          intro e he
          exact r6 (by simp [he])
        · simp only [] at h
          exact ih e_cur g g1 h hsym hirr hin hcard hle
    · injection h with h
      injection h with h
      subst h
      have : e_cur = e_count := by omega
      subst this
      exact ⟨rfl, hsym, hirr, hin, hcard, Finset.Subset.refl _⟩

theorem exists_non_edge (n : Nat) (es : Finset (Nat × Nat))
    (hcard : es.card < n * (n - 1)) :
    ∃ a b, a < n ∧ b < n ∧ a ≠ b ∧ (a, b) ∉ es := by
  by_contra hcon
  push_neg at hcon
  have hsub : (Finset.range n).offDiag ⊆ es := by
    intro e he
    simp only [Finset.mem_offDiag, Finset.mem_range] at he
    exact hcon e.1 e.2 he.1 he.2.1 he.2.2
  have h1 := Finset.card_le_card hsub
  rw [Finset.offDiag_card, Finset.card_range] at h1
  have h2 : n * (n - 1) = n * n - n := by
    rw [Nat.mul_sub, Nat.mul_one]
  omega

theorem random_loop_returns (n e_count : Nat) (hmax : 2 * e_count ≤ n * (n - 1)) :
    ∀ (k e_cur : Nat) (g : Graph), e_cur + k = e_count → g.size = n →
    g.Symmetric → g.NoSelfLoop → g.InRange → g.edges.card = 2 * e_cur →
    ∃ extra, (∀ p ∈ extra, p.1 < n ∧ p.2 < n) ∧
      ∃ g1, random_loop e_count extra e_cur g = .ok (some g1) := by
  intro k
  induction k with
  | zero =>
    intro e_cur g he _ _ _ _ _
    refine ⟨[], by simp, g, ?_⟩
    unfold random_loop
    rw [if_neg (by omega)]
  | succ k ih =>
    intro e_cur g he hsize hsym hirr hin hcard
    obtain ⟨a, b, ha, hb, hab, hno⟩ := exists_non_edge n g.edges (by omega)
    have ha1 : a < g.size := by omega
    have hb1 : b < g.size := by omega
    obtain ⟨k1, k2, k3, k4⟩ := addPair_keeps g a b e_cur ha1 hb1 hab hno hsym hirr hin hcard
    obtain ⟨extra, hex, g1, hg1⟩ :=
      ih (e_cur + 1) ⟨g.size, insert (b, a) (insert (a, b) g.edges)⟩ (by omega) hsize
        k1 k2 k3 k4
    refine ⟨(a, b) :: extra, ?_, g1, ?_⟩
    · intro p hp
      rcases List.mem_cons.1 hp with rfl | hp
      · exact ⟨ha, hb⟩
      · exact hex p hp
    · unfold random_loop
      rw [if_pos (by omega), if_neg hab, HasEdge_ok g a b ha1 hb1]
      simp only [hno, decide_False, AddEdgePair_ok g a b ha1 hb1]
      exact hg1

theorem connected_mono (g g1 : Graph) (hsize : g1.size = g.size) (hsub : g.edges ⊆ g1.edges)
    (hc : g.Connected) : g1.Connected := by
  intro a b ha hb
  rw [hsize] at ha hb
  exact Relation.ReflTransGen.mono (fun x y hxy => hsub hxy) (hc a b ha hb)

/-- C28: with `connected = true`, whenever `build_graph_random(v_count, e_count)` returns (for
an outcome `v_map` of the shuffle, draws `draw i < i` of the tree, and the pairs `extra`
drawn by the loop), its assertions held (`v_count >= 2`, `e_count >= v_count - 1`) and the
result is a graph on `v_count` vertices, symmetric, without self-loop, with exactly `e_count`
undirected edges (each stored in both directions), containing the tree and connected.
And for `v_count >= 2` and `v_count - 1 <= e_count <= v_count*(v_count-1)/2` (the product
fitting a `size_t`) there are draws below `v_count` for which it returns. -/
theorem build_graph_random_connected (v_count e_count : Nat) (v_map : List Nat)
    (draw : Nat → Nat) (hs : IsShuffle v_count v_map) (hd : IsDraw draw) :
    (∀ extra g, build_graph_random v_count e_count v_map draw extra true = .ok (some g) →
      2 ≤ v_count ∧ v_count - 1 ≤ e_count ∧
      g.GetSize = v_count ∧ g.Symmetric ∧ g.NoSelfLoop ∧ g.InRange ∧
      g.GetEdgeCount = 2 * e_count ∧ g.undirectedEdges = e_count ∧
      mappedEdges v_map (treePairs v_count draw) ⊆ g.edges ∧ g.Connected) ∧
    (2 ≤ v_count → v_count - 1 ≤ e_count → e_count ≤ v_count * (v_count - 1) / 2 →
      v_count * (v_count - 1) < mabe.SIZE_MOD →
      ∃ extra, (∀ p ∈ extra, p.1 < v_count ∧ p.2 < v_count) ∧
        ∃ g, build_graph_random v_count e_count v_map draw extra true = .ok (some g)) := by
  obtain ⟨tcard, tsym, tirr, tin, tconn⟩ :=
    tree_facts v_count v_map draw hs hd ⟨v_count, mappedEdges v_map (treePairs v_count draw)⟩
      rfl rfl
  constructor
  · intro extra g h
    unfold build_graph_random at h
    simp only [build_graph_tree_eq v_count v_map draw hs hd] at h
    split_ifs at h with c1 c2 c3
    obtain ⟨r1, r2, r3, r4, r5, r6⟩ :=
      random_loop_spec e_count extra (v_count - 1) _ g h tsym tirr tin tcard (by omega)
    refine ⟨by omega, by omega, r1, r2, r3, r4, r5, ?_, r6, connected_mono _ g r1 r6 tconn⟩
    simp only [Graph.undirectedEdges, Graph.GetEdgeCount, r5]
    omega
  · intro h2 hlo hhi hfit
    obtain ⟨extra, hex, g, hg⟩ :=
      random_loop_returns v_count e_count (by omega) (e_count - (v_count - 1)) (v_count - 1)
        ⟨v_count, mappedEdges v_map (treePairs v_count draw)⟩ (by omega) rfl tsym tirr tin
        tcard
    refine ⟨extra, hex, g, ?_⟩
    unfold build_graph_random
    simp only [build_graph_tree_eq v_count v_map draw hs hd, Nat.mod_eq_of_lt hfit]
    rw [if_neg (by omega), if_neg (by omega)]
    simp only [if_true]
    rw [if_neg (by omega)]
    exact hg

/-- Witness for C28: three vertices shuffled to `[2, 0, 1]`, every draw of the tree 0 (the
tree joins 0 to 2 and 1 to 2), three edges asked for; the loop draws `(1, 1)`, refused as a
self-loop, `(0, 2)`, refused as present, and `(0, 1)`, which it adds. -/
theorem build_graph_random_connected_witness :
    IsShuffle 3 [2, 0, 1] ∧ IsDraw (fun _ => 0) ∧
    ∃ g, build_graph_random 3 3 [2, 0, 1] (fun _ => 0) [(1, 1), (0, 2), (0, 1)] true =
        .ok (some g) ∧
      g.GetSize = 3 ∧ g.Symmetric ∧ g.NoSelfLoop ∧ g.GetEdgeCount = 6 ∧
      g.undirectedEdges = 3 ∧ g.Connected := by
  have hs : IsShuffle 3 [2, 0, 1] := by unfold IsShuffle; decide
  have hd : IsDraw (fun _ => 0) := fun i hi => hi
  have hret : ∃ g, build_graph_random 3 3 [2, 0, 1] (fun _ => 0) [(1, 1), (0, 2), (0, 1)] true =
      .ok (some g) := ⟨_, rfl⟩
  obtain ⟨g, hg⟩ := hret
  obtain ⟨-, -, h3, h4, h5, -, h7, h8, -, h10⟩ :=
    (build_graph_random_connected 3 3 [2, 0, 1] (fun _ => 0) hs hd).1 _ g hg
  exact ⟨hs, hd, g, hg, h3, h4, h5, h7, h8, h10⟩

theorem ResolveUnitTest_verbose (pass : Bool) (a b c d : String) (n : Nat) (s : UnitTests) :
    (ResolveUnitTest pass a b c d n s).verbose = s.verbose := by
  unfold ResolveUnitTest
  simp only []
  split_ifs <;> rfl

theorem runTests_verbose : ∀ (tests : List TestCall) (s : UnitTests),
    (runTests tests s).verbose = s.verbose := by
  intro tests
  induction tests with
  | nil => intro s; rfl
  | cons t rest ih =>
    intro s
    show (runTests rest (t.run s)).verbose = _
    rw [ih]
    exact ResolveUnitTest_verbose _ _ _ _ _ _ _

theorem ResolveUnitTest_errors (pass : Bool) (a b c d : String) (n : Nat) (s : UnitTests) :
    (ResolveUnitTest pass a b c d n s).errors =
      if s.verbose ≥ 1 ∧ pass = false then (s.errors + 1) % mabe.SIZE_MOD else s.errors := by
  unfold ResolveUnitTest
  simp only []
  split_ifs <;> rfl

theorem runTests_errors_silent : ∀ (tests : List TestCall) (s : UnitTests), s.verbose = 0 →
    (runTests tests s).errors = s.errors := by
  intro tests
  induction tests with
  | nil => intro s _; rfl
  | cons t rest ih =>
    intro s h
    show (runTests rest (t.run s)).errors = _
    have hv : (t.run s).verbose = s.verbose := ResolveUnitTest_verbose _ _ _ _ _ _ _
    rw [ih (t.run s) (hv.trans h)]
    have he : (t.run s).errors =
        if s.verbose ≥ 1 ∧ t.pass = false then (s.errors + 1) % mabe.SIZE_MOD else s.errors :=
      ResolveUnitTest_errors _ _ _ _ _ _ _
    rw [he, if_neg (by omega)]

theorem runTests_errors_counted : ∀ (tests : List TestCall) (s : UnitTests), 1 ≤ s.verbose →
    (runTests tests s).errors % mabe.SIZE_MOD = (s.errors + failedTests tests) % mabe.SIZE_MOD := by
  intro tests
  induction tests with
  | nil => intro s _; simp [runTests, failedTests]
  | cons t rest ih =>
    intro s h
    show (runTests rest (t.run s)).errors % _ = _
    have hv : (t.run s).verbose = s.verbose := ResolveUnitTest_verbose _ _ _ _ _ _ _
    rw [ih (t.run s) (by omega)]
    have he : (t.run s).errors =
        if s.verbose ≥ 1 ∧ t.pass = false then (s.errors + 1) % mabe.SIZE_MOD else s.errors :=
      ResolveUnitTest_errors _ _ _ _ _ _ _
    rw [he]
    by_cases hp : t.pass = false
    · rw [if_pos ⟨h, hp⟩]
      have : failedTests (t :: rest) = failedTests rest + 1 := by
        simp [failedTests, List.countP_cons, hp]
      rw [this, Nat.mod_add_mod]
      congr 1
      omega
    · rw [if_neg (by simp [hp])]
      have : failedTests (t :: rest) = failedTests rest := by
        simp [failedTests, List.countP_cons, hp]
      rw [this]

/-- C34, evaluation at a failing input: with `verbose = 0` (SILENT) the error counter is
never incremented, whatever tests are resolved; one failing test leaves it at 0, and the
generated `main` called with `--silent` returns 0, where without the flag it returns 1. -/
theorem silent_mode_counts_no_failure :
    (∀ (tests : List TestCall) (errors : Nat) (cout : List String),
      (runTests tests ⟨0, errors, cout⟩).errors = errors) ∧
    failedTests [exFailing] = 1 ∧
    (runTests [exFailing] ⟨0, 0, []⟩).errors = 0 ∧
    (emp_test_main false false true "unit_test" [exFailing] UnitTests.init).1 = 0 ∧
    (emp_test_main false false false "unit_test" [exFailing] UnitTests.init).1 = 1 :=
  ⟨fun tests errors cout => runTests_errors_silent tests ⟨0, errors, cout⟩ rfl,
    rfl, rfl, rfl, rfl⟩

/-- C35, evaluation at a failing input: with `verbose = 0` (SILENT) a failing test still
writes its location line (the first `if` has no test of the verbosity), while a passing
test writes nothing.  In NORMAL mode a passing test writes nothing and a failing one two
lines; in VERBOSE mode every test writes two lines. -/
theorem silent_mode_writes_failures (a b c d : String) (n errors : Nat) (cout : List String) :
    (ResolveUnitTest false a b c d n ⟨0, errors, cout⟩).cout =
      cout ++ [d ++ ", line " ++ toString n ++ ": " ++ a ++ " == " ++ b] ∧
    (exFailing.run ⟨0, 0, []⟩).cout = ["test.cc, line 10: f(1) == 2"] ∧
    (ResolveUnitTest true a b c d n ⟨0, errors, cout⟩).cout = cout ∧
    (ResolveUnitTest true a b c d n ⟨1, errors, cout⟩).cout = cout ∧
    (ResolveUnitTest false a b c d n ⟨1, errors, cout⟩).cout =
      cout ++ [d ++ ", line " ++ toString n ++ ": " ++ a ++ " == " ++ b,
        "-> " ++ esc ++ "[1;31mMATCH FAILED!  Expected: " ++ c ++ esc ++ "[0m"] ∧
    (ResolveUnitTest true a b c d n ⟨2, errors, cout⟩).cout =
      cout ++ [d ++ ", line " ++ toString n ++ ": " ++ a ++ " == " ++ b,
        "-> " ++ esc ++ "[1;32mPASSED!" ++ esc ++ "[0m"] ∧
    (ResolveUnitTest false a b c d n ⟨2, errors, cout⟩).cout =
      cout ++ [d ++ ", line " ++ toString n ++ ": " ++ a ++ " == " ++ b,
        "-> " ++ esc ++ "[1;31mMATCH FAILED!  Expected: " ++ c ++ esc ++ "[0m"] := by
  refine ⟨?_, ?_, ?_, ?_, ?_, ?_, ?_⟩
  · simp [ResolveUnitTest]
  · decide
  · simp [ResolveUnitTest]
  · simp [ResolveUnitTest]
  · simp [ResolveUnitTest]
  · simp [ResolveUnitTest]
  · simp [ResolveUnitTest]

theorem typedCount_append {Ty Val : Type} [DecidableEq Ty] (t : Ty)
    (a b : List (AddCall Ty Val)) : typedCount t (a ++ b) = typedCount t a + typedCount t b := by
  simp [typedCount]

theorem typedValues_append {Ty Val : Type} [DecidableEq Ty] (t : Ty)
    (a b : List (AddCall Ty Val)) : typedValues t (a ++ b) = typedValues t a ++ typedValues t b := by
  simp [typedValues]

theorem typedValues_length {Ty Val : Type} [DecidableEq Ty] (t : Ty)
    (a : List (AddCall Ty Val)) : (typedValues t a).length = typedCount t a := by
  simp [typedValues, typedCount]

theorem typedCount_single {Ty Val : Type} [DecidableEq Ty] (t : Ty) (c : AddCall Ty Val) :
    typedCount t [c] = if c.t = t then 1 else 0 := by
  by_cases h : c.t = t <;> simp [typedCount, h]

theorem typedValues_single {Ty Val : Type} [DecidableEq Ty] (t : Ty) (c : AddCall Ty Val) :
    typedValues t [c] = if c.t = t then [c.value] else [] := by
  by_cases h : c.t = t <;> simp [typedValues, h]

theorem Holds_init {Ty Val : Type} [DecidableEq Ty] (type_name : Ty → String) :
    DataMap.Holds type_name ([] : List (AddCall Ty Val)) DataMap.init := by
  refine ⟨fun t => rfl, fun n _ => rfl, ?_⟩
  intro pre c post h
  simp at h

theorem Holds_Add {Ty Val : Type} [DecidableEq Ty] (type_name : Ty → String)
    (cs : List (AddCall Ty Val)) (m : DataMap Ty Val) (c : AddCall Ty Val)
    (hm : DataMap.Holds type_name cs m) (hnew : c.name ∉ cs.map (fun c => c.name)) :
    ∃ m1, m.Add type_name c.t c.name c.value = .ok m1 ∧
      m1.default_blob = Function.update m.default_blob c.t (m.default_blob c.t ++ [c.value]) ∧
      m1.id_map = Function.update m.id_map c.name (some (m.default_blob c.t).length) ∧
      m1.type_map = Function.update m.type_map c.name (some (type_name c.t)) ∧
      DataMap.Holds type_name (cs ++ [c]) m1 := by
  obtain ⟨hb, hn, hs⟩ := hm
  have hnone : m.id_map c.name = none := hn _ hnew
  refine ⟨{ default_blob := Function.update m.default_blob c.t (m.default_blob c.t ++ [c.value]),
            id_map := Function.update m.id_map c.name (some (m.default_blob c.t).length),
            type_map := Function.update m.type_map c.name (some (type_name c.t)) },
    by simp [DataMap.Add, hnone], rfl, rfl, rfl, ?_, ?_, ?_⟩
  · intro t
    show Function.update m.default_blob c.t (m.default_blob c.t ++ [c.value]) t = _
    rw [typedValues_append, typedValues_single]
    by_cases h : c.t = t
    · subst h
      rw [Function.update_same, hb, if_pos rfl]
    · rw [Function.update_noteq (Ne.symm h), hb, if_neg h, List.append_nil]
  · intro n hnot
    show Function.update m.id_map c.name _ n = none
    simp only [List.map_append, List.map_cons, List.map_nil, List.mem_append,
      List.mem_singleton, not_or] at hnot
    rw [Function.update_noteq hnot.2]
    exact hn n hnot.1
  · intro pre d post hsplit
    show Function.update m.id_map c.name _ d.name = _ ∧
      Function.update m.type_map c.name _ d.name = _
    rcases List.eq_nil_or_concat post with rfl | ⟨post1, x, rfl⟩
    · have h2 := List.append_inj' hsplit (by simp)
      have e1 : cs = pre := h2.1
      have e2 : c = d := by simpa using h2.2
      subst e1; subst e2
      rw [Function.update_same, Function.update_same, hb, typedValues_length]
      exact ⟨rfl, rfl⟩
    · have hsplit2 : cs ++ [c] = (pre ++ d :: post1) ++ [x] := by
        rw [hsplit]; simp
      have h2 := List.append_inj' hsplit2 (by simp)
      have e1 : cs = pre ++ d :: post1 := h2.1
      have hd := hs pre d post1 e1
      have hne : d.name ≠ c.name := by
        intro he
        rw [he, hnone] at hd
        cases hd.1
      rw [Function.update_noteq hne, Function.update_noteq hne]
      exact hd

theorem Holds_addAll {Ty Val : Type} [DecidableEq Ty] (type_name : Ty → String) :
    ∀ (cs cs0 : List (AddCall Ty Val)) (m0 : DataMap Ty Val),
      DataMap.Holds type_name cs0 m0 → ((cs0 ++ cs).map (fun c => c.name)).Nodup →
      ∃ m, DataMap.addAll type_name cs m0 = .ok m ∧ DataMap.Holds type_name (cs0 ++ cs) m := by
  intro cs
  induction cs with
  | nil =>
    intro cs0 m0 h _
    exact ⟨m0, rfl, by simpa using h⟩
  | cons c rest ih =>
    intro cs0 m0 h hnd
    have hnew : c.name ∉ cs0.map (fun c => c.name) := by
      intro hmem
      simp only [List.map_append, List.map_cons] at hnd
      have := (List.nodup_append.1 hnd).2.2
      exact this hmem (by simp)
    obtain ⟨m1, h1, -, -, -, hh⟩ := Holds_Add type_name cs0 m0 c h hnew
    have hnd2 : (((cs0 ++ [c]) ++ rest).map (fun c => c.name)).Nodup := by
      simpa using hnd
    obtain ⟨m, h2, hh2⟩ := ih (cs0 ++ [c]) m1 hh hnd2
    refine ⟨m, ?_, by simpa using hh2⟩
    simp only [DataMap.addAll, h1]
    exact h2

theorem Holds_ids_differ {Ty Val : Type} [DecidableEq Ty] (type_name : Ty → String)
    (cs : List (AddCall Ty Val)) (m : DataMap Ty Val) (hm : DataMap.Holds type_name cs m)
    (c1 c2 : AddCall Ty Val) (h1 : c1 ∈ cs) (h2 : c2 ∈ cs) (hne : c1.name ≠ c2.name)
    (ht : c1.t = c2.t) : m.id_map c1.name ≠ m.id_map c2.name := by
  obtain ⟨pre1, post1, e1⟩ := List.append_of_mem h1
  obtain ⟨pre2, post2, e2⟩ := List.append_of_mem h2
  have a1 := (hm.2.2 pre1 c1 post1 e1).1
  have a2 := (hm.2.2 pre2 c2 post2 e2).1
  rw [a1, a2]
  intro heq
  have heq : typedCount c1.t pre1 = typedCount c2.t pre2 := Option.some.inj heq
  have hsp : pre1 ++ c1 :: post1 = pre2 ++ c2 :: post2 := e1.symm.trans e2
  rcases List.append_eq_append_iff.1 hsp with ⟨a, ha1, ha2⟩ | ⟨a, ha1, ha2⟩
  · cases a with
    | nil =>
      simp only [List.nil_append, List.cons.injEq] at ha2
      exact hne (by rw [ha2.1])
    | cons x a =>
      simp only [List.cons_append, List.cons.injEq] at ha2
      obtain ⟨rfl, -⟩ := ha2
      rw [ha1, typedCount_append, ← ht] at heq
      have : typedCount c1.t (c1 :: a) ≥ 1 := by
        have := typedCount_append c1.t [c1] a
        simp only [List.singleton_append] at this
        rw [this, typedCount_single, if_pos rfl]
        omega
      omega
  · cases a with
    | nil =>
      simp only [List.nil_append, List.cons.injEq] at ha2
      exact hne (by rw [ha2.1])
    | cons x a =>
      simp only [List.cons_append, List.cons.injEq] at ha2
      obtain ⟨rfl, -⟩ := ha2
      rw [ha1, typedCount_append, ht] at heq
      have : typedCount c2.t (c2 :: a) ≥ 1 := by
        have := typedCount_append c2.t [c2] a
        simp only [List.singleton_append] at this
        rw [this, typedCount_single, if_pos rfl]
        omega
      omega

theorem Holds_lookup {Ty Val : Type} [DecidableEq Ty] (type_name : Ty → String)
    (cs : List (AddCall Ty Val)) (m : DataMap Ty Val) (hm : DataMap.Holds type_name cs m)
    (pre : List (AddCall Ty Val)) (c : AddCall Ty Val) (post : List (AddCall Ty Val))
    (hsplit : cs = pre ++ c :: post) :
    m.GetID c.name = .ok (typedCount c.t pre) ∧
    m.GetType c.name = .ok (type_name c.t) ∧
    m.GetDefault_id c.t (typedCount c.t pre) = .ok c.value ∧
    m.GetDefault_const type_name c.t c.name = .ok c.value ∧
    m.GetDefault type_name c.t c.name = .ok (c.value, m) := by
  obtain ⟨hid, hty⟩ := hm.2.2 pre c post hsplit
  have hval : (m.default_blob c.t)[typedCount c.t pre]? = some c.value := by
    rw [hm.1, hsplit, typedValues_append, ← typedValues_length,
      List.getElem?_append_right (Nat.le_refl _), Nat.sub_self]
    have : typedValues c.t (c :: post) = c.value :: typedValues c.t post := by
      simp [typedValues]
    rw [this]
    simp
  have hgid : m.GetDefault_id c.t (typedCount c.t pre) = .ok c.value := by
    simp only [DataMap.GetDefault_id, hval]
  refine ⟨?_, ?_, hgid, ?_, ?_⟩
  · simp only [DataMap.GetID, hid]
  · simp only [DataMap.GetType, hid, hty]
  · simp only [DataMap.GetDefault_const, hid, hty, ne_eq, not_true_eq_false, if_false, hgid]
  · simp only [DataMap.GetDefault, hid, hty, ne_eq, not_true_eq_false, if_false, hgid]

/-- C33: for every map built by calls of `Add` with pairwise distinct names, and every
name not among them, `Add<T>(name, value)` returns; afterwards `GetID(name)` is the number
of earlier entries of type `T`, `GetDefault<T>(name)` (on a const map or not, the latter
leaving the map as it is) and `GetDefault<T>(GetID(name))` return `value`, and
`GetType(name)` is the name of `T`; every name added earlier has the id, type and default
value it had; and two entries of the same type with different names have different ids. -/
theorem DataMap_Add_registers {Ty Val : Type} [DecidableEq Ty] (type_name : Ty → String)
    (cs : List (AddCall Ty Val)) (c : AddCall Ty Val)
    (hnd : ((cs ++ [c]).map (fun c => c.name)).Nodup) :
    ∃ m m1, DataMap.addAll type_name cs DataMap.init = .ok m ∧
      m.id_map c.name = none ∧
      m.Add type_name c.t c.name c.value = .ok m1 ∧
      m1.GetID c.name = .ok (typedCount c.t cs) ∧
      m1.GetDefault type_name c.t c.name = .ok (c.value, m1) ∧
      m1.GetDefault_const type_name c.t c.name = .ok c.value ∧
      m1.GetDefault_id c.t (typedCount c.t cs) = .ok c.value ∧
      m1.GetType c.name = .ok (type_name c.t) ∧
      (∀ d ∈ cs, ∃ id, m.GetID d.name = .ok id ∧ m1.GetID d.name = .ok id ∧
        m.GetType d.name = .ok (type_name d.t) ∧ m1.GetType d.name = .ok (type_name d.t) ∧
        m.GetDefault_const type_name d.t d.name = .ok d.value ∧
        m1.GetDefault_const type_name d.t d.name = .ok d.value ∧
        m.GetDefault_id d.t id = .ok d.value ∧ m1.GetDefault_id d.t id = .ok d.value) ∧
      (∀ c1 ∈ cs ++ [c], ∀ c2 ∈ cs ++ [c], c1.name ≠ c2.name → c1.t = c2.t →
        m1.GetID c1.name ≠ m1.GetID c2.name) := by
  have hnd0 : (([] ++ cs).map (fun c : AddCall Ty Val => c.name)).Nodup := by
    simp only [List.map_append, List.nil_append] at hnd ⊢
    exact (List.nodup_append.1 hnd).1
  obtain ⟨m, hm, hh⟩ := Holds_addAll type_name cs [] DataMap.init (Holds_init type_name) hnd0
  simp only [List.nil_append] at hh
  have hnew : c.name ∉ cs.map (fun c => c.name) := by
    intro hmem
    simp only [List.map_append, List.map_cons, List.map_nil] at hnd
    exact (List.nodup_append.1 hnd).2.2 hmem (by simp)
  obtain ⟨m1, h1, -, -, -, hh1⟩ := Holds_Add type_name cs m c hh hnew
  obtain ⟨a1, a2, a3, a4, a5⟩ := Holds_lookup type_name (cs ++ [c]) m1 hh1 cs c [] rfl
  refine ⟨m, m1, hm, hh.2.1 _ hnew, h1, a1, a5, a4, a3, a2, ?_, ?_⟩
  · intro d hd
    obtain ⟨pre, post, e⟩ := List.append_of_mem hd
    obtain ⟨b1, b2, b3, b4, -⟩ := Holds_lookup type_name cs m hh pre d post e
    obtain ⟨c1, c2, c3, c4, -⟩ :=
      Holds_lookup type_name (cs ++ [c]) m1 hh1 pre d (post ++ [c]) (by rw [e]; simp)
    exact ⟨_, b1, c1, b2, c2, b4, c4, b3, c3⟩
  · intro c1 h1 c2 h2 hne ht heq
    have k1 : ∃ i, m1.id_map c1.name = some i := by
      obtain ⟨pre, post, e⟩ := List.append_of_mem h1
      exact ⟨_, (hh1.2.2 pre c1 post e).1⟩
    have k2 : ∃ i, m1.id_map c2.name = some i := by
      obtain ⟨pre, post, e⟩ := List.append_of_mem h2
      exact ⟨_, (hh1.2.2 pre c2 post e).1⟩
    obtain ⟨i1, e1⟩ := k1
    obtain ⟨i2, e2⟩ := k2
    apply Holds_ids_differ type_name (cs ++ [c]) m1 hh1 c1 c2 h1 h2 hne ht
    simp only [DataMap.GetID, e1, e2, Except.ok.injEq] at heq
    rw [e1, e2, heq]

/-- Witness for C33: after `Add<int>("a", 5)` and `Add<double>("x", 2)`, the call
`Add<int>("b", 7)` gives `"b"` the id 1, the type name of `int` and the default 7, and
`"a"` and `"x"` keep their types and defaults. -/
theorem DataMap_Add_registers_witness :
    ∃ m m1, DataMap.addAll exTypeName exAdds DataMap.init = .ok m ∧
      m.Add exTypeName .int "b" (7 : Int) = .ok m1 ∧
      m1.GetID "b" = .ok 1 ∧ m1.GetType "b" = .ok "i" ∧
      m1.GetDefault_const exTypeName .int "b" = .ok 7 ∧
      m1.GetDefault_id .int 1 = .ok 7 ∧
      m1.GetDefault_const exTypeName .int "a" = .ok 5 ∧
      m1.GetType "x" = .ok "d" := by
  obtain ⟨m, m1, h1, -, h3, h4, -, h6, h7, h8, h9, -⟩ :=
    DataMap_Add_registers exTypeName exAdds ⟨.int, "b", 7⟩ (by decide)
  obtain ⟨-, -, -, -, -, -, ka, -⟩ := h9 ⟨.int, "a", 5⟩ (by simp [exAdds])
  obtain ⟨-, -, -, -, kx, -⟩ := h9 ⟨.double, "x", 2⟩ (by simp [exAdds])
  exact ⟨m, m1, h1, h3, h4, h8, h6, h7, ka, kx⟩

theorem random_loop_mono (e_count : Nat) : ∀ (extra : List (Nat × Nat)) (e_cur : Nat)
    (g g1 : Graph), random_loop e_count extra e_cur g = .ok (some g1) →
    g1.size = g.size ∧ g.edges ⊆ g1.edges := by
  intro extra
  induction extra with
  | nil =>
    intro e_cur g g1 h
    unfold random_loop at h
    split_ifs at h with hc
    · injection h with h
      cases h
    · injection h with h
      injection h with h
      subst h
      exact ⟨rfl, Finset.Subset.refl _⟩
  | cons p rest ih =>
    intro e_cur g g1 h
    rcases p with ⟨a, b⟩
    unfold random_loop at h
    split_ifs at h with hc hab
    · exact ih e_cur g g1 h
    · rcases hhe : g.HasEdge a b with e | r
      · rw [hhe] at h
        cases h
      · rw [hhe] at h
        obtain ⟨ha, hb, -⟩ := HasEdge_inv g a b r hhe
        rcases r with _ | _
        · simp only [AddEdgePair_ok g a b ha hb] at h
          obtain ⟨r1, r2⟩ := ih (e_cur + 1) _ g1 h
          exact ⟨r1, fun e he => r2 (by simp [he])⟩
        · simp only [] at h
          exact ih e_cur g g1 h
    · injection h with h
      injection h with h
      subst h
      exact ⟨rfl, Finset.Subset.refl _⟩

theorem random_loop_done (e_count : Nat) (extra : List (Nat × Nat)) (e_cur : Nat) (g : Graph)
    (h : e_count ≤ e_cur) : random_loop e_count extra e_cur g = .ok (some g) := by
  cases extra with
  | nil => unfold random_loop; rw [if_neg (by omega)]
  | cons p rest =>
    rcases p with ⟨a, b⟩
    unfold random_loop
    rw [if_neg (by omega)]

theorem print_solution_eq (v : List Nat) : print_solution v.length v = .ok v := by
  unfold print_solution
  have h : ∀ (l : List Nat), (∀ i ∈ l, i < v.length) →
      l.mapM (fun i => vec_at v i) = .ok (l.map (vmap v)) := by
    intro l
    induction l with
    | nil => intro _; rfl
    | cons i l ih =>
      intro hl
      rw [List.mapM_cons, vec_at_ok v i (hl i (by simp)), ih (fun j hj => hl j (by simp [hj]))]
      rfl
  rw [h _ (fun i hi => List.mem_range.1 hi)]
  congr 1
  apply List.ext_getElem
  · simp
  · intro i h1 h2
    simp only [List.getElem_map, List.getElem_range]
    exact vmap_eq v i h2

theorem to_size_of_nonneg (i : Int) (h0 : 0 ≤ i) (h1 : i < 2 ^ 64) : to_size i = i.toNat := by
  unfold to_size
  rw [Int.emod_eq_of_lt h0 h1]

theorem ring_facts (n : Nat) (v : List Nat) (hn : 3 ≤ n) (hs : IsShuffle n v) (g : Graph)
    (hsize : g.size = n) (hedges : g.edges = mappedEdges v (ringPairs n)) :
    g.Symmetric ∧ g.NoSelfLoop ∧ g.InRange ∧ g.edges.card = 2 * n := by
  have hr := ringPairs_range n (by omega)
  refine ⟨?_, ?_, ?_, ?_⟩
  · intro a b hab
    rw [hedges] at hab ⊢
    exact mappedEdges_symm _ _ a b hab
  · intro a
    rw [hedges]
    refine mappedEdges_irrefl hs _ hr ?_ a
    intro q hq
    have := (ringPairs_mem n q).1 hq
    omega
  · intro e he
    rw [hedges] at he
    obtain ⟨i, j, hi, hj, e1, e2, -⟩ := mem_mappedEdges_of hs _ hr e.1 e.2 he
    rw [hsize, e1, e2]
    exact ⟨hs.lt i hi, hs.lt j hj⟩
  · rw [hedges, card_mappedEdges hs _ hr (ringPairs_asym n hn),
      List.toFinset_card_of_nodup (ringPairs_nodup n), ringPairs_length n (by omega)]

theorem main_hcycle_eq (nodes edges : Int) (v : List Nat) (extra : List (Nat × Nat))
    (hn : 1 ≤ nodes) (hint : nodes < 2 ^ 31) (hs : IsShuffle nodes.toNat v) :
    main_hcycle nodes edges v extra =
      match random_loop (to_size edges) extra nodes.toNat
          ⟨nodes.toNat, mappedEdges v (ringPairs nodes.toNat)⟩ with
      | .error e => .error e
      | .ok none => .ok none
      | .ok (some graph3) => .ok (some (graph3, v)) := by
  have h1 : to_size nodes = nodes.toNat := to_size_of_nonneg nodes (by omega) (by omega)
  have h2 : to_size (nodes - 1) = nodes.toNat - 1 := by
    rw [to_size_of_nonneg (nodes - 1) (by omega) (by omega)]
    omega
  have hring := build_graph_ring_eq nodes.toNat v (by omega) hs
  unfold build_graph_ring at hring
  unfold main_hcycle
  simp only [h1, h2, Graph.Resize]
  have hinit : ({ size := nodes.toNat, edges := ∅ } : Graph) = Graph.init nodes.toNat := rfl
  rw [hinit]
  rcases hf : (List.range' 1 (nodes.toNat - 1)).foldlM
      (fun graph i => addMapped v i (i - 1) graph) (Graph.init nodes.toNat) with e | graph1
  · rw [hf] at hring
    cases hring
  · rw [hf] at hring
    simp only [] at hring ⊢
    rw [hring]
    simp only []
    have hp : print_solution nodes.toNat v = .ok v := by
      have := print_solution_eq v
      rw [hs.length] at this
      exact this
    rw [hp]

/-- C32: for `nodes >= 1` (an `int`) and every outcome `v_map` of the shuffle, whenever the
Hamiltonian-cycle branch of make_graph gets to print (for the pairs `extra` drawn by its
loop), the printed solution is `v_map`, an ordering of `0 .. nodes-1`, and the printed graph
has `nodes` vertices and an edge between every two cyclically consecutive entries of the
solution.  It does print whenever `0 <= edges <= nodes`, and for `nodes >= 3` and
`nodes <= edges <= nodes*(nodes-1)/2` (an `int`) there are draws below `nodes` for which it does. -/
theorem main_hcycle_solution (nodes edges : Int) (v_map : List Nat) (hn : 1 ≤ nodes)
    (hint : nodes < 2 ^ 31) (hs : IsShuffle nodes.toNat v_map) :
    (∀ extra g solution, main_hcycle nodes edges v_map extra = .ok (some (g, solution)) →
      solution = v_map ∧ solution.Perm (List.range nodes.toNat) ∧
      g.GetSize = nodes.toNat ∧
      (∀ i, 1 ≤ i → i < nodes.toNat → g.Adj (vmap solution (i - 1)) (vmap solution i)) ∧
      g.Adj (vmap solution (nodes.toNat - 1)) (vmap solution 0)) ∧
    (∀ extra, 0 ≤ edges → edges ≤ nodes →
      ∃ g, main_hcycle nodes edges v_map extra = .ok (some (g, v_map))) ∧
    (3 ≤ nodes → nodes ≤ edges → edges < 2 ^ 31 →
      2 * edges.toNat ≤ nodes.toNat * (nodes.toNat - 1) →
      ∃ extra, (∀ p ∈ extra, p.1 < nodes.toNat ∧ p.2 < nodes.toNat) ∧
        ∃ g, main_hcycle nodes edges v_map extra = .ok (some (g, v_map))) := by
  have h1n : 1 ≤ nodes.toNat := by omega
  refine ⟨?_, ?_, ?_⟩
  · intro extra g solution h
    rw [main_hcycle_eq nodes edges v_map extra hn hint hs] at h
    rcases hl : random_loop (to_size edges) extra nodes.toNat
        ⟨nodes.toNat, mappedEdges v_map (ringPairs nodes.toNat)⟩ with e | r
    · rw [hl] at h
      cases h
    · rw [hl] at h
      rcases r with _ | graph3
      · simp only [] at h
        cases h
      · simp only [Except.ok.injEq, Option.some.injEq, Prod.mk.injEq] at h
        obtain ⟨rfl, rfl⟩ := h
        obtain ⟨r1, r2⟩ := random_loop_mono _ _ _ _ _ hl
        refine ⟨rfl, hs, r1, ?_, ?_⟩
        · intro i hi1 hi
          exact r2 ((ring_adj nodes.toNat v_map h1n hs (i - 1) i (by omega) hi).2
            (Or.inl (by simp only [ringNext]; split_ifs <;> omega)))
        · exact r2 ((ring_adj nodes.toNat v_map h1n hs (nodes.toNat - 1) 0 (by omega)
            (by omega)).2 (Or.inl (by simp only [ringNext]; split_ifs <;> omega)))
  · intro extra h0 hle
    rw [main_hcycle_eq nodes edges v_map extra hn hint hs,
      random_loop_done _ _ _ _ (by
        rw [to_size_of_nonneg edges h0 (by omega)]
        omega)]
    exact ⟨_, rfl⟩
  · intro h3 hle hlt hmax
    have he : to_size edges = edges.toNat := to_size_of_nonneg edges (by omega) (by omega)
    obtain ⟨k1, k2, k3, k4⟩ := ring_facts nodes.toNat v_map (by omega) hs
      ⟨nodes.toNat, mappedEdges v_map (ringPairs nodes.toNat)⟩ rfl rfl
    obtain ⟨extra, hex, g, hg⟩ :=
      random_loop_returns nodes.toNat edges.toNat hmax (edges.toNat - nodes.toNat) nodes.toNat
        ⟨nodes.toNat, mappedEdges v_map (ringPairs nodes.toNat)⟩ (by omega) rfl k1 k2 k3 k4
    refine ⟨extra, hex, g, ?_⟩
    rw [main_hcycle_eq nodes edges v_map extra hn hint hs, he, hg]

/-- Witness for C32: four nodes shuffled to `[2, 0, 3, 1]`, five edges asked for; the loop
draws `(0, 2)`, refused as present, then `(0, 1)`, which it adds. -/
theorem main_hcycle_solution_witness :
    IsShuffle 4 [2, 0, 3, 1] ∧
    ∃ g, main_hcycle 4 5 [2, 0, 3, 1] [(0, 2), (0, 1)] = .ok (some (g, [2, 0, 3, 1])) ∧
      g.GetSize = 4 ∧ g.Adj 2 0 ∧ g.Adj 0 3 ∧ g.Adj 3 1 ∧ g.Adj 1 2 := by
  have hs : IsShuffle (4 : Int).toNat [2, 0, 3, 1] := by unfold IsShuffle; decide
  have hret : ∃ g, main_hcycle 4 5 [2, 0, 3, 1] [(0, 2), (0, 1)] =
      .ok (some (g, [2, 0, 3, 1])) := ⟨_, rfl⟩
  obtain ⟨g, hg⟩ := hret
  obtain ⟨-, -, h3, h4, h5⟩ :=
    (main_hcycle_solution 4 5 [2, 0, 3, 1] (by decide) (by decide) hs).1 _ g _ hg
  exact ⟨hs, g, hg, h3, h4 1 (by decide) (by decide), h4 2 (by decide) (by decide),
    h4 3 (by decide) (by decide), h5⟩

theorem foldlM_pairs {α : Type} (body : Graph → α → Except Trap Graph)
    (f : α → List (Nat × Nat)) (l : List α) (h : ∀ i ∈ l, ∀ g, body g i = addPairs (f i) g)
    (g : Graph) : l.foldlM body g = addPairs (l.flatMap f) g := by
  rw [foldlM_congr_mem body (fun graph i => addPairs (f i) graph) l g h, foldlM_addPairs]

theorem stepsFrom_eq (step cc : Nat) (hstep : 0 < step) : ∀ (fuel k : Nat), cc - k ≤ fuel →
    stepsFrom step (step * cc) fuel (k * step) = (List.range' k (cc - k)).map (fun j => j * step) := by
  intro fuel
  induction fuel with
  | zero =>
    intro k h
    have : cc - k = 0 := by omega
    rw [this]
    rfl
  | succ fuel ih =>
    intro k h
    unfold stepsFrom
    by_cases hk : k < cc
    · have hlt : k * step < step * cc := by
        rw [Nat.mul_comm step cc]
        exact Nat.mul_lt_mul_of_pos_right hk hstep
      rw [if_pos hlt]
      have e : k * step + step = (k + 1) * step := by rw [Nat.add_mul, Nat.one_mul]
      rw [e, ih (k + 1) (by omega)]
      have e2 : cc - k = (cc - (k + 1)) + 1 := by omega
      rw [e2, List.range'_succ, List.map_cons]
    · have hge : ¬ k * step < step * cc := by
        rw [Nat.mul_comm step cc]
        intro hlt
        exact hk (Nat.lt_of_mul_lt_mul_right hlt)
      rw [if_neg hge]
      have : cc - k = 0 := by omega
      rw [this]
      rfl

theorem stepsFrom_mem (cs cc : Nat) (hcs : 0 < cs) (k s : Nat)
    (h : s ∈ stepsFrom cs (cs * cc) (cs * cc) (k * cs)) :
    ∃ j, k ≤ j ∧ j < cc ∧ s = j * cs := by
  have hfuel : cc - k ≤ cs * cc := by
    have : cc ≤ cs * cc := Nat.le_mul_of_pos_left cc hcs
    omega
  rw [stepsFrom_eq cs cc hcs (cs * cc) k hfuel] at h
  simp only [List.mem_map, List.mem_range'] at h
  obtain ⟨j, ⟨i, hi, rfl⟩, rfl⟩ := h
  exact ⟨k + 1 * i, by omega, by omega, rfl⟩

theorem stepsFrom_mem_zero (cs cc : Nat) (hcs : 0 < cs) (j : Nat) (hj : j < cc) :
    j * cs ∈ stepsFrom cs (cs * cc) (cs * cc) 0 := by
  have hfuel : cc - 0 ≤ cs * cc := by
    have : cc ≤ cs * cc := Nat.le_mul_of_pos_left cc hcs
    omega
  have h0 := stepsFrom_eq cs cc hcs (cs * cc) 0 hfuel
  rw [Nat.zero_mul] at h0
  rw [h0]
  simp only [List.mem_map, List.mem_range']
  exact ⟨j, ⟨j, by omega, by omega⟩, rfl⟩

theorem block_le (cs cc j : Nat) (hj : j < cc) : j * cs + cs ≤ cs * cc := by
  have h1 : (j + 1) * cs ≤ cc * cs := Nat.mul_le_mul_right cs hj
  rw [Nat.add_mul, Nat.one_mul, Nat.mul_comm cc cs] at h1
  exact h1

theorem flatMap_single {α β : Type} (f : α → β) (l : List α) :
    l.flatMap (fun x => [f x]) = l.map f := by
  induction l with
  | nil => rfl
  | cons a l ih => simp [List.flatMap_cons, ih]

theorem clique_first (cs cc : Nat) (v : List Nat) (hl : v.length = cs * cc) (start : Nat)
    (hstart : ∃ j, j < cc ∧ start = j * cs) (g : Graph) :
    (List.range' start (start + cs - start)).foldlM
        (fun graph1 node1 =>
          (List.range' (node1 + 1) (start + cs - (node1 + 1))).foldlM
            (fun graph2 node2 => addMapped v node1 node2 graph2) graph1) g =
      addPairs ((cliqueInner cs start).map (fun q => (vmap v q.1, vmap v q.2))) g := by
  obtain ⟨j, hj, rfl⟩ := hstart
  have hb := block_le cs cc j hj
  rw [Nat.add_sub_cancel_left]
  rw [foldlM_pairs _ (fun node1 =>
    ((List.range' (node1 + 1) (j * cs + cs - (node1 + 1))).map (fun node2 => (node1, node2))).map
      (fun q => (vmap v q.1, vmap v q.2)))]
  · rw [cliqueInner, List.map_flatMap]
  · intro node1 h1 g1
    simp only [List.mem_range'] at h1
    obtain ⟨i1, hi1, rfl⟩ := h1
    rw [foldlM_pairs _ (fun node2 => [(vmap v (j * cs + 1 * i1), vmap v node2)])]
    · rw [flatMap_single, List.map_map]
      rfl
    · intro node2 h2 g2
      simp only [List.mem_range'] at h2
      obtain ⟨i2, hi2, rfl⟩ := h2
      exact addMapped_ok v _ _ g2 (by omega) (by omega)

theorem clique_second (cs cc : Nat) (v : List Nat) (use : Nat → Nat → Bool)
    (hl : v.length = cs * cc) (start1 start2 : Nat)
    (h1 : ∃ j, j < cc ∧ start1 = j * cs) (h2 : ∃ j, j < cc ∧ start2 = j * cs) (g : Graph) :
    (List.range' start1 (start1 + cs - start1)).foldlM
        (fun graph3 node1 =>
          (List.range' start2 (start2 + cs - start2)).foldlM
            (fun graph4 node2 =>
              if node1 = start1 ∧ node2 = start2 then .ok graph4
              else if use node1 node2 = true then addMapped v node1 node2 graph4
              else .ok graph4) graph3) g =
      addPairs ((cliqueCross cs use start1 start2).map (fun q => (vmap v q.1, vmap v q.2))) g := by
  obtain ⟨j1, hj1, rfl⟩ := h1
  obtain ⟨j2, hj2, rfl⟩ := h2
  have hb1 := block_le cs cc j1 hj1
  have hb2 := block_le cs cc j2 hj2
  rw [Nat.add_sub_cancel_left, Nat.add_sub_cancel_left]
  rw [foldlM_pairs _ (fun node1 =>
    ((List.range' (j2 * cs) cs).flatMap (fun node2 =>
      if node1 = j1 * cs ∧ node2 = j2 * cs then []
      else if use node1 node2 = true then [(node1, node2)] else [])).map
      (fun q => (vmap v q.1, vmap v q.2)))]
  · rw [cliqueCross, List.map_flatMap]
  · intro node1 hn1 g1
    simp only [List.mem_range'] at hn1
    obtain ⟨i1, hi1, rfl⟩ := hn1
    rw [foldlM_pairs _ (fun node2 =>
      (if j1 * cs + 1 * i1 = j1 * cs ∧ node2 = j2 * cs then []
        else if use (j1 * cs + 1 * i1) node2 = true then [(j1 * cs + 1 * i1, node2)] else []).map
        (fun q => (vmap v q.1, vmap v q.2)))]
    · rw [List.map_flatMap]
    · intro node2 hn2 g2
      simp only [List.mem_range'] at hn2
      obtain ⟨i2, hi2, rfl⟩ := hn2
      split_ifs with c1 c2
      · rfl
      · exact addMapped_ok v _ _ g2 (by omega) (by omega)
      · rfl

theorem stepsFrom_mem0 (cs cc : Nat) (hcs : 0 < cs) (s : Nat)
    (h : s ∈ stepsFrom cs (cs * cc) (cs * cc) 0) : ∃ j, j < cc ∧ s = j * cs := by
  have h0 : (0 : Nat) = 0 * cs := by rw [Nat.zero_mul]
  rw [h0] at h
  obtain ⟨j, -, hj, e⟩ := stepsFrom_mem cs cc hcs 0 s h
  exact ⟨j, hj, e⟩

theorem stepsFrom_mem_next (cs cc : Nat) (hcs : 0 < cs) (j s : Nat)
    (h : s ∈ stepsFrom cs (cs * cc) (cs * cc) (j * cs + cs)) :
    ∃ j2, j < j2 ∧ j2 < cc ∧ s = j2 * cs := by
  have h0 : j * cs + cs = (j + 1) * cs := by rw [Nat.add_mul, Nat.one_mul]
  rw [h0] at h
  obtain ⟨j2, h1, h2, e⟩ := stepsFrom_mem cs cc hcs (j + 1) s h
  exact ⟨j2, by omega, h2, e⟩

theorem cliqueInner_mem (cs start : Nat) (q : Nat × Nat) :
    q ∈ cliqueInner cs start ↔ start ≤ q.1 ∧ q.1 < q.2 ∧ q.2 < start + cs := by
  rcases q with ⟨a, b⟩
  simp only [cliqueInner, List.mem_flatMap, List.mem_map, List.mem_range', Prod.mk.injEq]
  constructor
  · rintro ⟨n1, ⟨i1, hi1, rfl⟩, n2, ⟨i2, hi2, rfl⟩, rfl, rfl⟩
    omega
  · rintro ⟨h1, h2, h3⟩
    exact ⟨a, ⟨a - start, by omega, by omega⟩, b, ⟨b - (a + 1), by omega, by omega⟩, rfl, rfl⟩

theorem cliqueCross_mem (cs : Nat) (use : Nat → Nat → Bool) (s1 s2 : Nat) (q : Nat × Nat)
    (h : q ∈ cliqueCross cs use s1 s2) :
    s1 ≤ q.1 ∧ q.1 < s1 + cs ∧ s2 ≤ q.2 ∧ q.2 < s2 + cs ∧ ¬ (q.1 = s1 ∧ q.2 = s2) := by
  rcases q with ⟨a, b⟩
  simp only [cliqueCross, List.mem_flatMap, List.mem_range'] at h
  obtain ⟨n1, ⟨i1, hi1, rfl⟩, n2, ⟨i2, hi2, rfl⟩, hm⟩ := h
  split_ifs at hm with c1 c2
  · simp at hm
  · simp only [List.mem_singleton, Prod.mk.injEq] at hm
    obtain ⟨rfl, rfl⟩ := hm
    exact ⟨by omega, by omega, by omega, by omega, c1⟩
  · simp at hm

theorem cliquePairs_mem (cs cc : Nat) (use : Nat → Nat → Bool) (hcs : 0 < cs) (q : Nat × Nat)
    (h : q ∈ cliquePairs cs (cs * cc) use) :
    (∃ j, j < cc ∧ q ∈ cliqueInner cs (j * cs)) ∨
    (∃ j1 j2, j1 < j2 ∧ j2 < cc ∧ q ∈ cliqueCross cs use (j1 * cs) (j2 * cs)) := by
  simp only [cliquePairs, List.mem_append, List.mem_flatMap] at h
  rcases h with ⟨s, hs, hq⟩ | ⟨s1, hs1, s2, hs2, hq⟩
  · obtain ⟨j, hj, rfl⟩ := stepsFrom_mem0 cs cc hcs s hs
    exact Or.inl ⟨j, hj, hq⟩
  · obtain ⟨j1, hj1, rfl⟩ := stepsFrom_mem0 cs cc hcs s1 hs1
    obtain ⟨j2, h12, hj2, rfl⟩ := stepsFrom_mem_next cs cc hcs j1 s2 hs2
    exact Or.inr ⟨j1, j2, h12, hj2, hq⟩

theorem cliquePairs_of_inner (cs cc : Nat) (use : Nat → Nat → Bool) (hcs : 0 < cs) (j : Nat)
    (hj : j < cc) (q : Nat × Nat) (h : q ∈ cliqueInner cs (j * cs)) :
    q ∈ cliquePairs cs (cs * cc) use := by
  simp only [cliquePairs, List.mem_append, List.mem_flatMap]
  exact Or.inl ⟨j * cs, stepsFrom_mem_zero cs cc hcs j hj, h⟩

theorem cliquePairs_range (cs cc : Nat) (use : Nat → Nat → Bool) (hcs : 0 < cs) :
    ∀ q ∈ cliquePairs cs (cs * cc) use, q.1 < cs * cc ∧ q.2 < cs * cc := by
  intro q hq
  rcases cliquePairs_mem cs cc use hcs q hq with ⟨j, hj, h⟩ | ⟨j1, j2, h12, hj2, h⟩
  · have := (cliqueInner_mem cs (j * cs) q).1 h
    have hb := block_le cs cc j hj
    omega
  · have := cliqueCross_mem cs use _ _ q h
    have hb1 := block_le cs cc j1 (by omega)
    have hb2 := block_le cs cc j2 hj2
    omega

theorem build_graph_clique_set_eq (cs cc : Nat) (v : List Nat) (use : Nat → Nat → Bool)
    (hcs : 0 < cs) (hcc : 0 < cc) (hfit : cs * cc < mabe.SIZE_MOD)
    (hs : IsShuffle (cs * cc) v) :
    build_graph_clique_set cs cc v use =
      .ok ⟨cs * cc, mappedEdges v (cliquePairs cs (cs * cc) use)⟩ := by
  have hl := hs.length
  unfold build_graph_clique_set
  rw [if_neg (by simp [hcs, hcc])]
  simp only [Nat.mod_eq_of_lt hfit]
  rw [foldlM_pairs _ (fun start_id =>
    (cliqueInner cs start_id).map (fun q => (vmap v q.1, vmap v q.2)))
    _ (fun start hstart g => clique_first cs cc v hl start (stepsFrom_mem0 cs cc hcs start hstart) g)]
  have hsecond : ∀ graph : Graph,
      (stepsFrom cs (cs * cc) (cs * cc) 0).foldlM
        (fun graph1 start1 =>
          (stepsFrom cs (cs * cc) (cs * cc) (start1 + cs)).foldlM
            (fun graph2 start2 =>
              (List.range' start1 (start1 + cs - start1)).foldlM
                (fun graph3 node1 =>
                  (List.range' start2 (start2 + cs - start2)).foldlM
                    (fun graph4 node2 =>
                      if node1 = start1 ∧ node2 = start2 then .ok graph4
                      else if use node1 node2 = true then addMapped v node1 node2 graph4
                      else .ok graph4) graph3) graph2) graph1) graph =
      addPairs ((stepsFrom cs (cs * cc) (cs * cc) 0).flatMap (fun start1 =>
        (stepsFrom cs (cs * cc) (cs * cc) (start1 + cs)).flatMap (fun start2 =>
          (cliqueCross cs use start1 start2).map (fun q => (vmap v q.1, vmap v q.2))))) graph := by
    intro graph
    refine foldlM_pairs _ _ _ (fun start1 h1 g => ?_) graph
    obtain ⟨j1, hj1, rfl⟩ := stepsFrom_mem0 cs cc hcs start1 h1
    refine foldlM_pairs _ _ _ (fun start2 h2 g2 => ?_) g
    obtain ⟨j2, -, hj2, rfl⟩ := stepsFrom_mem_next cs cc hcs j1 start2 h2
    exact clique_second cs cc v use hl _ _ ⟨j1, hj1, rfl⟩ ⟨j2, hj2, rfl⟩ g2
  simp only [hsecond]
  have key := addPairs_append
    ((stepsFrom cs (cs * cc) (cs * cc) 0).flatMap (fun start_id =>
      (cliqueInner cs start_id).map (fun q => (vmap v q.1, vmap v q.2))))
    ((stepsFrom cs (cs * cc) (cs * cc) 0).flatMap (fun start1 =>
      (stepsFrom cs (cs * cc) (cs * cc) (start1 + cs)).flatMap (fun start2 =>
        (cliqueCross cs use start1 start2).map (fun q => (vmap v q.1, vmap v q.2)))))
    (Graph.init (cs * cc))
  rw [← key]
  have hmap : (cliquePairs cs (cs * cc) use).map (fun q => (vmap v q.1, vmap v q.2)) =
      (stepsFrom cs (cs * cc) (cs * cc) 0).flatMap (fun start_id =>
        (cliqueInner cs start_id).map (fun q => (vmap v q.1, vmap v q.2))) ++
      (stepsFrom cs (cs * cc) (cs * cc) 0).flatMap (fun start1 =>
        (stepsFrom cs (cs * cc) (cs * cc) (start1 + cs)).flatMap (fun start2 =>
          (cliqueCross cs use start1 start2).map (fun q => (vmap v q.1, vmap v q.2)))) := by
    simp only [cliquePairs, List.map_append, List.map_flatMap]
  rw [← hmap, addPairs_eq]
  · simp only [Graph.init, Finset.empty_union, mappedEdges]
  · intro p hp
    simp only [List.mem_map] at hp
    obtain ⟨q, hq, rfl⟩ := hp
    have := cliquePairs_range cs cc use hcs q hq
    exact ⟨hs.lt _ this.1, hs.lt _ this.2⟩

theorem block_start (cs j k : Nat) (hcs : 0 < cs) (h1 : j * cs ≤ k * cs)
    (h2 : k * cs < j * cs + cs) : k = j := by
  have a : j ≤ k := Nat.le_of_mul_le_mul_right h1 hcs
  have e : j * cs + cs = (j + 1) * cs := by rw [Nat.add_mul, Nat.one_mul]
  rw [e] at h2
  have b : k < j + 1 := Nat.lt_of_mul_lt_mul_right h2
  omega

theorem clique_starts_not_paired (cs cc : Nat) (use : Nat → Nat → Bool) (hcs : 0 < cs)
    (k1 k2 : Nat) (hne : k1 ≠ k2) : (k1 * cs, k2 * cs) ∉ cliquePairs cs (cs * cc) use := by
  intro h
  rcases cliquePairs_mem cs cc use hcs _ h with ⟨j, hj, hq⟩ | ⟨j1, j2, h12, hj2, hq⟩
  · have := (cliqueInner_mem cs (j * cs) _).1 hq
    simp only [] at this
    have e1 := block_start cs j k1 hcs this.1 (by omega)
    have e2 := block_start cs j k2 hcs (by omega) this.2.2
    omega
  · have := cliqueCross_mem cs use _ _ _ hq
    simp only [] at this
    have e1 := block_start cs j1 k1 hcs this.1 this.2.1
    have e2 := block_start cs j2 k2 hcs this.2.2.1 this.2.2.2.1
    subst e1; subst e2
    exact this.2.2.2.2 ⟨rfl, rfl⟩

/-- C31: for `clique_size, clique_count > 0` whose product fits a `size_t`, every outcome
`v_map` of the shuffle and every outcome of the calls `random.P(extra_prob)`,
`build_graph_clique_set` returns a symmetric graph on `clique_size * clique_count` vertices
in which any two different positions `i`, `j` of one block `k*clique_size ..
(k+1)*clique_size-1` have `v_map[i]` and `v_map[j]` joined, and the first members
`v_map[k*clique_size]` of two different blocks are never joined. -/
theorem build_graph_clique_set_cliques (clique_size clique_count : Nat) (v_map : List Nat)
    (use : Nat → Nat → Bool) (hcs : 0 < clique_size) (hcc : 0 < clique_count)
    (hfit : clique_size * clique_count < mabe.SIZE_MOD)
    (hs : IsShuffle (clique_size * clique_count) v_map) :
    ∃ g, build_graph_clique_set clique_size clique_count v_map use = .ok g ∧
      g.GetSize = clique_size * clique_count ∧ g.Symmetric ∧ g.NoSelfLoop ∧
      (∀ k i j, k < clique_count →
        k * clique_size ≤ i → i < k * clique_size + clique_size →
        k * clique_size ≤ j → j < k * clique_size + clique_size → i ≠ j →
        vmap v_map i ≠ vmap v_map j ∧ g.Adj (vmap v_map i) (vmap v_map j)) ∧
      (∀ k1 k2, k1 < clique_count → k2 < clique_count → k1 ≠ k2 →
        vmap v_map (k1 * clique_size) ≠ vmap v_map (k2 * clique_size) ∧
        ¬ g.Adj (vmap v_map (k1 * clique_size)) (vmap v_map (k2 * clique_size))) := by
  have hr := cliquePairs_range clique_size clique_count use hcs
  have hstart : ∀ k, k < clique_count → k * clique_size < clique_size * clique_count := by
    intro k hk
    have := block_le clique_size clique_count k hk
    omega
  refine ⟨_, build_graph_clique_set_eq clique_size clique_count v_map use hcs hcc hfit hs, rfl,
    fun a b hab => mappedEdges_symm _ _ a b hab, ?_, ?_, ?_⟩
  · intro a
    refine mappedEdges_irrefl hs _ hr ?_ a
    intro q hq
    rcases cliquePairs_mem clique_size clique_count use hcs q hq with
      ⟨j, hj, h⟩ | ⟨j1, j2, h12, hj2, h⟩
    · have := (cliqueInner_mem clique_size (j * clique_size) q).1 h
      omega
    · have := cliqueCross_mem clique_size use _ _ q h
      have hlt : j1 * clique_size + clique_size ≤ j2 * clique_size := by
        have h1 : (j1 + 1) * clique_size ≤ j2 * clique_size :=
          Nat.mul_le_mul_right clique_size h12
        rw [Nat.add_mul, Nat.one_mul] at h1
        exact h1
      omega
  · intro k i j hk hi1 hi2 hj1 hj2 hij
    have hb := block_le clique_size clique_count k hk
    have hi : i < clique_size * clique_count := by omega
    have hj : j < clique_size * clique_count := by omega
    refine ⟨fun e => hij (hs.inj i j hi hj e), ?_⟩
    refine (mem_mappedEdges hs _ hr i j hi hj).2 ?_
    rcases Nat.lt_or_gt_of_ne hij with hlt | hgt
    · exact Or.inl (cliquePairs_of_inner clique_size clique_count use hcs k hk (i, j)
        ((cliqueInner_mem clique_size (k * clique_size) (i, j)).2 ⟨hi1, hlt, hj2⟩))
    · exact Or.inr (cliquePairs_of_inner clique_size clique_count use hcs k hk (j, i)
        ((cliqueInner_mem clique_size (k * clique_size) (j, i)).2 ⟨hj1, hgt, hi2⟩))
  · intro k1 k2 hk1 hk2 hne
    have h1 := hstart k1 hk1
    have h2 := hstart k2 hk2
    refine ⟨fun e => ?_, fun hadj => ?_⟩
    · have := hs.inj _ _ h1 h2 e
      exact hne (Nat.eq_of_mul_eq_mul_right hcs this)
    · rcases (mem_mappedEdges hs _ hr _ _ h1 h2).1 hadj with h | h
      · exact clique_starts_not_paired clique_size clique_count use hcs k1 k2 hne h
      · exact clique_starts_not_paired clique_size clique_count use hcs k2 k1 (Ne.symm hne) h

/-- Witness for C31: two cliques of two vertices, shuffled to `[3, 1, 0, 2]`, every call
`random.P` saying yes: 3 and 1 are joined, 0 and 2 are joined, and the first members 3 and 0
are not. -/
theorem build_graph_clique_set_cliques_witness :
    IsShuffle 4 [3, 1, 0, 2] ∧
    ∃ g, build_graph_clique_set 2 2 [3, 1, 0, 2] (fun _ _ => true) = .ok g ∧
      g.GetSize = 4 ∧ g.Adj 3 1 ∧ g.Adj 0 2 ∧ ¬ g.Adj 3 0 := by
  have hs : IsShuffle (2 * 2) [3, 1, 0, 2] := by unfold IsShuffle; decide
  obtain ⟨g, h1, h2, -, -, h5, h6⟩ :=
    build_graph_clique_set_cliques 2 2 [3, 1, 0, 2] (fun _ _ => true) (by decide) (by decide)
      (by norm_num [mabe.SIZE_MOD]) hs
  exact ⟨hs, g, h1, h2,
    (h5 0 0 1 (by decide) (by decide) (by decide) (by decide) (by decide) (by decide)).2,
    (h5 1 2 3 (by decide) (by decide) (by decide) (by decide) (by decide) (by decide)).2,
    (h6 0 1 (by decide) (by decide) (by decide)).2⟩

end emp
